import Mathlib

/-!
# Redis-streams: a shallow embedding of the stream engine

The definitions below follow `src/src/*.cpp` function by function.

Modelling conventions
* `uint64_t` values are natural numbers below `2 ^ 64`; every place where the
  source can wrap (`last_id_.sequence + 1`, the negation done by `strtoull`)
  carries an explicit `% 2 ^ 64`.
* `std::string` is `String`; one `Char` stands for one `char`.
* `std::map<StreamID, StreamEntry>` is a list of key/value pairs kept in
  strictly ascending key order; iterators are positions in that list.
* `std::unordered_map` / `std::unordered_set` are lists without repeated keys.
* A thrown `std::exception` is the `error` side of `Except`; `what()` is kept.
* The wall clock is an input of every function that reads it.
* Mutexes are not modelled: every function runs atomically.
-/

set_option maxRecDepth 100000

namespace RedisStreams

/-- The value `UINT64_MAX + 1`. -/
def U64 : Nat := 2 ^ 64

/-- The constant `UINT64_MAX`. -/
def UINT64_MAX : Nat := 2 ^ 64 - 1

/-- The exceptions the engine throws, all derived from `std::exception`. -/
inductive Exception where
  | invalid_argument (msg : String)
  | out_of_range (msg : String)
  | length_error (msg : String)
deriving DecidableEq, Repr

deriving instance DecidableEq for Except

/-- The text returned by `std::exception::what()`. -/
def Exception.what : Exception → String
  | .invalid_argument m => m
  | .out_of_range m => m
  | .length_error m => m

/-! ## `std::stoull` (base 10, no end-position output) -/

/-- The C locale `isspace`: space, `\t`, `\n`, `\v`, `\f`, `\r`. -/
def c_isspace (c : Char) : Bool :=
  c.toNat = 32 || (9 ≤ c.toNat && c.toNat ≤ 13)

/-- The C locale `isdigit`. -/
def c_isdigit (c : Char) : Bool :=
  48 ≤ c.toNat && c.toNat ≤ 57

/-- Drops the leading white space, as `strtoull` does first. -/
def skip_space : List Char → List Char
  | [] => []
  | c :: cs => if c_isspace c then skip_space cs else c :: cs

/-- Accumulates the leading run of decimal digits (unbounded, so that the
overflow test of `strtoull` can be made on the exact value). -/
def digits_value : List Char → Nat → Nat
  | [], acc => acc
  | c :: cs, acc => if c_isdigit c then digits_value cs (acc * 10 + (c.toNat - 48)) else acc

/-- The unsigned conversion on the characters that follow the white space:
an optional sign, then at least one digit; text after the digits is ignored.
A leading `-` negates the value in `uint64_t`. Without a digit the call
throws `std::invalid_argument`, and `std::out_of_range` when the magnitude
exceeds `UINT64_MAX`; in libstdc++ both carry the text `stoull`. -/
def stoull_signed (neg : Bool) (ds : List Char) : Except Exception Nat :=
  match ds with
  | [] => .error (.invalid_argument "stoull")
  | d :: _ =>
    if c_isdigit d then
      let v := digits_value ds 0
      if v ≥ U64 then .error (.out_of_range "stoull")
      else .ok (if neg then (U64 - v) % U64 else v)
    else .error (.invalid_argument "stoull")

/-- The function `std::stoull(const std::string&)` on the characters. -/
def stoull_chars (cs : List Char) : Except Exception Nat :=
  match skip_space cs with
  | [] => stoull_signed false []
  | c :: r =>
    if c = '-' then stoull_signed true r
    else if c = '+' then stoull_signed false r
    else stoull_signed false (c :: r)

/-- The function `std::stoull(const std::string&)`. -/
def stoull (s : String) : Except Exception Nat := stoull_chars s.data

/-! ## `StreamID` -/

/-- The struct `StreamID`: two `uint64_t` fields. -/
structure StreamID where
  timestamp_ms : Nat
  sequence : Nat
deriving DecidableEq, Repr

namespace StreamID

/-- Both fields fit in `uint64_t`. -/
def valid (a : StreamID) : Prop := a.timestamp_ms < U64 ∧ a.sequence < U64

instance (a : StreamID) : Decidable a.valid := by
  unfold valid; exact inferInstance

/-- The operator `StreamID::operator<`. -/
def lt (a other : StreamID) : Bool :=
  if a.timestamp_ms ≠ other.timestamp_ms then decide (a.timestamp_ms < other.timestamp_ms)
  else decide (a.sequence < other.sequence)

/-- The operator `StreamID::operator==`. -/
def eq (a other : StreamID) : Bool :=
  decide (a.timestamp_ms = other.timestamp_ms) && decide (a.sequence = other.sequence)

/-- The operator `StreamID::operator>`: `other < *this`. -/
def gt (a other : StreamID) : Bool := lt other a

/-- The operator `StreamID::operator<=`. -/
def le (a other : StreamID) : Bool := lt a other || eq a other

/-- The operator `StreamID::operator>=`. -/
def ge (a other : StreamID) : Bool := gt a other || eq a other

/-- The operator `StreamID::operator!=`. -/
def ne (a other : StreamID) : Bool := !(eq a other)

/-- The method `StreamID::to_string`. -/
def to_string (a : StreamID) : String :=
  Nat.repr a.timestamp_ms ++ "-" ++ Nat.repr a.sequence

/-- The function `StreamID::generate_auto`; `now` is the clock reading in
milliseconds, cast to `uint64_t`. -/
def generate_auto (now : Nat) : StreamID := ⟨now % U64, 0⟩

/-- The position of the first `-`, as `std::string::find`. -/
def find_dash : List Char → Option Nat
  | [] => none
  | c :: cs => if c = '-' then some 0 else (find_dash cs).map (· + 1)

/-- The function `StreamID::from_string`. -/
def from_string (now : Nat) (id_str : String) : Except Exception StreamID :=
  if id_str = "*" then .ok (generate_auto now)
  else
    match find_dash id_str.data with
    | none => .error (.invalid_argument "Invalid stream ID format")
    | some dash_pos =>
      match stoull_chars (id_str.data.take dash_pos) with
      | .error e => .error e
      | .ok timestamp =>
        let seq_str := id_str.data.drop (dash_pos + 1)
        if seq_str = ['*'] then .ok ⟨timestamp, 0⟩
        else
          match stoull_chars seq_str with
          | .error e => .error e
          | .ok sequence => .ok ⟨timestamp, sequence⟩

end StreamID

/-! ## `StreamEntry` -/

/-- The assignment `fields_[key] = value` on an `unordered_map`. -/
def map_assign {V : Type} (key : String) (value : V) : List (String × V) → List (String × V)
  | [] => [(key, value)]
  | (k, v) :: rest => if k = key then (k, value) :: rest else (k, v) :: map_assign key value rest

/-- The lookup `find(key)` on an `unordered_map`. -/
def map_find {V : Type} (key : String) : List (String × V) → Option V
  | [] => none
  | (k, v) :: rest => if k = key then some v else map_find key rest

/-- The removal `erase(key)` on an `unordered_map`: no element with that key
remains. -/
def map_erase {V : Type} (key : String) : List (String × V) → List (String × V)
  | [] => []
  | (k, v) :: rest => if k = key then map_erase key rest else (k, v) :: map_erase key rest

/-- The class `StreamEntry`. -/
structure StreamEntry where
  id_ : StreamID
  fields_ : List (String × String)
deriving DecidableEq, Repr

/-- The constructor `StreamEntry::StreamEntry`: later pairs overwrite earlier
ones with the same field name. -/
def StreamEntry.mk_from (id : StreamID) (fields : List (String × String)) : StreamEntry :=
  ⟨id, fields.foldl (fun m f => map_assign f.1 f.2 m) []⟩

/-- The accessor `StreamEntry::get_id`. -/
def StreamEntry.get_id (e : StreamEntry) : StreamID := e.id_

/-! ## The ordered map `std::map<StreamID, StreamEntry>` -/

/-- The ordered map of entries: pairs in strictly ascending key order. -/
abbrev EntryMap := List (StreamID × StreamEntry)

/-- The call `emplace(key, value)`: inserts at the ordered position, and does
nothing when the key is already present. -/
def EntryMap.emplace (key : StreamID) (value : StreamEntry) : EntryMap → EntryMap
  | [] => [(key, value)]
  | (k, v) :: rest =>
    if key.lt k then (key, value) :: (k, v) :: rest
    else if k.lt key then (k, v) :: EntryMap.emplace key value rest
    else (k, v) :: rest

/-- The call `lower_bound(key)`: position of the first element whose key is
not less than `key`. -/
def EntryMap.lower_bound (key : StreamID) : EntryMap → Nat
  | [] => 0
  | (k, _) :: rest => if k.lt key then EntryMap.lower_bound key rest + 1 else 0

/-- The call `upper_bound(key)`: position of the first element whose key is
greater than `key`. -/
def EntryMap.upper_bound (key : StreamID) : EntryMap → Nat
  | [] => 0
  | (k, _) :: rest => if key.lt k then 0 else EntryMap.upper_bound key rest + 1

/-- The call `erase(key)`, returning the number of elements removed. -/
def EntryMap.erase (key : StreamID) : EntryMap → EntryMap × Nat
  | [] => ([], 0)
  | (k, v) :: rest =>
    if k.eq key then (rest, 1)
    else ((k, v) :: (EntryMap.erase key rest).1, (EntryMap.erase key rest).2)

/-! ## `Consumer` -/

/-- The class `Consumer`; `pending_messages_` holds the text form of the IDs. -/
structure Consumer where
  name_ : String
  seen_time_ : Nat
  pending_messages_ : List String
deriving DecidableEq, Repr

namespace Consumer

/-- The constructor `Consumer::Consumer`, which calls `update_seen_time`. -/
def mk_new (now : Nat) (name : String) : Consumer := ⟨name, now % U64, []⟩

/-- The method `Consumer::update_seen_time`. -/
def update_seen_time (now : Nat) (c : Consumer) : Consumer :=
  { c with seen_time_ := now % U64 }

/-- The method `Consumer::add_pending_message`: set insertion. -/
def add_pending_message (c : Consumer) (id : StreamID) : Consumer :=
  if id.to_string ∈ c.pending_messages_ then c
  else { c with pending_messages_ := c.pending_messages_ ++ [id.to_string] }

/-- The method `Consumer::remove_pending_message`: set removal. -/
def remove_pending_message (c : Consumer) (id : StreamID) : Consumer :=
  { c with pending_messages_ := c.pending_messages_.filter (fun s => s ≠ id.to_string) }

/-- The method `Consumer::has_pending_message`. -/
def has_pending_message (c : Consumer) (id : StreamID) : Bool :=
  decide (id.to_string ∈ c.pending_messages_)

end Consumer

/-! ## `ConsumerGroup` -/

/-- The struct `ConsumerGroup::PendingEntry`. -/
structure PendingEntry where
  id : StreamID
  consumer_name : String
  delivery_time : Nat
  delivery_count : Int
deriving DecidableEq, Repr

/-- The class `ConsumerGroup`; `pending_entries_` (the PEL) is keyed by the
text form of the ID. -/
structure ConsumerGroup where
  name_ : String
  last_delivered_id_ : StreamID
  consumers_ : List (String × Consumer)
  pending_entries_ : List (String × PendingEntry)
deriving DecidableEq, Repr

/-- A mutation made through the `shared_ptr` stored under `key`. -/
def map_modify {V : Type} (key : String) (f : V → V) : List (String × V) → List (String × V)
  | [] => []
  | (k, v) :: rest => if k = key then (k, f v) :: rest else (k, v) :: map_modify key f rest

namespace ConsumerGroup

/-- The constructor `ConsumerGroup::ConsumerGroup`. -/
def mk_new (name : String) (start_id : StreamID) : ConsumerGroup := ⟨name, start_id, [], []⟩

/-- The accessor `ConsumerGroup::get_last_delivered_id`. -/
def get_last_delivered_id (g : ConsumerGroup) : StreamID := g.last_delivered_id_

/-- The method `ConsumerGroup::get_or_create_consumer`; the consumer itself
stays in `consumers_` and is later mutated in place through `map_modify`. -/
def get_or_create_consumer (now : Nat) (g : ConsumerGroup) (consumer_name : String) :
    ConsumerGroup :=
  match map_find consumer_name g.consumers_ with
  | some _ => g
  | none =>
    { g with consumers_ := map_assign consumer_name (Consumer.mk_new now consumer_name) g.consumers_ }

/-- The method `ConsumerGroup::get_consumer_names`. -/
def get_consumer_names (g : ConsumerGroup) : List String := g.consumers_.map (·.1)

/-- The loop of `ConsumerGroup::read_pending_messages`; `delivered` is the
loop counter and `clk k` the clock reading taken for the `k`-th delivery. -/
def read_loop (consumer_name : String) (count : Int) (clk : Nat → Nat) :
    List StreamEntry → ConsumerGroup → Int → List StreamEntry × ConsumerGroup
  | [], g, _ => ([], g)
  | entry :: rest, g, delivered =>
    if count > 0 ∧ delivered ≥ count then ([], g)
    else if entry.get_id.gt g.last_delivered_id_ then
      let pending : PendingEntry :=
        ⟨entry.get_id, consumer_name, clk delivered.toNat % U64, 1⟩
      let g1 := { g with
        pending_entries_ := map_assign entry.get_id.to_string pending g.pending_entries_ }
      let g2 := { g1 with
        consumers_ := map_modify consumer_name (fun c => c.add_pending_message entry.get_id)
          g1.consumers_ }
      let g3 := { g2 with last_delivered_id_ := entry.get_id }
      let r := read_loop consumer_name count clk rest g3 (delivered + 1)
      (entry :: r.1, r.2)
    else read_loop consumer_name count clk rest g delivered

/-- The method `ConsumerGroup::read_pending_messages`. The clock readings are
`now_create` (constructor of a new consumer), `now_seen` (`update_seen_time`)
and `clk k` for the `k`-th delivered entry. -/
def read_pending_messages (now_create now_seen : Nat) (clk : Nat → Nat) (g : ConsumerGroup)
    (consumer_name : String) (available_entries : List StreamEntry) (count : Int) :
    List StreamEntry × ConsumerGroup :=
  let g0 := g.get_or_create_consumer now_create consumer_name
  let g1 := { g0 with
    consumers_ := map_modify consumer_name (Consumer.update_seen_time now_seen) g0.consumers_ }
  read_loop consumer_name count clk available_entries g1 0

/-- The loop of `ConsumerGroup::acknowledge_messages`. -/
def ack_loop (consumer_name : String) : List StreamID → ConsumerGroup → Int → Int × ConsumerGroup
  | [], g, acknowledged => (acknowledged, g)
  | id :: rest, g, acknowledged =>
    let id_str := id.to_string
    let hit : Bool :=
      match map_find id_str g.pending_entries_ with
      | some pe => decide (pe.consumer_name = consumer_name)
      | none => false
    let g1 := if hit then { g with pending_entries_ := map_erase id_str g.pending_entries_ } else g
    let acknowledged1 := if hit then acknowledged + 1 else acknowledged
    let g2 := { g1 with
      consumers_ := map_modify consumer_name (fun c => c.remove_pending_message id) g1.consumers_ }
    ack_loop consumer_name rest g2 acknowledged1

/-- The method `ConsumerGroup::acknowledge_messages`. -/
def acknowledge_messages (now_create : Nat) (g : ConsumerGroup) (consumer_name : String)
    (ids : List StreamID) : Int × ConsumerGroup :=
  ack_loop consumer_name ids (g.get_or_create_consumer now_create consumer_name) 0

/-- The method `ConsumerGroup::set_last_delivered_id`. -/
def set_last_delivered_id (g : ConsumerGroup) (id : StreamID) : ConsumerGroup :=
  { g with last_delivered_id_ := id }

end ConsumerGroup

/-! ## `Stream` -/

/-- The class `Stream`. The list `blocked_clients_` is left out: the only
code that reads it is `notify_blocked_clients`, which empties it. -/
structure Stream where
  entries_ : EntryMap
  consumer_groups_ : List (String × ConsumerGroup)
  last_id_ : StreamID
deriving DecidableEq, Repr

namespace Stream

/-- The constructor `Stream::Stream`. -/
def mk_new : Stream := ⟨[], [], ⟨0, 0⟩⟩

/-- The method `Stream::add_entry`; `now` is the clock reading used by
`StreamID::generate_auto` in the first branch. -/
def add_entry (now : Nat) (s : Stream) (id : StreamID) (fields : List (String × String)) :
    Except Exception (StreamID × Stream) :=
  let resolved : Except Exception StreamID :=
    if id.timestamp_ms = 0 ∧ id.sequence = 0 then
      let actual_id := StreamID.generate_auto now
      if actual_id.le s.last_id_ then
        .ok ⟨s.last_id_.timestamp_ms, (s.last_id_.sequence + 1) % U64⟩
      else .ok actual_id
    else if id.sequence = 0 then
      if id.timestamp_ms = s.last_id_.timestamp_ms then
        .ok ⟨id.timestamp_ms, (s.last_id_.sequence + 1) % U64⟩
      else if id.timestamp_ms > s.last_id_.timestamp_ms then
        .ok ⟨id.timestamp_ms, 0⟩
      else .error (.invalid_argument "Stream ID must be greater than last ID")
    else
      if id.le s.last_id_ then
        .error (.invalid_argument "Stream ID must be greater than last ID")
      else .ok id
  match resolved with
  | .error e => .error e
  | .ok actual_id =>
    .ok (actual_id,
      { s with
        entries_ := s.entries_.emplace actual_id (StreamEntry.mk_from actual_id fields)
        last_id_ := actual_id })

/-- The loop of `Stream::get_range`: `it` is the position of the iterator and
`rest` the elements from that position on. When `it` has reached `end()`
without meeting `end_it`, the source dereferences `end()`; this undefined
behaviour is the result `none`. -/
def range_loop (end_it : Nat) (count : Int) :
    Nat → List (StreamID × StreamEntry) → Int → Option (List StreamEntry)
  | it, [], added =>
    if it ≠ end_it ∧ (count < 0 ∨ added < count) then none else some []
  | it, e :: rest, added =>
    if it ≠ end_it ∧ (count < 0 ∨ added < count) then
      (range_loop end_it count (it + 1) rest (added + 1)).map (fun r => e.2 :: r)
    else some []

/-- The method `Stream::get_range`. -/
def get_range (s : Stream) (start end_id : StreamID) (count : Int) :
    Option (List StreamEntry) :=
  let start_it :=
    if start.timestamp_ms = 0 ∧ start.sequence = 0 then 0
    else s.entries_.lower_bound start
  let end_it :=
    if end_id.timestamp_ms = UINT64_MAX ∧ end_id.sequence = UINT64_MAX then s.entries_.length
    else s.entries_.upper_bound end_id
  range_loop end_it count start_it (s.entries_.drop start_it) 0

/-- The loop of `Stream::get_entries_after`, which runs up to `end()`. -/
def after_loop (count : Int) : List (StreamID × StreamEntry) → Int → List StreamEntry
  | [], _ => []
  | e :: rest, added =>
    if count < 0 ∨ added < count then e.2 :: after_loop count rest (added + 1) else []

/-- The method `Stream::get_entries_after`. -/
def get_entries_after (s : Stream) (id : StreamID) (count : Int) : List StreamEntry :=
  after_loop count (s.entries_.drop (s.entries_.upper_bound id)) 0

/-- The loop of `Stream::delete_entries`. -/
def delete_loop : List StreamID → EntryMap → Bool → Bool × EntryMap
  | [], m, any_deleted => (any_deleted, m)
  | id :: rest, m, any_deleted =>
    delete_loop rest (m.erase id).1 (if (m.erase id).2 > 0 then true else any_deleted)

/-- The method `Stream::delete_entries`. -/
def delete_entries (s : Stream) (ids : List StreamID) : Bool × Stream :=
  let r := delete_loop ids s.entries_ false
  (r.1, { s with entries_ := r.2 })

/-- The method `Stream::length`. -/
def length (s : Stream) : Nat := s.entries_.length

/-- The method `Stream::create_consumer_group`. -/
def create_consumer_group (s : Stream) (group_name : String) (start_id : StreamID) :
    Bool × Stream :=
  match map_find group_name s.consumer_groups_ with
  | some _ => (false, s)
  | none =>
    let actual_start_id :=
      if start_id.timestamp_ms = 0 ∧ start_id.sequence = 0 then (⟨0, 0⟩ : StreamID)
      else if start_id.timestamp_ms = UINT64_MAX ∧ start_id.sequence = UINT64_MAX then s.last_id_
      else start_id
    (true, { s with
      consumer_groups_ :=
        map_assign group_name (ConsumerGroup.mk_new group_name actual_start_id)
          s.consumer_groups_ })

/-- The method `Stream::get_consumer_group`. -/
def get_consumer_group (s : Stream) (group_name : String) : Option ConsumerGroup :=
  map_find group_name s.consumer_groups_

/-- The method `Stream::get_last_id`. -/
def get_last_id (s : Stream) : StreamID := s.last_id_

end Stream

/-! ## `RedisProtocol`: reply formatting -/

namespace RedisProtocol

/-- The function `RedisProtocol::format_simple_string`. -/
def format_simple_string (str : String) : String := "+" ++ str ++ "\r\n"

/-- The function `RedisProtocol::format_error`. -/
def format_error (error : String) : String := "-" ++ error ++ "\r\n"

/-- The function `RedisProtocol::format_integer`. -/
def format_integer (value : Int) : String := ":" ++ toString value ++ "\r\n"

/-- The function `RedisProtocol::format_bulk_string`. -/
def format_bulk_string (str : String) : String :=
  "$" ++ Nat.repr str.length ++ "\r\n" ++ str ++ "\r\n"

/-- The function `RedisProtocol::format_null_array`. -/
def format_null_array : String := "*-1\r\n"

/-- The method `StreamEntry::to_resp_format`. -/
def to_resp_format (e : StreamEntry) : String :=
  let id_str := e.id_.to_string
  let head := "*2\r\n" ++ "$" ++ Nat.repr id_str.length ++ "\r\n" ++ id_str ++ "\r\n"
    ++ "*" ++ Nat.repr (e.fields_.length * 2) ++ "\r\n"
  e.fields_.foldl
    (fun acc f =>
      acc ++ "$" ++ Nat.repr f.1.length ++ "\r\n" ++ f.1 ++ "\r\n"
        ++ "$" ++ Nat.repr f.2.length ++ "\r\n" ++ f.2 ++ "\r\n")
    head

/-- The function `RedisProtocol::format_stream_entries`. -/
def format_stream_entries (entries : List StreamEntry) : String :=
  if entries.isEmpty then format_null_array
  else
    entries.foldl (fun acc e => acc ++ to_resp_format e)
      ("*" ++ Nat.repr entries.length ++ "\r\n")

/-- The function `RedisProtocol::format_stream_read_response`. -/
def format_stream_read_response (stream_entries : List (String × List StreamEntry)) : String :=
  if stream_entries.isEmpty then format_null_array
  else
    stream_entries.foldl
      (fun acc p => acc ++ "*2\r\n" ++ format_bulk_string p.1 ++ format_stream_entries p.2)
      ("*" ++ Nat.repr stream_entries.length ++ "\r\n")

end RedisProtocol

/-! ## `RedisServer`: the command handlers -/

/-- The storage of `RedisServer`: the map `streams_`. The socket, the port and
the accept thread are outside the engine. -/
structure RedisServer where
  streams_ : List (String × Stream)
deriving DecidableEq, Repr

namespace RedisServer

open RedisProtocol

/-- The server before any command. -/
def mk_new : RedisServer := ⟨[]⟩

/-- The reference `streams_[stream_name]` after the null check of `xadd` and
`xgroup_create`: the stored stream, or a new one. -/
def stream_or_new (srv : RedisServer) (stream_name : String) : Stream :=
  match map_find stream_name srv.streams_ with
  | some s => s
  | none => Stream.mk_new

/-- The body of the `try` block of `RedisServer::xadd`: parse the ID, then
append. `now_parse` and `now_add` are the clock readings that
`StreamID::from_string` and `Stream::add_entry` may take. -/
def xadd_try (now_parse now_add : Nat) (stream : Stream) (id : String)
    (fields : List (String × String)) : Except Exception (StreamID × Stream) :=
  match StreamID.from_string now_parse id with
  | .error e => .error e
  | .ok stream_id => stream.add_entry now_add stream_id fields

/-- The handler `RedisServer::xadd`: the reply and the server afterwards. The
stream is registered under its name before the `try` block, so it exists
afterwards on both paths. -/
def xadd (srv : RedisServer) (now_parse now_add : Nat) (stream_name id : String)
    (fields : List (String × String)) : String × RedisServer :=
  let stream := srv.stream_or_new stream_name
  match xadd_try now_parse now_add stream id fields with
  | .ok (actual_id, stream1) =>
    (format_bulk_string actual_id.to_string,
      ⟨map_assign stream_name stream1 srv.streams_⟩)
  | .error e =>
    (format_error ("ERR " ++ e.what), ⟨map_assign stream_name stream srv.streams_⟩)

/-- The handler `RedisServer::xlen`. -/
def xlen (srv : RedisServer) (stream_name : String) : String :=
  match map_find stream_name srv.streams_ with
  | none => format_integer 0
  | some s => format_integer (Int.ofNat s.length)

/-- The loop of `xdel` and `xack` that parses the ID arguments and skips the
ones `StreamID::from_string` rejects; `clk i` is the clock reading available
to the parse of the `i`-th argument. -/
def parse_ids (clk : Nat → Nat) : List String → Nat → List StreamID
  | [], _ => []
  | id_str :: rest, i =>
    match StreamID.from_string (clk i) id_str with
    | .ok id => id :: parse_ids clk rest (i + 1)
    | .error _ => parse_ids clk rest (i + 1)

/-- The handler `RedisServer::xdel`. -/
def xdel (srv : RedisServer) (clk : Nat → Nat) (stream_name : String) (ids : List String) :
    String × RedisServer :=
  match map_find stream_name srv.streams_ with
  | none => (format_integer 0, srv)
  | some s =>
    let stream_ids := parse_ids clk ids 0
    let r := s.delete_entries stream_ids
    (format_integer (if r.1 then Int.ofNat stream_ids.length else 0),
      ⟨map_assign stream_name r.2 srv.streams_⟩)

/-- The handler `RedisServer::xgroup_create`; `now` is the clock reading
available to `StreamID::from_string`. -/
def xgroup_create (srv : RedisServer) (now : Nat) (stream_name group_name start_id : String) :
    String × RedisServer :=
  let stream := srv.stream_or_new stream_name
  let parsed : Except Exception StreamID :=
    if start_id = "$" then .ok stream.get_last_id else StreamID.from_string now start_id
  match parsed with
  | .error e =>
    (format_error ("ERR " ++ e.what), ⟨map_assign stream_name stream srv.streams_⟩)
  | .ok id =>
    let r := stream.create_consumer_group group_name id
    (if r.1 then format_simple_string "OK"
      else format_error "BUSYGROUP Consumer Group name already exists",
      ⟨map_assign stream_name r.2 srv.streams_⟩)

/-- The loop of `RedisServer::xreadgroup` over the requested streams: the
collected `results` and the server afterwards. `clk i` gives the clock
readings of the `i`-th iteration: `clk i 0` for a new consumer, `clk i 1` for
`update_seen_time`, `clk i (k + 2)` for the `k`-th delivery. -/
def xreadgroup_loop (group_name consumer_name : String) (count : Int)
    (clk : Nat → Nat → Nat) :
    List String → Nat → RedisServer → List (String × List StreamEntry) × RedisServer
  | [], _, srv => ([], srv)
  | stream_name :: rest, i, srv =>
    match map_find stream_name srv.streams_ with
    | none => xreadgroup_loop group_name consumer_name count clk rest (i + 1) srv
    | some stream =>
      match stream.get_consumer_group group_name with
      | none => xreadgroup_loop group_name consumer_name count clk rest (i + 1) srv
      | some group =>
        let available_entries := stream.get_entries_after group.get_last_delivered_id (-1)
        let r := group.read_pending_messages (clk i 0) (clk i 1) (fun k => clk i (k + 2))
          consumer_name available_entries count
        let stream1 := { stream with
          consumer_groups_ := map_assign group_name r.2 stream.consumer_groups_ }
        let srv1 : RedisServer := ⟨map_assign stream_name stream1 srv.streams_⟩
        let next := xreadgroup_loop group_name consumer_name count clk rest (i + 1) srv1
        (if r.1.isEmpty then next.1 else (stream_name, r.1) :: next.1, next.2)

/-- The handler `RedisServer::xreadgroup`: the `results` vector, the reply
built from it, and the server afterwards. The `ids` and `block` arguments
are unused by the source. -/
def xreadgroup (srv : RedisServer) (clk : Nat → Nat → Nat) (group_name consumer_name : String)
    (streams : List String) (count : Int) :
    List (String × List StreamEntry) × String × RedisServer :=
  let r := xreadgroup_loop group_name consumer_name count clk streams 0 srv
  (r.1, format_stream_read_response r.1, r.2)

/-- The loop of `RedisServer::xack` over the consumer names of the group. -/
def xack_loop (clk : Nat → Nat) (stream_ids : List StreamID) :
    List String → Nat → ConsumerGroup → Int → Int × ConsumerGroup
  | [], _, g, acknowledged => (acknowledged, g)
  | consumer_name :: rest, i, g, acknowledged =>
    let r := g.acknowledge_messages (clk i) consumer_name stream_ids
    xack_loop clk stream_ids rest (i + 1) r.2 (acknowledged + r.1)

/-- The handler `RedisServer::xack`; `clk_parse` serves the ID parses and
`clk_ack` the calls of `acknowledge_messages`. -/
def xack (srv : RedisServer) (clk_parse clk_ack : Nat → Nat)
    (stream_name group_name : String) (ids : List String) : String × RedisServer :=
  match map_find stream_name srv.streams_ with
  | none => (format_integer 0, srv)
  | some stream =>
    match stream.get_consumer_group group_name with
    | none => (format_integer 0, srv)
    | some group =>
      let stream_ids := parse_ids clk_parse ids 0
      let r := xack_loop clk_ack stream_ids group.get_consumer_names 0 group 0
      let stream1 := { stream with
        consumer_groups_ := map_assign group_name r.2 stream.consumer_groups_ }
      (format_integer r.1, ⟨map_assign stream_name stream1 srv.streams_⟩)

end RedisServer

/-- Every character of the list is a decimal digit. -/
def all_digits (cs : List Char) : Prop := ∀ c ∈ cs, c_isdigit c = true

instance (cs : List Char) : Decidable (all_digits cs) := by
  unfold all_digits; exact inferInstance

/-! ## Representation invariants and specification vocabulary -/

/-- The keys of the ordered map are strictly ascending (the invariant of
`std::map`). -/
def EntryMap.sorted (m : EntryMap) : Prop :=
  m.Pairwise (fun a b => a.1.lt b.1 = true)

instance (m : EntryMap) : Decidable m.sorted := by
  unfold EntryMap.sorted; exact inferInstance

/-- The invariant of a `Stream` object: `entries_` is ordered by key, every
entry is stored under its own ID, and every key fits in two `uint64_t`. -/
def Stream.wf (s : Stream) : Prop :=
  s.entries_.sorted ∧ ∀ p ∈ s.entries_, p.2.id_ = p.1 ∧ p.1.valid

instance (s : Stream) : Decidable s.wf := by
  unfold Stream.wf; exact inferInstance

/-- The smallest ID greater than `c`, for `c` below the maximum ID: the
inclusive start of a range that begins exclusively after `c`. -/
def StreamID.next (c : StreamID) : StreamID :=
  if c.sequence < UINT64_MAX then ⟨c.timestamp_ms, c.sequence + 1⟩
  else ⟨c.timestamp_ms + 1, 0⟩

/-- The handler `RedisServer::xrange`; `none` is the undefined behaviour of
`Stream::get_range`. `now_start` and `now_end` are the clock readings
available to the two ID parses. -/
def RedisServer.xrange (srv : RedisServer) (now_start now_end : Nat)
    (stream_name start end_text : String) (count : Int) : Option String :=
  match map_find stream_name srv.streams_ with
  | none => some RedisProtocol.format_null_array
  | some s =>
    let start_id : Except Exception StreamID :=
      if start = "-" then .ok ⟨0, 0⟩ else StreamID.from_string now_start start
    match start_id with
    | .error e => some (RedisProtocol.format_error ("ERR " ++ e.what))
    | .ok a =>
      let end_id : Except Exception StreamID :=
        if end_text = "+" then .ok ⟨UINT64_MAX, UINT64_MAX⟩
        else StreamID.from_string now_end end_text
      match end_id with
      | .error e => some (RedisProtocol.format_error ("ERR " ++ e.what))
      | .ok b => (s.get_range a b count).map RedisProtocol.format_stream_entries

/-- The group states reachable from a freshly created group by deliveries
(`read_pending_messages`) and acknowledgements (`acknowledge_messages`),
with any arguments and clock readings. -/
inductive ConsumerGroup.Reachable : ConsumerGroup → Prop
  | fresh (name : String) (start_id : StreamID) :
      ConsumerGroup.Reachable (ConsumerGroup.mk_new name start_id)
  | deliver {g : ConsumerGroup} (h : ConsumerGroup.Reachable g) (now_create now_seen : Nat)
      (clk : Nat → Nat) (consumer_name : String) (available_entries : List StreamEntry)
      (count : Int) :
      ConsumerGroup.Reachable
        (g.read_pending_messages now_create now_seen clk consumer_name available_entries count).2
  | ack {g : ConsumerGroup} (h : ConsumerGroup.Reachable g) (now_create : Nat)
      (consumer_name : String) (ids : List StreamID) :
      ConsumerGroup.Reachable (g.acknowledge_messages now_create consumer_name ids).2

/-- The invariant that links the PEL and the consumers' pending sets: every
PEL record is stored under the text of its own ID, that ID is not beyond
`last_delivered_id_`, and its owner is a registered consumer that holds the
key; every key held by a registered consumer has a PEL record owned by that
consumer; and every consumer is registered under its own name. -/
def ConsumerGroup.pel_inv (g : ConsumerGroup) : Prop :=
  (∀ k pe, map_find k g.pending_entries_ = some pe →
    k = pe.id.to_string ∧ pe.id.le g.last_delivered_id_ = true ∧
      ∃ c, map_find pe.consumer_name g.consumers_ = some c ∧ k ∈ c.pending_messages_) ∧
  (∀ n c k, map_find n g.consumers_ = some c → k ∈ c.pending_messages_ →
    ∃ pe, map_find k g.pending_entries_ = some pe ∧ pe.consumer_name = n) ∧
  (∀ n c, map_find n g.consumers_ = some c → c.name_ = n)

/-! ## Command sequences -/

/-- A client command of one of the five kinds XGROUP CREATE, XADD, XDEL,
XREADGROUP and XACK, with its arguments as the handlers receive them and the
clock readings the handlers may take. -/
inductive Command where
  | xgroup_create (now : Nat) (stream_name group_name start_id : String)
  | xadd (now_parse now_add : Nat) (stream_name id : String) (fields : List (String × String))
  | xdel (clk : Nat → Nat) (stream_name : String) (ids : List String)
  | xreadgroup (clk : Nat → Nat → Nat) (group_name consumer_name : String)
      (streams : List String) (count : Int)
  | xack (clk_parse clk_ack : Nat → Nat) (stream_name group_name : String) (ids : List String)

/-- Runs one command: the server afterwards, and the `results` vector when the
command is an XREADGROUP (empty for the other commands). -/
def Command.exec (srv : RedisServer) : Command → RedisServer × List (String × List StreamEntry)
  | .xgroup_create now stream_name group_name start_id =>
    ((srv.xgroup_create now stream_name group_name start_id).2, [])
  | .xadd now_parse now_add stream_name id fields =>
    ((srv.xadd now_parse now_add stream_name id fields).2, [])
  | .xdel clk stream_name ids => ((srv.xdel clk stream_name ids).2, [])
  | .xreadgroup clk group_name consumer_name streams count =>
    ((srv.xreadgroup clk group_name consumer_name streams count).2.2,
      (srv.xreadgroup clk group_name consumer_name streams count).1)
  | .xack clk_parse clk_ack stream_name group_name ids =>
    ((srv.xack clk_parse clk_ack stream_name group_name ids).2, [])

/-- The entry IDs that a `results` vector lists under the stream `key`. -/
def ids_for (key : String) : List (String × List StreamEntry) → List StreamID
  | [] => []
  | (name, entries) :: rest =>
    if name = key then entries.map (fun e => e.id_) ++ ids_for key rest else ids_for key rest

/-- The entry IDs of stream `key` that the command returned to a consumer of
group `group`: those of its `results` when it is an XREADGROUP naming that
group, none otherwise. -/
def Command.delivered (key group : String) (cmd : Command)
    (results : List (String × List StreamEntry)) : List StreamID :=
  match cmd with
  | .xreadgroup _ group_name _ _ _ => if group_name = group then ids_for key results else []
  | _ => []

/-- Runs a command sequence and lists, per command, the IDs of stream `key`
delivered in group `group`. -/
def run_trace (key group : String) : RedisServer → List Command → List (List StreamID)
  | _, [] => []
  | srv, cmd :: rest =>
    cmd.delivered key group (cmd.exec srv).2 :: run_trace key group (cmd.exec srv).1 rest

/-- The `last_delivered_id_` of group `group` of stream `key`, when both exist. -/
def RedisServer.cursor (srv : RedisServer) (key group : String) : Option StreamID :=
  match map_find key srv.streams_ with
  | none => none
  | some st =>
    match map_find group st.consumer_groups_ with
    | none => none
    | some g => some g.last_delivered_id_

/-- The stream states reachable from an empty stream by `add_entry` (with an
ID made of two `uint64_t`) and `delete_entries`. -/
inductive Stream.Reachable : Stream → Prop
  | empty : Stream.Reachable Stream.mk_new
  | add {s : Stream} (h : Stream.Reachable s) (now : Nat) (id : StreamID)
      (fields : List (String × String)) (actual_id : StreamID) (s1 : Stream)
      (hid : id.valid) (hok : s.add_entry now id fields = .ok (actual_id, s1)) :
      Stream.Reachable s1
  | del {s : Stream} (h : Stream.Reachable s) (ids : List StreamID) :
      Stream.Reachable (s.delete_entries ids).2

/-- The test made by `acknowledge_messages` for one ID text: the PEL holds a
record under `key` and its owner is `consumer_name`. -/
def pel_owned (pel : List (String × PendingEntry)) (consumer_name key : String) : Bool :=
  match map_find key pel with
  | some pe => decide (pe.consumer_name = consumer_name)
  | none => false

/-- The PEL holds a record under `key` whose owner is one of `names`. -/
def pel_owner_in (pel : List (String × PendingEntry)) (names : List String) (key : String) :
    Bool :=
  match map_find key pel with
  | some pe => decide (pe.consumer_name ∈ names)
  | none => false

/-- The server after scenario S1 of the specification: `XADD s 1000-0 a 1`,
`XADD s 1000-* b 2`, `XADD s 1001-* c 3` on an empty server. -/
def RedisServer.after_S1 : RedisServer :=
  (RedisServer.xadd (RedisServer.xadd (RedisServer.xadd RedisServer.mk_new
    0 0 "s" "1000-0" [("a", "1")]).2 0 0 "s" "1000-*" [("b", "2")]).2
    0 0 "s" "1001-*" [("c", "3")]).2

/-- The server after `XGROUP CREATE s g 0-0` issued on `after_S1`. -/
def RedisServer.after_S1_group : RedisServer :=
  (RedisServer.after_S1.xgroup_create 0 "s" "g" "0-0").2

/-- The server after scenario S3 of the specification: on `after_S1_group`,
`XREADGROUP GROUP g c1 COUNT 2 STREAMS s >` and then
`XREADGROUP GROUP g c2 COUNT 2 STREAMS s >`. -/
def RedisServer.after_S3 : RedisServer :=
  ((RedisServer.after_S1_group.xreadgroup (fun _ _ => 0) "g" "c1" ["s"] 2).2.2.xreadgroup
    (fun _ _ => 0) "g" "c2" ["s"] 2).2.2

/-- A group after one delivery: `1000-0` handed to consumer `c1`. -/
def ConsumerGroup.after_one_delivery : ConsumerGroup :=
  (ConsumerGroup.read_pending_messages 0 0 (fun _ => 0) (ConsumerGroup.mk_new "g" ⟨0, 0⟩)
    "c1" [⟨⟨1000, 0⟩, []⟩] (-1)).2

/-- A stream that holds the entry `1000-0` and the group `after_one_delivery`. -/
def Stream.with_one_pending : Stream :=
  ⟨[(⟨1000, 0⟩, ⟨⟨1000, 0⟩, []⟩)], [("g", ConsumerGroup.after_one_delivery)], ⟨1000, 0⟩⟩

/-- A server whose only stream is `s`, the stream `with_one_pending`. -/
def RedisServer.with_one_pending : RedisServer := ⟨[("s", Stream.with_one_pending)]⟩

/-! ## `std::stoi` and the XRANGE branch of `process_command` -/

/-- The function `std::stoi(const std::string&)` on the characters: white
space, an optional sign, then at least one digit; text after the digits is
ignored. Without a digit the call throws `std::invalid_argument`, and
`std::out_of_range` when the value does not fit in `int`; in libstdc++ both
carry the text `stoi`. -/
def stoi_chars (cs : List Char) : Except Exception Int :=
  let signed (neg : Bool) (ds : List Char) : Except Exception Int :=
    match ds with
    | [] => .error (.invalid_argument "stoi")
    | d :: _ =>
      if c_isdigit d then
        let v : Int := if neg then -(Int.ofNat (digits_value ds 0)) else Int.ofNat (digits_value ds 0)
        if v < -2147483648 ∨ v > 2147483647 then .error (.out_of_range "stoi") else .ok v
      else .error (.invalid_argument "stoi")
  match skip_space cs with
  | [] => signed false []
  | c :: r =>
    if c = '-' then signed true r
    else if c = '+' then signed false r
    else signed false (c :: r)

/-- The function `std::stoi(const std::string&)`. -/
def stoi (s : String) : Except Exception Int := stoi_chars s.data

/-- The XRANGE branch of `RedisServer::process_command`, applied to the
parsed `parts` (whose first element is the command name). An exception
thrown by `std::stoi` leaves the branch (`error`); `ok none` is the undefined
behaviour of `Stream::get_range`. -/
def RedisServer.process_command_xrange (srv : RedisServer) (now_start now_end : Nat)
    (parts : List String) : Except Exception (Option String) :=
  if parts.length < 4 ∨ parts.length > 6 then
    .ok (some (RedisProtocol.format_error "ERR wrong number of arguments for 'xrange' command"))
  else
    let stream_name := parts.getD 1 ""
    let start := parts.getD 2 ""
    let end_text := parts.getD 3 ""
    let count : Except Exception Int :=
      if parts.length ≥ 6 ∧ parts.getD 4 "" = "COUNT" then stoi (parts.getD 5 "") else .ok (-1)
    match count with
    | .error e => .error e
    | .ok n => .ok (srv.xrange now_start now_end stream_name start end_text n)

/-- The method `ConsumerGroup::delete_consumer`: whether a consumer of that
name was registered, and the group afterwards. -/
def ConsumerGroup.delete_consumer (g : ConsumerGroup) (consumer_name : String) :
    Bool × ConsumerGroup :=
  ((map_find consumer_name g.consumers_).isSome,
    { g with consumers_ := map_erase consumer_name g.consumers_ })

/-! ## The wire parser of `RedisProtocol`

Positions are `size_t` indices into the input, whose characters stand for
bytes. A result `ok none` is undefined behaviour of the source. -/

/-- The function `std::stoll(const std::string&)` on the characters: as
`std::stoi` with the range of `long long`; in libstdc++ both exceptions carry
the text `stoll`. -/
def stoll_chars (cs : List Char) : Except Exception Int :=
  let signed (neg : Bool) (ds : List Char) : Except Exception Int :=
    match ds with
    | [] => .error (.invalid_argument "stoll")
    | d :: _ =>
      if c_isdigit d then
        let v : Int := if neg then -(Int.ofNat (digits_value ds 0)) else Int.ofNat (digits_value ds 0)
        if v < -9223372036854775808 ∨ v > 9223372036854775807 then .error (.out_of_range "stoll")
        else .ok v
      else .error (.invalid_argument "stoll")
  match skip_space cs with
  | [] => signed false []
  | c :: r =>
    if c = '-' then signed true r
    else if c = '+' then signed false r
    else signed false (c :: r)

namespace RedisProtocol

/-- The function `RedisProtocol::format_array`. -/
def format_array (elements : List String) : String :=
  elements.foldl (fun acc element => acc ++ format_bulk_string element)
    ("*" ++ Nat.repr elements.length ++ "\r\n")

/-- The index of the first `\r\n` in a list of characters. -/
def find_crlf : List Char → Option Nat
  | [] => none
  | c :: cs =>
    match cs with
    | [] => none
    | d :: _ => if c = '\r' ∧ d = '\n' then some 0 else (find_crlf cs).map (· + 1)

/-- The call `input.find("\r\n", pos)`; `none` is `npos`. -/
def find_from (input : String) (pos : Nat) : Option Nat :=
  (find_crlf (input.data.drop pos)).map (· + pos)

/-- The call `input.substr(pos, count)` for `pos <= input.length()`. -/
def substr (input : String) (pos count : Nat) : List Char :=
  (input.data.drop pos).take count

/-- The function `RedisProtocol::parse_bulk_string`: the string and the
position after it. The comparison `pos + length > input.length()` and the
count of `substr` are made in `size_t`, to which the `int` length is
converted; `length + 2` is an `int` addition, whose overflow is undefined. -/
def parse_bulk_string (input : String) (pos : Nat) :
    Except Exception (Option (String × Nat)) :=
  if pos ≥ input.length ∨ input.data.getD pos ' ' ≠ '$' then
    .error (.invalid_argument "Expected bulk string")
  else
    match find_from input (pos + 1) with
    | none => .error (.invalid_argument "Invalid bulk string format")
    | some length_end =>
      match stoi_chars (substr input (pos + 1) (length_end - (pos + 1))) with
      | .error e => .error e
      | .ok length =>
        let pos2 := length_end + 2
        if length = -1 then .ok (some ("", pos2))
        else if ((Int.ofNat pos2 + length) % 18446744073709551616).toNat > input.length then
          .error (.invalid_argument "Bulk string length exceeds input")
        else if length + 2 > 2147483647 then .ok none
        else
          .ok (some (String.mk (substr input pos2 (length % 18446744073709551616).toNat),
            ((Int.ofNat pos2 + (length + 2)) % 18446744073709551616).toNat))

/-- The function `RedisProtocol::parse_integer`: the value and the position
after it. -/
def parse_integer (input : String) (pos : Nat) : Except Exception (Int × Nat) :=
  if pos ≥ input.length ∨ input.data.getD pos ' ' ≠ ':' then
    .error (.invalid_argument "Expected integer")
  else
    match find_from input (pos + 1) with
    | none => .error (.invalid_argument "Invalid integer format")
    | some end_pos =>
      match stoll_chars (substr input (pos + 1) (end_pos - (pos + 1))) with
      | .error e => .error e
      | .ok result => .ok (result, end_pos + 2)

/-- The loop of `RedisProtocol::parse_array` over the announced number of
elements, started at `pos`. -/
def parse_elements (input : String) : Nat → Nat → Except Exception (Option (List String))
  | 0, _ => .ok (some [])
  | n + 1, pos =>
    if pos ≥ input.length then .error (.invalid_argument "Array length exceeds input")
    else if input.data.getD pos ' ' = '$' then
      match parse_bulk_string input pos with
      | .error e => .error e
      | .ok none => .ok none
      | .ok (some (s, pos1)) =>
        match parse_elements input n pos1 with
        | .error e => .error e
        | .ok none => .ok none
        | .ok (some rest) => .ok (some (s :: rest))
    else if input.data.getD pos ' ' = ':' then
      match parse_integer input pos with
      | .error e => .error e
      | .ok (v, pos1) =>
        match parse_elements input n pos1 with
        | .error e => .error e
        | .ok none => .ok none
        | .ok (some rest) => .ok (some (toString v :: rest))
    else if input.data.getD pos ' ' = '+' then
      match find_from input (pos + 1) with
      | none => .error (.invalid_argument "Invalid simple string format")
      | some end_pos =>
        match parse_elements input n (end_pos + 2) with
        | .error e => .error e
        | .ok none => .ok none
        | .ok (some rest) =>
          .ok (some (String.mk (substr input (pos + 1) (end_pos - (pos + 1))) :: rest))
    else .error (.invalid_argument "Unsupported array element type")

/-- The function `RedisProtocol::parse_array`. A negative length other than
-1 makes `reserve` throw `std::length_error`; memory for a non-negative
length is taken to be available. -/
def parse_array (input : String) (pos : Nat) : Except Exception (Option (List String)) :=
  if pos ≥ input.length ∨ input.data.getD pos ' ' ≠ '*' then
    .error (.invalid_argument "Expected array")
  else
    match find_from input (pos + 1) with
    | none => .error (.invalid_argument "Invalid array format")
    | some length_end =>
      match stoi_chars (substr input (pos + 1) (length_end - (pos + 1))) with
      | .error e => .error e
      | .ok length =>
        if length = -1 then .ok (some [])
        else if length < 0 then .error (.length_error "vector::reserve")
        else parse_elements input length.toNat (length_end + 2)

/-- The loop `while (iss >> part)`: the maximal runs of characters that are
not white space; `cur` is the run being read. -/
def inline_words : List Char → List Char → List String
  | [], cur => if cur = [] then [] else [String.mk cur]
  | c :: cs, cur =>
    if c_isspace c then
      if cur = [] then inline_words cs [] else String.mk cur :: inline_words cs []
    else inline_words cs (cur ++ [c])

/-- The function `RedisProtocol::parse_command`. -/
def parse_command (input : String) : Except Exception (Option (List String)) :=
  if input.data = [] then .ok (some [])
  else if input.data.getD 0 ' ' = '*' then parse_array input 0
  else .ok (some (inline_words input.data []))

end RedisProtocol

/-! ## `RedisServer::xread` and `RedisServer::process_command` -/

/-- The C locale `toupper`. -/
def c_toupper (c : Char) : Char :=
  if 97 ≤ c.toNat ∧ c.toNat ≤ 122 then Char.ofNat (c.toNat - 32) else c

/-- The call `std::transform(s.begin(), s.end(), s.begin(), ::toupper)`. -/
def to_upper (s : String) : String := String.mk (s.data.map c_toupper)

namespace RedisServer

open RedisProtocol

/-- The loop of `RedisServer::xread` over `streams[i]` and `ids[i]`; `none`
is the read of `ids[i]` past the end of `ids`. `clk i` is the clock reading
available to the parse of `ids[i]`. An ID that does not parse is skipped. -/
def xread_loop (srv : RedisServer) (count : Int) (clk : Nat → Nat) :
    List String → List String → Nat → Option (List (String × List StreamEntry))
  | [], _, _ => some []
  | _ :: _, [], _ => none
  | stream_name :: rest, id_str :: ids, i =>
    match map_find stream_name srv.streams_ with
    | none => xread_loop srv count clk rest ids (i + 1)
    | some stream =>
      match StreamID.from_string (clk i) id_str with
      | .error _ => xread_loop srv count clk rest ids (i + 1)
      | .ok start_id =>
        let entries := stream.get_entries_after start_id count
        (xread_loop srv count clk rest ids (i + 1)).map
          (fun next => if entries.isEmpty then next else (stream_name, entries) :: next)

/-- The handler `RedisServer::xread`; the `block` argument is unused by the
source. The server is not changed. -/
def xread (srv : RedisServer) (clk : Nat → Nat) (streams ids : List String) (count : Int) :
    Option String :=
  (xread_loop srv count clk streams ids 0).map format_stream_read_response

/-- The option loop of the XREAD and XREADGROUP branches of
`process_command`, run on the arguments from index `i` on: the value of
`streams_pos` (0 when `STREAMS` is not met), `count` and `block`. -/
def scan_options : List String → Nat → Int → Int → Except Exception (Nat × Int × Int)
  | [], _, count, block => .ok (0, count, block)
  | arg :: rest, i, count, block =>
    if to_upper arg = "STREAMS" then .ok (i + 1, count, block)
    else
      match rest with
      | [] => .ok (0, count, block)
      | v :: rest2 =>
        if to_upper arg = "COUNT" then
          match stoi v with
          | .error e => .error e
          | .ok n => scan_options rest2 (i + 2) n block
        else if to_upper arg = "BLOCK" then
          match stoi v with
          | .error e => .error e
          | .ok n => scan_options rest2 (i + 2) count n
        else scan_options (v :: rest2) (i + 1) count block

/-- The loop of the XADD branch that pairs `parts[i]` with `parts[i + 1]`;
`none` is the read of `parts[i + 1]` past the end. -/
def field_pairs : List String → Option (List (String × String))
  | [] => some []
  | [_] => none
  | f :: v :: rest => (field_pairs rest).map (fun l => (f, v) :: l)

/-- The body of the `try` block of `RedisServer::process_command` after the
parse: the reply and the server afterwards. An exception thrown by
`std::stoi` leaves the block (`error`); `ok none` is undefined behaviour (an
index past the end of `parts`, or that of `Stream::get_range`). The clock
readings of the handler that runs are taken from `clk`. -/
def process_parts (srv : RedisServer) (clk : Nat → Nat → Nat) (parts : List String) :
    Except Exception (Option (String × RedisServer)) :=
  match parts with
  | [] => .ok (some (format_error "ERR empty command", srv))
  | cmd0 :: args =>
    let cmd := to_upper cmd0
    if cmd = "XADD" then
      if parts.length < 4 ∨ (parts.length - 3) % 2 ≠ 0 then
        .ok (some (format_error "ERR wrong number of arguments for 'xadd' command", srv))
      else
        match args with
        | stream_name :: id :: rest =>
          .ok ((field_pairs rest).map
            (fun fields => srv.xadd (clk 0 0) (clk 0 1) stream_name id fields))
        | _ => .ok none
    else if cmd = "XREAD" then
      match scan_options args 1 (-1) (-1) with
      | .error e => .error e
      | .ok (streams_pos, count, _) =>
        if streams_pos = 0 ∨ streams_pos ≥ parts.length then
          .ok (some (format_error "ERR wrong number of arguments for 'xread' command", srv))
        else
          let num_streams := (parts.length - streams_pos) / 2
          if num_streams = 0 ∨ (parts.length - streams_pos) % 2 ≠ 0 then
            .ok (some (format_error
              "ERR Unbalanced XREAD list of streams: for each stream key an ID or $ must be specified",
              srv))
          else
            let streams := (parts.drop streams_pos).take num_streams
            let ids := parts.drop (streams_pos + num_streams)
            .ok ((srv.xread (fun i => clk i 0) streams ids count).map (fun reply => (reply, srv)))
    else if cmd = "XRANGE" then
      match srv.process_command_xrange (clk 0 0) (clk 0 1) parts with
      | .error e => .error e
      | .ok reply => .ok (reply.map (fun r => (r, srv)))
    else if cmd = "XLEN" then
      if parts.length ≠ 2 then
        .ok (some (format_error "ERR wrong number of arguments for 'xlen' command", srv))
      else
        match args with
        | stream_name :: _ => .ok (some (srv.xlen stream_name, srv))
        | _ => .ok none
    else if cmd = "XDEL" then
      if parts.length < 3 then
        .ok (some (format_error "ERR wrong number of arguments for 'xdel' command", srv))
      else
        match args with
        | stream_name :: ids => .ok (some (srv.xdel (clk 0) stream_name ids))
        | _ => .ok none
    else if cmd = "XGROUP" then
      if parts.length < 2 then
        .ok (some (format_error "ERR wrong number of arguments for 'xgroup' command", srv))
      else
        match args with
        | subcommand :: rest =>
          if to_upper subcommand = "CREATE" ∧ parts.length = 5 then
            match rest with
            | stream_name :: group_name :: start_id :: _ =>
              .ok (some (srv.xgroup_create (clk 0 0) stream_name group_name start_id))
            | _ => .ok none
          else
            .ok (some (format_error "ERR Unknown XGROUP subcommand or wrong number of arguments",
              srv))
        | _ => .ok none
    else if cmd = "XREADGROUP" then
      if parts.length < 6 then
        .ok (some (format_error "ERR wrong number of arguments for 'xreadgroup' command", srv))
      else
        match args with
        | _ :: group_name :: consumer_name :: rest =>
          match scan_options rest 4 (-1) (-1) with
          | .error e => .error e
          | .ok (streams_pos, count, _) =>
            if streams_pos = 0 ∨ streams_pos ≥ parts.length then
              .ok (some (format_error "ERR wrong number of arguments for 'xreadgroup' command",
                srv))
            else
              let num_streams := (parts.length - streams_pos) / 2
              if num_streams = 0 then
                .ok (some (format_error "ERR Unbalanced XREADGROUP list of streams", srv))
              else
                let streams := (parts.drop streams_pos).take num_streams
                let r := srv.xreadgroup clk group_name consumer_name streams count
                .ok (some (r.2.1, r.2.2))
        | _ => .ok none
    else if cmd = "XACK" then
      if parts.length < 4 then
        .ok (some (format_error "ERR wrong number of arguments for 'xack' command", srv))
      else
        match args with
        | stream_name :: group_name :: ids =>
          .ok (some (srv.xack (clk 0) (clk 1) stream_name group_name ids))
        | _ => .ok none
    else if cmd = "PING" then .ok (some (format_simple_string "PONG", srv))
    else .ok (some (format_error ("ERR unknown command '" ++ cmd0 ++ "'"), srv))

/-- The function `RedisServer::process_command`: the reply and the server
afterwards; `none` is undefined behaviour. Every exception is caught and
turned into an error reply; the handlers catch their own exceptions, so one
that reaches this `catch` was thrown before any handler ran. -/
def process_command (srv : RedisServer) (clk : Nat → Nat → Nat) (command : String) :
    Option (String × RedisServer) :=
  match parse_command command with
  | .error e => some (format_error ("ERR " ++ e.what), srv)
  | .ok none => none
  | .ok (some parts) =>
    match process_parts srv clk parts with
    | .error e => some (format_error ("ERR " ++ e.what), srv)
    | .ok r => r

end RedisServer

/-- A string of 2^31 bytes. -/
def two_gib_string : String := String.mk (List.replicate 2147483648 'a')

/-- The tokens that the option loop of the XREAD and XREADGROUP branches
passes over without leaving: none is `STREAMS`; `COUNT` or `BLOCK` comes
with a value that `std::stoi` accepts; any other token counts alone. -/
def RedisServer.options_passed : List String → Bool
  | [] => true
  | arg :: rest =>
    if to_upper arg = "STREAMS" then false
    else if to_upper arg = "COUNT" ∨ to_upper arg = "BLOCK" then
      match rest with
      | [] => false
      | v :: rest2 =>
        (match stoi v with
          | .ok _ => true
          | .error _ => false) && RedisServer.options_passed rest2
    else RedisServer.options_passed rest

/-! # Theorems -/

/-! ## Decimal text of a number -/

theorem toDigitsCore_eq (fuel : Nat) : ∀ (n : Nat) (ds : List Char), n < fuel →
    Nat.toDigitsCore 10 fuel n ds = Nat.toDigits 10 n ++ ds := by
  induction fuel using Nat.strong_induction_on with
  | _ fuel ih =>
    intro n ds hn
    cases fuel with
    | zero => omega
    | succ f =>
      unfold Nat.toDigits
      simp only [Nat.toDigitsCore]
      by_cases h0 : n / 10 = 0
      · simp [h0]
      · simp only [h0, if_false]
        have hlt : n / 10 < n := by omega
        rw [ih f (by omega) (n / 10) _ (by omega)]
        rw [ih n (by omega) (n / 10) _ hlt]
        simp

theorem toDigits_step (n : Nat) (h : n / 10 ≠ 0) :
    Nat.toDigits 10 n = Nat.toDigits 10 (n / 10) ++ [Nat.digitChar (n % 10)] := by
  have hlt : n / 10 < n := by omega
  conv => lhs; unfold Nat.toDigits
  simp only [Nat.toDigitsCore, h, if_false]
  exact toDigitsCore_eq n (n / 10) _ hlt

theorem toDigits_small (n : Nat) (h : n / 10 = 0) :
    Nat.toDigits 10 n = [Nat.digitChar (n % 10)] := by
  unfold Nat.toDigits
  simp [Nat.toDigitsCore, h]

theorem digitChar_isdigit (d : Nat) (h : d < 10) :
    c_isdigit (Nat.digitChar d) = true ∧ (Nat.digitChar d).toNat - 48 = d := by
  interval_cases d <;> decide

theorem digits_value_append (xs ys : List Char) (h : all_digits xs) :
    ∀ acc, digits_value (xs ++ ys) acc = digits_value ys (digits_value xs acc) := by
  induction xs with
  | nil => intro acc; rfl
  | cons c cs ih =>
    intro acc
    have hc : c_isdigit c = true := h c (List.mem_cons_self _ _)
    have hcs : all_digits cs := fun d hd => h d (List.mem_cons_of_mem _ hd)
    simp only [List.cons_append, digits_value, hc, if_true]
    exact ih hcs _

theorem toDigits_spec (n : Nat) :
    all_digits (Nat.toDigits 10 n) ∧ Nat.toDigits 10 n ≠ [] ∧
      digits_value (Nat.toDigits 10 n) 0 = n := by
  induction n using Nat.strong_induction_on with
  | _ n ih =>
    have hd := digitChar_isdigit (n % 10) (Nat.mod_lt _ (by decide))
    by_cases h0 : n / 10 = 0
    · rw [toDigits_small n h0]
      refine ⟨?_, by simp, ?_⟩
      · intro c hc
        rw [List.mem_singleton] at hc
        rw [hc]; exact hd.1
      · simp only [digits_value, hd.1, if_true, hd.2]
        omega
    · rw [toDigits_step n h0]
      obtain ⟨h1, _, h3⟩ := ih (n / 10) (by omega)
      refine ⟨?_, by simp, ?_⟩
      · intro c hc
        rw [List.mem_append] at hc
        rcases hc with hc | hc
        · exact h1 c hc
        · rw [List.mem_singleton] at hc
          rw [hc]; exact hd.1
      · rw [digits_value_append _ _ h1, h3]
        simp only [digits_value, hd.1, if_true, hd.2]
        omega

theorem repr_data (n : Nat) : (Nat.repr n).data = Nat.toDigits 10 n := rfl

theorem repr_injective (a b : Nat) (h : Nat.repr a = Nat.repr b) : a = b := by
  have h1 : digits_value (Nat.repr a).data 0 = digits_value (Nat.repr b).data 0 := by rw [h]
  rw [repr_data, repr_data, (toDigits_spec a).2.2, (toDigits_spec b).2.2] at h1
  exact h1

theorem isdigit_not_space (c : Char) (h : c_isdigit c = true) : c_isspace c = false := by
  simp only [c_isdigit, c_isspace, Bool.and_eq_true, Bool.or_eq_false_iff, Bool.and_eq_false_iff,
    decide_eq_true_eq, decide_eq_false_iff_not] at *
  omega

theorem isdigit_ne_dash (c : Char) (h : c_isdigit c = true) : c ≠ '-' ∧ c ≠ '+' ∧ c ≠ '*' := by
  refine ⟨?_, ?_, ?_⟩ <;> (intro hc; rw [hc] at h; revert h; decide)

/-- On a non-empty run of digits whose value fits, `std::stoull` returns the value. -/
theorem stoull_chars_digits (ds : List Char) (hne : ds ≠ []) (hd : all_digits ds)
    (hv : digits_value ds 0 < U64) : stoull_chars ds = .ok (digits_value ds 0) := by
  cases ds with
  | nil => exact absurd rfl hne
  | cons c cs =>
    have hc : c_isdigit c = true := hd c (List.mem_cons_self _ _)
    have hs := isdigit_not_space c hc
    obtain ⟨h1, h2, _⟩ := isdigit_ne_dash c hc
    have hv2 : ¬ (digits_value (c :: cs) 0 ≥ U64) := by omega
    simp only [stoull_chars, skip_space, hs, h1, h2, if_false, stoull_signed, hc, if_true,
      hv2, Bool.false_eq_true]

theorem stoull_chars_repr (n : Nat) (h : n < U64) :
    stoull_chars (Nat.repr n).data = .ok n := by
  obtain ⟨h1, h2, h3⟩ := toDigits_spec n
  rw [repr_data]
  have := stoull_chars_digits _ h2 h1 (by rw [h3]; exact h)
  rw [this, h3]

theorem find_dash_digits (ds rest : List Char) (hd : all_digits ds) :
    StreamID.find_dash (ds ++ '-' :: rest) = some ds.length := by
  induction ds with
  | nil => simp [StreamID.find_dash]
  | cons c cs ih =>
    have hc : c_isdigit c = true := hd c (List.mem_cons_self _ _)
    have hcs : all_digits cs := fun d hd2 => hd d (List.mem_cons_of_mem _ hd2)
    simp [StreamID.find_dash, (isdigit_ne_dash c hc).1, ih hcs]

/-! ## The order on `StreamID` -/

namespace StreamID

theorem lt_iff (a b : StreamID) :
    a.lt b = true ↔ a.timestamp_ms < b.timestamp_ms ∨
      (a.timestamp_ms = b.timestamp_ms ∧ a.sequence < b.sequence) := by
  unfold lt
  by_cases h : a.timestamp_ms = b.timestamp_ms
  · simp [h]
  · simp only [ne_eq, h, not_false_eq_true, if_true, decide_eq_true_eq, false_and, or_false]

theorem eq_iff (a b : StreamID) : a.eq b = true ↔ a = b := by
  cases a; cases b
  simp [eq]

theorem le_iff (a b : StreamID) :
    a.le b = true ↔ a.timestamp_ms < b.timestamp_ms ∨
      (a.timestamp_ms = b.timestamp_ms ∧ a.sequence ≤ b.sequence) := by
  unfold le
  rw [Bool.or_eq_true, lt_iff, eq_iff]
  cases a; cases b
  simp only [mk.injEq]
  omega

theorem gt_iff (a b : StreamID) :
    a.gt b = true ↔ b.timestamp_ms < a.timestamp_ms ∨
      (b.timestamp_ms = a.timestamp_ms ∧ b.sequence < a.sequence) := by
  unfold gt; exact lt_iff b a

theorem lt_irrefl (a : StreamID) : a.lt a = false := by
  rw [← Bool.not_eq_true, lt_iff]; omega

theorem lt_trans {a b c : StreamID} (h1 : a.lt b = true) (h2 : b.lt c = true) :
    a.lt c = true := by
  rw [lt_iff] at *; omega

theorem le_refl (a : StreamID) : a.le a = true := by
  rw [le_iff]; omega

theorem le_trans {a b c : StreamID} (h1 : a.le b = true) (h2 : b.le c = true) :
    a.le c = true := by
  rw [le_iff] at *; omega

theorem lt_of_le_of_lt {a b c : StreamID} (h1 : a.le b = true) (h2 : b.lt c = true) :
    a.lt c = true := by
  rw [le_iff] at h1; rw [lt_iff] at *; omega

theorem lt_of_lt_of_le {a b c : StreamID} (h1 : a.lt b = true) (h2 : b.le c = true) :
    a.lt c = true := by
  rw [le_iff] at h2; rw [lt_iff] at *; omega

theorem le_of_lt {a b : StreamID} (h : a.lt b = true) : a.le b = true := by
  rw [le_iff]; rw [lt_iff] at h; omega

theorem not_le_iff_lt (a b : StreamID) : a.le b = false ↔ b.lt a = true := by
  rw [← Bool.not_eq_true, le_iff, lt_iff]; omega

theorem not_lt_iff_le (a b : StreamID) : a.lt b = false ↔ b.le a = true := by
  rw [← Bool.not_eq_true, le_iff, lt_iff]; omega

theorem ne_of_lt {a b : StreamID} (h : a.lt b = true) : a ≠ b := by
  intro hab; rw [hab, lt_irrefl] at h; exact Bool.false_ne_true h

theorem eq_of_not_lt {a b : StreamID} (h1 : a.lt b = false) (h2 : b.lt a = false) : a = b := by
  rw [← Bool.not_eq_true, lt_iff] at h1 h2
  cases a; cases b
  simp only [mk.injEq] at *
  omega

/-! ## Text form of an ID -/

theorem to_string_data (a : StreamID) :
    a.to_string.data = Nat.toDigits 10 a.timestamp_ms ++ '-' :: Nat.toDigits 10 a.sequence := by
  simp [to_string, String.data_append, repr_data]

/-- The parse of `<digits>-<rest>`: the time stamp is the value of the digits
and the sequence part is parsed from what follows the first dash. -/
theorem from_string_digits (now : Nat) (ds rest : List Char) (hne : ds ≠ [])
    (hd : all_digits ds) (hv : digits_value ds 0 < U64) :
    from_string now (String.mk (ds ++ '-' :: rest)) =
      if rest = ['*'] then .ok ⟨digits_value ds 0, 0⟩
      else
        match stoull_chars rest with
        | .error e => .error e
        | .ok sequence => .ok ⟨digits_value ds 0, sequence⟩ := by
  have hstar : String.mk (ds ++ '-' :: rest) ≠ "*" := by
    intro h
    have h2 := congrArg String.length h
    simp [String.length] at h2
    have h3 : ds.length = 0 := by omega
    exact hne (List.length_eq_zero.mp h3)
  have htake : List.take ds.length (ds ++ '-' :: rest) = ds := by simp
  unfold from_string
  simp only [hstar, if_false, find_dash_digits ds rest hd, htake,
    stoull_chars_digits ds hne hd hv]
  have hdrop : List.drop (ds.length + 1) (ds ++ '-' :: rest) = rest := by
    rw [List.drop_append_eq_append_drop]
    simp
  simp only [hdrop]

/-- The text `<ms>-*` parses to `(ms, 0)`. -/
theorem from_string_auto_seq (now ms : Nat) (h : ms < U64) :
    from_string now (Nat.repr ms ++ "-*") = .ok ⟨ms, 0⟩ := by
  obtain ⟨h1, h2, h3⟩ := toDigits_spec ms
  have e : Nat.repr ms ++ "-*" = String.mk (Nat.toDigits 10 ms ++ '-' :: ['*']) := by
    apply String.ext; simp [String.data_append, repr_data]
  rw [e, from_string_digits now _ _ h2 h1 (by rw [h3]; exact h), h3]
  simp

/-- The text form of an ID parses back to the ID. -/
theorem from_string_to_string (now : Nat) (a : StreamID) (h : a.valid) :
    from_string now a.to_string = .ok a := by
  obtain ⟨h1, h2, h3⟩ := toDigits_spec a.timestamp_ms
  obtain ⟨g1, g2, g3⟩ := toDigits_spec a.sequence
  have e : a.to_string =
      String.mk (Nat.toDigits 10 a.timestamp_ms ++ '-' :: Nat.toDigits 10 a.sequence) := by
    apply String.ext; rw [to_string_data]
  rw [e, from_string_digits now _ _ h2 h1 (by rw [h3]; exact h.1), h3]
  have hns : Nat.toDigits 10 a.sequence ≠ ['*'] := by
    intro hc
    have := g1 '*' (by rw [hc]; exact List.mem_singleton_self _)
    revert this; decide
  rw [if_neg hns, stoull_chars_digits _ g2 g1 (by rw [g3]; exact h.2), g3]

theorem append_dash_inj (xs ys xs2 ys2 : List Char) (h1 : all_digits xs) (h2 : all_digits xs2)
    (h : xs ++ '-' :: ys = xs2 ++ '-' :: ys2) : xs = xs2 ∧ ys = ys2 := by
  induction xs generalizing xs2 with
  | nil =>
    cases xs2 with
    | nil => simpa using h
    | cons c cs =>
      simp only [List.nil_append, List.cons_append, List.cons.injEq] at h
      have := h2 c (List.mem_cons_self _ _)
      rw [← h.1] at this
      exact absurd this (by decide)
  | cons c cs ih =>
    cases xs2 with
    | nil =>
      simp only [List.nil_append, List.cons_append, List.cons.injEq] at h
      have := h1 c (List.mem_cons_self _ _)
      rw [h.1] at this
      exact absurd this (by decide)
    | cons d ds =>
      simp only [List.cons_append, List.cons.injEq] at h
      have := ih ds (fun x hx => h1 x (List.mem_cons_of_mem _ hx))
        (fun x hx => h2 x (List.mem_cons_of_mem _ hx)) h.2
      exact ⟨by rw [h.1, this.1], this.2⟩

/-- Two IDs with the same text form are equal. -/
theorem to_string_injective (a b : StreamID) (h : a.to_string = b.to_string) : a = b := by
  have hd := congrArg String.data h
  rw [to_string_data, to_string_data] at hd
  obtain ⟨e1, e2⟩ := append_dash_inj _ _ _ _ (toDigits_spec _).1 (toDigits_spec _).1 hd
  have v1 := congrArg (fun l => digits_value l 0) e1
  have v2 := congrArg (fun l => digits_value l 0) e2
  simp only [(toDigits_spec _).2.2] at v1 v2
  cases a; cases b
  simp only [mk.injEq]
  exact ⟨v1, v2⟩

end StreamID

/-! ## The unordered maps -/

theorem map_find_assign {V : Type} (k key : String) (value : V) (m : List (String × V)) :
    map_find k (map_assign key value m) = if k = key then some value else map_find k m := by
  induction m with
  | nil =>
    by_cases h : k = key
    · simp [map_assign, map_find, h]
    · have h2 : ¬ key = k := fun e => h e.symm
      simp [map_assign, map_find, h, h2]
  | cons p rest ih =>
    obtain ⟨k1, v1⟩ := p
    by_cases h1 : k1 = key
    · by_cases h : k = key
      · simp [map_assign, map_find, h1, h]
      · have h2 : ¬ key = k := fun e => h e.symm
        simp [map_assign, map_find, h1, h, h2]
    · by_cases h : k1 = k
      · have h3 : ¬ k = key := fun e => h1 (h.trans e)
        simp [map_assign, map_find, h1, h, h3]
      · simp [map_assign, map_find, h1, h, ih]

theorem map_find_erase {V : Type} (k key : String) (m : List (String × V)) :
    map_find k (map_erase key m) = if k = key then none else map_find k m := by
  induction m with
  | nil => simp [map_erase, map_find]
  | cons p rest ih =>
    obtain ⟨k1, v1⟩ := p
    by_cases h1 : k1 = key
    · by_cases h : k = key
      · subst h1; subst h
        simpa [map_erase, map_find] using ih
      · have h2 : ¬ key = k := fun e => h e.symm
        simp [map_erase, map_find, h1, h, h2, ih]
    · by_cases h : k1 = k
      · have h3 : ¬ k = key := fun e => h1 (h.trans e)
        simp [map_erase, map_find, h1, h, h3]
      · simp [map_erase, map_find, h1, h, ih]

theorem map_find_modify {V : Type} (k key : String) (f : V → V) (m : List (String × V)) :
    map_find k (map_modify key f m) =
      if k = key then (map_find k m).map f else map_find k m := by
  induction m with
  | nil => simp [map_modify, map_find]
  | cons p rest ih =>
    obtain ⟨k1, v1⟩ := p
    by_cases h1 : k1 = key
    · by_cases h : k = key
      · simp [map_modify, map_find, h1, h]
      · have h2 : ¬ key = k := fun e => h e.symm
        simp [map_modify, map_find, h1, h, h2]
    · by_cases h : k1 = k
      · have h3 : ¬ k = key := fun e => h1 (h.trans e)
        simp [map_modify, map_find, h1, h, h3]
      · simp [map_modify, map_find, h1, h, ih]

/-! ## `XADD` -/

namespace RedisServer

open RedisProtocol

theorem stream_or_new_assign (srv : RedisServer) (key : String) (st : Stream) :
    (RedisServer.mk (map_assign key st srv.streams_)).stream_or_new key = st := by
  simp [stream_or_new, map_find_assign]

theorem xadd_of_ok (srv : RedisServer) (now_parse now_add : Nat) (key id : String)
    (fields : List (String × String)) (a : StreamID) (st : Stream)
    (h : xadd_try now_parse now_add (srv.stream_or_new key) id fields = .ok (a, st)) :
    xadd srv now_parse now_add key id fields =
      (format_bulk_string a.to_string, ⟨map_assign key st srv.streams_⟩) := by
  simp [xadd, h]

theorem xadd_of_error (srv : RedisServer) (now_parse now_add : Nat) (key id : String)
    (fields : List (String × String)) (e : Exception)
    (h : xadd_try now_parse now_add (srv.stream_or_new key) id fields = .error e) :
    xadd srv now_parse now_add key id fields =
      (format_error ("ERR " ++ e.what),
        ⟨map_assign key (srv.stream_or_new key) srv.streams_⟩) := by
  simp [xadd, h]

/-- The three outcomes of `XADD <ms>-*` for a non-zero `ms`. -/
theorem xadd_try_auto_seq (now_parse now_add : Nat) (st : Stream)
    (fields : List (String × String)) (ms : Nat) (h1 : 1 ≤ ms) (h2 : ms < U64) :
    xadd_try now_parse now_add st (Nat.repr ms ++ "-*") fields =
      if ms = st.last_id_.timestamp_ms then
        .ok (⟨ms, (st.last_id_.sequence + 1) % U64⟩,
          { st with
            entries_ := st.entries_.emplace ⟨ms, (st.last_id_.sequence + 1) % U64⟩
              (StreamEntry.mk_from ⟨ms, (st.last_id_.sequence + 1) % U64⟩ fields)
            last_id_ := ⟨ms, (st.last_id_.sequence + 1) % U64⟩ })
      else if ms > st.last_id_.timestamp_ms then
        .ok (⟨ms, 0⟩,
          { st with
            entries_ := st.entries_.emplace ⟨ms, 0⟩ (StreamEntry.mk_from ⟨ms, 0⟩ fields)
            last_id_ := ⟨ms, 0⟩ })
      else .error (.invalid_argument "Stream ID must be greater than last ID") := by
  have hms : ms ≠ 0 := by omega
  unfold xadd_try
  rw [StreamID.from_string_auto_seq now_parse ms h2]
  simp only [Stream.add_entry, hms, false_and, if_false, if_true]
  by_cases e1 : ms = st.last_id_.timestamp_ms
  · simp only [e1, if_true]
  · simp only [e1, if_false]
    by_cases e2 : ms > st.last_id_.timestamp_ms
    · simp only [e2, if_true]
    · simp only [e2, if_false]

end RedisServer

namespace RedisServer
open RedisProtocol

/-- C9: for `1 ≤ ms < 2^64` and a stream whose `last_id` is `(m, s)` with
`s < 2^64 - 1`, `XADD <ms>-*` replies `ms-(s+1)` when `ms = m`, `ms-0` when
`ms > m`, and the IdTooSmall error when `ms < m`. On an empty stream,
`XADD 5-0` then `XADD 5-*` replies `5-1`; after `XADD 10-0`, `XADD 9-*`
fails; and `XADD 1000-0`, `XADD 1000-*`, `XADD 1001-*` reply `1000-0`,
`1000-1`, `1001-0`, after which `XLEN` replies `:3`. -/
theorem C9_auto_sequence_replies (srv : RedisServer) (now_parse now_add : Nat) (key : String)
    (fields : List (String × String)) (ms m s : Nat)
    (hms : 1 ≤ ms) (hms2 : ms < U64)
    (hlast : (srv.stream_or_new key).last_id_ = ⟨m, s⟩) (hs : s < UINT64_MAX) :
    ((ms = m → (xadd srv now_parse now_add key (Nat.repr ms ++ "-*") fields).1
        = format_bulk_string (StreamID.mk ms (s + 1)).to_string) ∧
      (ms > m → (xadd srv now_parse now_add key (Nat.repr ms ++ "-*") fields).1
        = format_bulk_string (StreamID.mk ms 0).to_string) ∧
      (ms < m → (xadd srv now_parse now_add key (Nat.repr ms ++ "-*") fields).1
        = "-ERR Stream ID must be greater than last ID\r\n")) ∧
    (∀ (n1 n2 n3 n4 : Nat) (f1 f2 : List (String × String)),
      (xadd (xadd mk_new n1 n2 "s" "5-0" f1).2 n3 n4 "s" "5-*" f2).1 = "$3\r\n5-1\r\n") ∧
    (∀ (n1 n2 n3 n4 : Nat) (f1 f2 : List (String × String)),
      (xadd (xadd mk_new n1 n2 "s" "10-0" f1).2 n3 n4 "s" "9-*" f2).1
        = "-ERR Stream ID must be greater than last ID\r\n") ∧
    (∀ (n1 n2 n3 n4 n5 n6 : Nat) (f1 f2 f3 : List (String × String)),
      (xadd mk_new n1 n2 "s" "1000-0" f1).1 = "$6\r\n1000-0\r\n" ∧
      (xadd (xadd mk_new n1 n2 "s" "1000-0" f1).2 n3 n4 "s" "1000-*" f2).1
        = "$6\r\n1000-1\r\n" ∧
      (xadd (xadd (xadd mk_new n1 n2 "s" "1000-0" f1).2 n3 n4 "s" "1000-*" f2).2
        n5 n6 "s" "1001-*" f3).1 = "$6\r\n1001-0\r\n" ∧
      xlen (xadd (xadd (xadd mk_new n1 n2 "s" "1000-0" f1).2 n3 n4 "s" "1000-*" f2).2
        n5 n6 "s" "1001-*" f3).2 "s" = ":3\r\n") := by
  have key_eq := xadd_try_auto_seq now_parse now_add (srv.stream_or_new key) fields ms hms hms2
  rw [hlast] at key_eq
  simp only at key_eq
  have hmod : (s + 1) % U64 = s + 1 := by
    apply Nat.mod_eq_of_lt
    simp only [UINT64_MAX, U64] at *
    omega
  refine ⟨⟨?_, ?_, ?_⟩, ?_, ?_, ?_⟩
  · intro h
    rw [if_pos h, hmod] at key_eq
    rw [xadd_of_ok _ _ _ _ _ _ _ _ key_eq]
  · intro h
    have h1 : ¬ ms = m := by omega
    rw [if_neg h1, if_pos h] at key_eq
    rw [xadd_of_ok _ _ _ _ _ _ _ _ key_eq]
  · intro h
    have h1 : ¬ ms = m := by omega
    have h2 : ¬ ms > m := by omega
    rw [if_neg h1, if_neg h2] at key_eq
    rw [xadd_of_error _ _ _ _ _ _ _ key_eq]
    rfl
  · intro n1 n2 n3 n4 f1 f2
    simp [xadd, xadd_try, StreamID.from_string, stream_or_new, map_find, mk_new, Stream.mk_new,
      map_assign, Stream.add_entry]
    rfl
  · intro n1 n2 n3 n4 f1 f2
    rfl
  · intro n1 n2 n3 n4 n5 n6 f1 f2 f3
    refine ⟨rfl, ?_, ?_, ?_⟩
    · simp [xadd, xadd_try, StreamID.from_string, stream_or_new, map_find, mk_new,
        Stream.mk_new, map_assign, Stream.add_entry]
      rfl
    · simp [xadd, xadd_try, StreamID.from_string, stream_or_new, map_find, mk_new,
        Stream.mk_new, map_assign, Stream.add_entry]
      rfl
    · simp [xadd, xadd_try, StreamID.from_string, stream_or_new, map_find, mk_new,
        Stream.mk_new, map_assign, Stream.add_entry, xlen, EntryMap.emplace, StreamID.lt,
        Stream.length, digits_value, c_isdigit, U64]
      rfl

/-- An instance of C9: `XADD s 5-*` on an empty stream, where `5 > 0`. -/
theorem C9_auto_sequence_replies_witness :
    (1 ≤ 5 ∧ 5 < U64 ∧ (mk_new.stream_or_new "s").last_id_ = ⟨0, 0⟩ ∧ 0 < UINT64_MAX) ∧
      (xadd mk_new 0 0 "s" (Nat.repr 5 ++ "-*") []).1
        = format_bulk_string (StreamID.mk 5 0).to_string :=
  ⟨by decide,
    (C9_auto_sequence_replies mk_new 0 0 "s" [] 5 0 0 (by decide) (by decide) rfl
      (by decide)).1.2.1 (by decide)⟩

/-- C6 (counterexample): on an empty stream (`last_id = (0, 0)`) the text
`0-*` has `ms = last_id.ms`, yet the reply is not `0-1`: with the clock at
1000 the reply is `1000-0`. -/
theorem C6_counterexample :
    (mk_new.stream_or_new "s").last_id_ = ⟨0, 0⟩ ∧
      (xadd mk_new 1000 1000 "s" (Nat.repr 0 ++ "-*") []).1
        = format_bulk_string (StreamID.mk 1000 0).to_string ∧
      (xadd mk_new 1000 1000 "s" (Nat.repr 0 ++ "-*") []).1
        ≠ format_bulk_string (StreamID.mk 0 (0 + 1)).to_string := by
  decide

/-- C6 (amended): for `1 ≤ ms < 2^64` and a stream with `last_id = L`,
`XADD <ms>-*` returns `(ms, L.seq + 1)` when `ms = L.ms` and `L.seq` is not
`2^64 - 1`, returns `(ms, 0)` when `ms > L.ms`, and throws `Stream ID must be
greater than last ID` when `ms < L.ms`. -/
theorem C6_auto_sequence_amended (srv : RedisServer) (now_parse now_add : Nat) (key : String)
    (fields : List (String × String)) (ms : Nat) (hms : 1 ≤ ms) (hms2 : ms < U64) :
    (ms = (srv.stream_or_new key).last_id_.timestamp_ms →
      (srv.stream_or_new key).last_id_.sequence < UINT64_MAX →
      (xadd_try now_parse now_add (srv.stream_or_new key) (Nat.repr ms ++ "-*") fields).map
        (fun r => r.1) = .ok ⟨ms, (srv.stream_or_new key).last_id_.sequence + 1⟩) ∧
    (ms > (srv.stream_or_new key).last_id_.timestamp_ms →
      (xadd_try now_parse now_add (srv.stream_or_new key) (Nat.repr ms ++ "-*") fields).map
        (fun r => r.1) = .ok ⟨ms, 0⟩) ∧
    (ms < (srv.stream_or_new key).last_id_.timestamp_ms →
      xadd_try now_parse now_add (srv.stream_or_new key) (Nat.repr ms ++ "-*") fields
        = .error (.invalid_argument "Stream ID must be greater than last ID") ∧
      (xadd srv now_parse now_add key (Nat.repr ms ++ "-*") fields).1
        = "-ERR Stream ID must be greater than last ID\r\n") := by
  have key_eq := xadd_try_auto_seq now_parse now_add (srv.stream_or_new key) fields ms hms hms2
  refine ⟨?_, ?_, ?_⟩
  · intro h hs
    have hmod : ((srv.stream_or_new key).last_id_.sequence + 1) % U64
        = (srv.stream_or_new key).last_id_.sequence + 1 := by
      apply Nat.mod_eq_of_lt
      simp only [UINT64_MAX, U64] at *
      omega
    rw [if_pos h, hmod] at key_eq
    rw [key_eq]; rfl
  · intro h
    have h1 : ¬ ms = (srv.stream_or_new key).last_id_.timestamp_ms := by omega
    rw [if_neg h1, if_pos h] at key_eq
    rw [key_eq]; rfl
  · intro h
    have h1 : ¬ ms = (srv.stream_or_new key).last_id_.timestamp_ms := by omega
    have h2 : ¬ ms > (srv.stream_or_new key).last_id_.timestamp_ms := by omega
    rw [if_neg h1, if_neg h2] at key_eq
    refine ⟨key_eq, ?_⟩
    rw [xadd_of_error _ _ _ _ _ _ _ key_eq]
    rfl

/-- An instance of the amended C6: `XADD s 7-*` on an empty stream. -/
theorem C6_auto_sequence_amended_witness :
    (1 ≤ 7 ∧ 7 < U64) ∧
      (xadd_try 0 0 (mk_new.stream_or_new "s") (Nat.repr 7 ++ "-*") []).map (fun r => r.1)
        = .ok ⟨7, 0⟩ :=
  ⟨by decide,
    (C6_auto_sequence_amended mk_new 0 0 "s" [] 7 (by decide) (by decide)).2.1 (by decide)⟩

/-- C7 (counterexample): `XADD s 5-0` issued twice on an empty stream. The
second request is explicit and equal to `last_id`, yet it succeeds with the
reply `5-1` and the stream then holds two entries. -/
theorem C7_counterexample :
    ((xadd mk_new 0 0 "s" "5-0" []).2.stream_or_new "s").last_id_ = ⟨5, 0⟩ ∧
      StreamID.from_string 0 "5-0" = .ok ⟨5, 0⟩ ∧
      StreamID.le ⟨5, 0⟩ ⟨5, 0⟩ = true ∧
      (xadd (xadd mk_new 0 0 "s" "5-0" []).2 0 0 "s" "5-0" []).1 = "$3\r\n5-1\r\n" ∧
      ((xadd mk_new 0 0 "s" "5-0" []).2.stream_or_new "s").length = 1 ∧
      ((xadd (xadd mk_new 0 0 "s" "5-0" []).2 0 0 "s" "5-0" []).2.stream_or_new "s").length
        = 2 := by
  decide

/-- C7 (amended): for every ID text `<ms>-<seq>` made of two non-empty runs
of decimal digits whose values fit in 64 bits, with a sequence value of at
least 1, and whose ID is less than or equal to the stream's `last_id`, XADD
replies `-ERR Stream ID must be greater than last ID` and leaves the
entries and `last_id` of the stream as they were. -/
theorem C7_explicit_id_too_small (srv : RedisServer) (now_parse now_add : Nat) (key : String)
    (fields : List (String × String)) (ms_txt seq_txt : List Char)
    (h1 : ms_txt ≠ []) (h2 : all_digits ms_txt) (h3 : digits_value ms_txt 0 < U64)
    (g1 : seq_txt ≠ []) (g2 : all_digits seq_txt) (g3 : digits_value seq_txt 0 < U64)
    (hseq : 1 ≤ digits_value seq_txt 0)
    (hle : StreamID.le ⟨digits_value ms_txt 0, digits_value seq_txt 0⟩
      (srv.stream_or_new key).last_id_ = true) :
    (xadd srv now_parse now_add key (String.mk (ms_txt ++ '-' :: seq_txt)) fields).1
        = "-ERR Stream ID must be greater than last ID\r\n" ∧
      ((xadd srv now_parse now_add key (String.mk (ms_txt ++ '-' :: seq_txt)) fields).2.stream_or_new
        key).entries_ = (srv.stream_or_new key).entries_ ∧
      ((xadd srv now_parse now_add key (String.mk (ms_txt ++ '-' :: seq_txt)) fields).2.stream_or_new
        key).last_id_ = (srv.stream_or_new key).last_id_ := by
  have hns : seq_txt ≠ ['*'] := by
    intro hc
    have := g2 '*' (by rw [hc]; exact List.mem_singleton_self _)
    exact absurd this (by decide)
  have hseq0 : ¬ digits_value seq_txt 0 = 0 := by omega
  have hp : xadd_try now_parse now_add (srv.stream_or_new key)
      (String.mk (ms_txt ++ '-' :: seq_txt)) fields
      = .error (.invalid_argument "Stream ID must be greater than last ID") := by
    unfold xadd_try
    rw [StreamID.from_string_digits now_parse _ _ h1 h2 h3, if_neg hns,
      stoull_chars_digits _ g1 g2 g3]
    simp only [Stream.add_entry, hseq0, and_false, if_false, hle, if_true]
  rw [xadd_of_error _ _ _ _ _ _ _ hp]
  refine ⟨rfl, ?_, ?_⟩ <;> rw [stream_or_new_assign]

/-- An instance of the amended C7: `XADD s 5-1` issued twice. -/
theorem C7_explicit_id_too_small_witness :
    ((['5'] : List Char) ≠ [] ∧ all_digits ['5'] ∧ digits_value ['5'] 0 < U64 ∧
      (['1'] : List Char) ≠ [] ∧ all_digits ['1'] ∧ digits_value ['1'] 0 < U64 ∧
      1 ≤ digits_value ['1'] 0 ∧
      StreamID.le ⟨digits_value ['5'] 0, digits_value ['1'] 0⟩
        (((xadd mk_new 0 0 "s" "5-1" []).2).stream_or_new "s").last_id_ = true) ∧
      (xadd (xadd mk_new 0 0 "s" "5-1" []).2 0 0 "s" (String.mk (['5'] ++ '-' :: ['1'])) []).1
        = "-ERR Stream ID must be greater than last ID\r\n" :=
  ⟨by decide,
    (C7_explicit_id_too_small (xadd mk_new 0 0 "s" "5-1" []).2 0 0 "s" [] ['5'] ['1']
      (by decide) (by decide) (by decide) (by decide) (by decide) (by decide) (by decide)
      (by decide)).1⟩

/-- C8 (evaluation at the failing input): after `XADD s 2000-5`, with the
clock at 1000, `XADD s *` has `(now, 0) ≤ last_id`, and the reply is the
IdTooSmall error instead of `2000-6`. -/
theorem C8_full_auto_rejected :
    ((xadd mk_new 1000 1000 "s" "2000-5" []).2.stream_or_new "s").last_id_ = ⟨2000, 5⟩ ∧
      StreamID.le ⟨1000, 0⟩ ⟨2000, 5⟩ = true ∧
      StreamID.from_string 1000 "*" = .ok ⟨1000, 0⟩ ∧
      (xadd (xadd mk_new 1000 1000 "s" "2000-5" []).2 1000 1000 "s" "*" []).1
        = "-ERR Stream ID must be greater than last ID\r\n" := by
  decide

/-- C1 (evaluation at the failing input): after
`XADD s 5-18446744073709551615` the stream has `last_id = (5, 2^64 - 1)`;
`XADD s 5-*` then succeeds with the reply `5-0`, which is not greater than
that `last_id`, and `last_id` becomes `(5, 0)`. -/
theorem C1_sequence_wraps :
    ((xadd mk_new 1000 1000 "s" "5-18446744073709551615" []).2.stream_or_new "s").last_id_
        = ⟨5, UINT64_MAX⟩ ∧
      (xadd (xadd mk_new 1000 1000 "s" "5-18446744073709551615" []).2
        1000 1000 "s" "5-*" []).1 = "$3\r\n5-0\r\n" ∧
      ((xadd (xadd mk_new 1000 1000 "s" "5-18446744073709551615" []).2
        1000 1000 "s" "5-*" []).2.stream_or_new "s").last_id_ = ⟨5, 0⟩ ∧
      StreamID.gt ⟨5, 0⟩ ⟨5, UINT64_MAX⟩ = false := by
  decide

/-- C10: whenever the `try` block of XADD throws (a malformed ID text such as
`not-an-id`, or IdTooSmall), the reply is `-ERR <what>` and the entries and
`last_id` of the target stream are as before the call (a stream that did
not exist is registered empty, with `last_id = (0, 0)`), so XLEN replies the
same before and after. The text `not-an-id` makes the block throw. -/
theorem C10_failed_xadd_changes_nothing (srv : RedisServer) (now_parse now_add : Nat)
    (key id : String) (fields : List (String × String)) (e : Exception)
    (h : xadd_try now_parse now_add (srv.stream_or_new key) id fields = .error e) :
    (xadd srv now_parse now_add key id fields).1 = "-ERR " ++ e.what ++ "\r\n" ∧
      ((xadd srv now_parse now_add key id fields).2.stream_or_new key).entries_
        = (srv.stream_or_new key).entries_ ∧
      ((xadd srv now_parse now_add key id fields).2.stream_or_new key).last_id_
        = (srv.stream_or_new key).last_id_ ∧
      xlen (xadd srv now_parse now_add key id fields).2 key = xlen srv key ∧
      (∀ (st : Stream) (n1 n2 : Nat) (f : List (String × String)),
        xadd_try n1 n2 st "not-an-id" f = .error (.invalid_argument "stoull")) := by
  rw [xadd_of_error _ _ _ _ _ _ _ h]
  refine ⟨?_, ?_, ?_, ?_, ?_⟩
  · simp only [format_error]
    apply String.ext
    simp [String.data_append]
  · rw [stream_or_new_assign]
  · rw [stream_or_new_assign]
  · simp only [xlen, map_find_assign, if_true, stream_or_new]
    cases hf : map_find key srv.streams_ with
    | none => rfl
    | some st => rfl
  · intro st n1 n2 f
    rfl

/-- An instance of C10: `XADD s not-an-id f v` on an empty server. -/
theorem C10_failed_xadd_changes_nothing_witness :
    xadd_try 0 0 (mk_new.stream_or_new "s") "not-an-id" [("f", "v")]
        = .error (.invalid_argument "stoull") ∧
      (xadd mk_new 0 0 "s" "not-an-id" [("f", "v")]).1 = "-ERR stoull\r\n" ∧
      xlen (xadd mk_new 0 0 "s" "not-an-id" [("f", "v")]).2 "s" = xlen mk_new "s" :=
  ⟨rfl,
    (C10_failed_xadd_changes_nothing mk_new 0 0 "s" "not-an-id" [("f", "v")]
      (.invalid_argument "stoull") rfl).1,
    (C10_failed_xadd_changes_nothing mk_new 0 0 "s" "not-an-id" [("f", "v")]
      (.invalid_argument "stoull") rfl).2.2.2.1⟩

end RedisServer

/-! ## Range queries -/

namespace EntryMap

theorem upper_bound_le_length (c : StreamID) (m : EntryMap) : upper_bound c m ≤ m.length := by
  induction m with
  | nil => simp [upper_bound]
  | cons p rest ih =>
    obtain ⟨k, v⟩ := p
    simp only [upper_bound, List.length_cons]
    split <;> omega

theorem lower_bound_le_length (c : StreamID) (m : EntryMap) : lower_bound c m ≤ m.length := by
  induction m with
  | nil => simp [lower_bound]
  | cons p rest ih =>
    obtain ⟨k, v⟩ := p
    simp only [lower_bound, List.length_cons]
    split <;> omega

/-- On an ordered map, the elements from `upper_bound c` on are the ones with
a key greater than `c`. -/
theorem drop_upper_bound (c : StreamID) (m : EntryMap) (h : m.sorted) :
    m.drop (upper_bound c m) = m.filter (fun p => c.lt p.1) := by
  induction m with
  | nil => simp [upper_bound]
  | cons p rest ih =>
    obtain ⟨k, v⟩ := p
    have hs := List.pairwise_cons.mp h
    by_cases hc : c.lt k = true
    · simp only [upper_bound, hc, if_true, List.drop_zero]
      symm
      apply List.filter_eq_self.mpr
      intro q hq
      rcases List.mem_cons.mp hq with hq | hq
      · rw [hq]; simpa using hc
      · have := hs.1 q hq
        simpa using StreamID.lt_trans hc this
    · simp only [upper_bound, hc, if_false, List.drop_succ_cons, Bool.false_eq_true]
      rw [ih hs.2]
      simp [List.filter_cons, hc]

end EntryMap

namespace Stream

theorem after_loop_eq (count : Int) (l : List (StreamID × StreamEntry)) :
    ∀ added : Int, after_loop count l added =
      if count < 0 then l.map (fun p => p.2)
      else (l.map (fun p => p.2)).take (count - added).toNat := by
  induction l with
  | nil => intro added; simp [after_loop]
  | cons e rest ih =>
    intro added
    simp only [after_loop, List.map_cons]
    by_cases hneg : count < 0
    · simp only [hneg, true_or, if_true, ih (added + 1)]
    · by_cases hlt : added < count
      · have e1 : (count - added).toNat = (count - (added + 1)).toNat + 1 := by omega
        simp only [hneg, hlt, or_true, if_true, if_false, ih (added + 1), e1, List.take_succ_cons]
      · have e1 : (count - added).toNat = 0 := by omega
        simp only [hneg, hlt, or_self, if_false, e1, List.take_zero]

theorem range_loop_to_end (count : Int) (n : Nat) (l : List (StreamID × StreamEntry)) :
    ∀ (it : Nat) (added : Int), it + l.length = n →
      range_loop n count it l added = some (after_loop count l added) := by
  induction l with
  | nil =>
    intro it added h
    have : it = n := by simpa using h
    simp [range_loop, after_loop, this]
  | cons e rest ih =>
    intro it added h
    have hne : it ≠ n := by simp only [List.length_cons] at h; omega
    simp only [range_loop, after_loop, hne, ne_eq, not_false_eq_true, true_and]
    by_cases hc : count < 0 ∨ added < count
    · simp only [hc, if_true]
      rw [ih (it + 1) (added + 1) (by simp only [List.length_cons] at h; omega)]
      rfl
    · simp only [hc, if_false]

end Stream

theorem StreamID.lt_next_iff (c k : StreamID) (hk : k.valid) (hc : c.valid) :
    k.lt c.next = !(c.lt k) := by
  have e : ∀ b1 b2 : Bool, (b1 = true ↔ ¬ (b2 = true)) → b1 = !b2 := by
    intro b1 b2; cases b1 <;> cases b2 <;> simp
  apply e
  rw [StreamID.lt_iff, StreamID.lt_iff]
  unfold StreamID.next
  unfold StreamID.valid at hk hc
  simp only [U64, UINT64_MAX] at *
  split <;> simp only <;> omega

theorem EntryMap.lower_bound_next (c : StreamID) (hc : c.valid) (m : EntryMap)
    (hv : ∀ p ∈ m, p.1.valid) :
    EntryMap.lower_bound c.next m = EntryMap.upper_bound c m := by
  induction m with
  | nil => rfl
  | cons p rest ih =>
    obtain ⟨k, v⟩ := p
    have hk : k.valid := hv (k, v) (List.mem_cons_self _ _)
    have ih2 := ih (fun q hq => hv q (List.mem_cons_of_mem _ hq))
    simp only [EntryMap.lower_bound, EntryMap.upper_bound, StreamID.lt_next_iff c k hk hc, ih2]
    cases c.lt k <;> simp

namespace Stream

theorem get_entries_after_eq (s : Stream) (hwf : s.wf) (c : StreamID) (count : Int) :
    s.get_entries_after c count =
      if count < 0 then (s.entries_.map (fun p => p.2)).filter (fun e => c.lt e.id_)
      else ((s.entries_.map (fun p => p.2)).filter (fun e => c.lt e.id_)).take count.toNat := by
  have hf : (s.entries_.map (fun p => p.2)).filter (fun e => c.lt e.id_)
      = (s.entries_.filter (fun p => c.lt p.1)).map (fun p => p.2) := by
    rw [List.filter_map]
    congr 1
    apply List.filter_congr
    intro p hp
    simp only [Function.comp, (hwf.2 p hp).1]
  unfold get_entries_after
  rw [after_loop_eq, EntryMap.drop_upper_bound c _ hwf.1, hf]
  simp

theorem entries_ids_sorted (s : Stream) (hwf : s.wf) :
    (s.entries_.map (fun p => p.2)).Pairwise (fun a b => a.id_.lt b.id_ = true) := by
  rw [List.pairwise_map]
  have h := hwf.1
  unfold EntryMap.sorted at h
  refine List.Pairwise.imp_of_mem ?_ h
  intro a b ha hb hab
  rw [(hwf.2 a ha).1, (hwf.2 b hb).1]
  exact hab

/-- C5: `get_entries_after(c, count)` returns only entries with an ID greater
than `c`, in ascending order: all of them when `count < 0`, the first
`min(count, n)` of them when `count ≥ 0`. For `c` below the maximum ID it is
the result of `get_range` from the successor of `c` to the maximum sentinel,
and for the maximum ID it is empty. -/
theorem C5_get_entries_after (s : Stream) (hwf : s.wf) (c : StreamID) (count : Int) :
    (∀ e ∈ s.get_entries_after c count, c.lt e.id_ = true) ∧
    (∀ e ∈ s.get_entries_after c count, e.id_.le c = false) ∧
    (s.get_entries_after c count).Pairwise (fun a b => a.id_.lt b.id_ = true) ∧
    (count < 0 → s.get_entries_after c count
      = (s.entries_.map (fun p => p.2)).filter (fun e => c.lt e.id_)) ∧
    (0 ≤ count → s.get_entries_after c count
      = ((s.entries_.map (fun p => p.2)).filter (fun e => c.lt e.id_)).take count.toNat) ∧
    (c.valid → c ≠ ⟨UINT64_MAX, UINT64_MAX⟩ →
      s.get_range c.next ⟨UINT64_MAX, UINT64_MAX⟩ count = some (s.get_entries_after c count)) ∧
    (c = ⟨UINT64_MAX, UINT64_MAX⟩ → s.get_entries_after c count = []) := by
  have heq := get_entries_after_eq s hwf c count
  have hsub : (s.get_entries_after c count).Sublist
      ((s.entries_.map (fun p => p.2)).filter (fun e => c.lt e.id_)) := by
    rw [heq]
    split
    · exact List.Sublist.refl _
    · exact List.take_sublist _ _
  have hgt : ∀ e ∈ s.get_entries_after c count, c.lt e.id_ = true := by
    intro e he
    have := hsub.subset he
    exact (List.mem_filter.mp this).2
  refine ⟨hgt, ?_, ?_, ?_, ?_, ?_, ?_⟩
  · intro e he
    exact (StreamID.not_le_iff_lt _ _).mpr (hgt e he)
  · exact ((entries_ids_sorted s hwf).sublist (List.filter_sublist _)).sublist hsub
  · intro h; rw [heq, if_pos h]
  · intro h; rw [heq, if_neg (by omega)]
  · intro hv hne
    have hn0 : ¬ (c.next.timestamp_ms = 0 ∧ c.next.sequence = 0) := by
      unfold StreamID.next
      split <;> simp
    unfold get_range
    simp only [hn0, if_false, and_self, if_true]
    rw [EntryMap.lower_bound_next c hv _ (fun p hp => (hwf.2 p hp).2)]
    rw [range_loop_to_end]
    · rfl
    · have := EntryMap.upper_bound_le_length c s.entries_
      simp only [List.length_drop]
      omega
  · intro hmax
    have : (s.entries_.map (fun p => p.2)).filter (fun e => c.lt e.id_) = [] := by
      apply List.filter_eq_nil_iff.mpr
      intro e he
      obtain ⟨p, hp, rfl⟩ := List.mem_map.mp he
      have hv := (hwf.2 p hp)
      rw [hv.1, hmax, Bool.not_eq_true, ← Bool.not_eq_true, StreamID.lt_iff]
      have := hv.2
      unfold StreamID.valid at this
      simp only [U64, UINT64_MAX] at *
      omega
    rw [this] at hsub
    exact List.sublist_nil.mp hsub

end Stream

/-- An instance of C5: the first entry after `1-1` in a stream of three. -/
theorem Stream.C5_get_entries_after_witness :
    (Stream.mk [(⟨1, 1⟩, ⟨⟨1, 1⟩, []⟩), (⟨2, 1⟩, ⟨⟨2, 1⟩, []⟩), (⟨3, 1⟩, ⟨⟨3, 1⟩, []⟩)] []
        ⟨3, 1⟩).wf ∧
      (Stream.mk [(⟨1, 1⟩, ⟨⟨1, 1⟩, []⟩), (⟨2, 1⟩, ⟨⟨2, 1⟩, []⟩), (⟨3, 1⟩, ⟨⟨3, 1⟩, []⟩)] []
        ⟨3, 1⟩).get_entries_after ⟨1, 1⟩ 1 = [⟨⟨2, 1⟩, []⟩] :=
  ⟨by decide,
    ((Stream.C5_get_entries_after
      (Stream.mk [(⟨1, 1⟩, ⟨⟨1, 1⟩, []⟩), (⟨2, 1⟩, ⟨⟨2, 1⟩, []⟩), (⟨3, 1⟩, ⟨⟨3, 1⟩, []⟩)] []
        ⟨3, 1⟩) (by decide) ⟨1, 1⟩ 1).2.2.2.2.1 (by decide)).trans (by decide)⟩

/-- C4 (evaluation at the failing input): on the stream holding `1-1`, `2-1`
and `3-1`, the query `get_range(3-1, 1-1, -1)` starts at position 2
(`lower_bound`) and is to stop at position 1 (`upper_bound`); the loop
passes `end()` without meeting its stop position, so the call has no defined
result, whereas no entry satisfies `3-1 ≤ id ≤ 1-1`. -/
theorem RedisServer.C4_reversed_bounds_pass_end :
    ((RedisServer.xadd (RedisServer.xadd (RedisServer.xadd RedisServer.mk_new
        0 0 "s" "1-1" []).2 0 0 "s" "2-1" []).2 0 0 "s" "3-1" []).2.stream_or_new "s").entries_
        = [(⟨1, 1⟩, ⟨⟨1, 1⟩, []⟩), (⟨2, 1⟩, ⟨⟨2, 1⟩, []⟩), (⟨3, 1⟩, ⟨⟨3, 1⟩, []⟩)] ∧
      EntryMap.lower_bound ⟨3, 1⟩
        [(⟨1, 1⟩, ⟨⟨1, 1⟩, []⟩), (⟨2, 1⟩, ⟨⟨2, 1⟩, []⟩), (⟨3, 1⟩, ⟨⟨3, 1⟩, []⟩)] = 2 ∧
      EntryMap.upper_bound ⟨1, 1⟩
        [(⟨1, 1⟩, ⟨⟨1, 1⟩, []⟩), (⟨2, 1⟩, ⟨⟨2, 1⟩, []⟩), (⟨3, 1⟩, ⟨⟨3, 1⟩, []⟩)] = 1 ∧
      ((RedisServer.xadd (RedisServer.xadd (RedisServer.xadd RedisServer.mk_new
        0 0 "s" "1-1" []).2 0 0 "s" "2-1" []).2 0 0 "s" "3-1" []).2.stream_or_new
        "s").get_range ⟨3, 1⟩ ⟨1, 1⟩ (-1) = none ∧
      RedisServer.xrange (RedisServer.xadd (RedisServer.xadd (RedisServer.xadd
        RedisServer.mk_new 0 0 "s" "1-1" []).2 0 0 "s" "2-1" []).2 0 0 "s" "3-1" []).2
        0 0 "s" "3-1" "1-1" (-1) = none := by
  decide

/-! ## The PEL and the pending sets -/

namespace Consumer

theorem mem_add_pending (c : Consumer) (id : StreamID) (k : String) :
    k ∈ (c.add_pending_message id).pending_messages_ ↔
      k ∈ c.pending_messages_ ∨ k = id.to_string := by
  unfold add_pending_message
  by_cases h : id.to_string ∈ c.pending_messages_
  · simp only [h, if_true]
    constructor
    · intro hk; exact Or.inl hk
    · intro hk
      rcases hk with hk | hk
      · exact hk
      · rw [hk]; exact h
  · simp [h]

theorem mem_remove_pending (c : Consumer) (id : StreamID) (k : String) :
    k ∈ (c.remove_pending_message id).pending_messages_ ↔
      k ∈ c.pending_messages_ ∧ k ≠ id.to_string := by
  simp [remove_pending_message, List.mem_filter]

theorem add_pending_name (c : Consumer) (id : StreamID) :
    (c.add_pending_message id).name_ = c.name_ := by
  unfold add_pending_message
  split <;> rfl

end Consumer

namespace ConsumerGroup

theorem find_modify_some {V : Type} (n key : String) (f : V → V) (m : List (String × V))
    (c2 : V) (h : map_find n (map_modify key f m) = some c2) :
    ∃ c, map_find n m = some c ∧ c2 = if n = key then f c else c := by
  rw [map_find_modify] at h
  by_cases hn : n = key
  · simp only [hn, if_true] at h ⊢
    cases hf : map_find key m with
    | none => rw [hf] at h; simp at h
    | some c =>
      rw [hf] at h
      simp only [Option.map_some', Option.some.injEq] at h
      exact ⟨c, rfl, h.symm⟩
  · simp only [hn, if_false] at h ⊢
    exact ⟨c2, h, rfl⟩

/-- One delivery keeps the invariant. -/
theorem deliver_step_inv (g : ConsumerGroup) (cn : String) (id : StreamID) (t : Nat)
    (hinv : g.pel_inv) (hreg : ∃ c, map_find cn g.consumers_ = some c)
    (hgt : id.gt g.last_delivered_id_ = true) :
    (ConsumerGroup.mk g.name_ id
      (map_modify cn (fun c => c.add_pending_message id) g.consumers_)
      (map_assign id.to_string ⟨id, cn, t, 1⟩ g.pending_entries_)).pel_inv := by
  obtain ⟨h1, h2, h3⟩ := hinv
  have hlt : g.last_delivered_id_.lt id = true := hgt
  have hfresh : ∀ k pe, map_find k g.pending_entries_ = some pe → k ≠ id.to_string := by
    intro k pe hk heq
    obtain ⟨e1, e2, _⟩ := h1 k pe hk
    have := StreamID.to_string_injective _ _ (e1.symm.trans heq)
    rw [this] at e2
    have h4 := StreamID.lt_of_le_of_lt e2 hlt
    rw [StreamID.lt_irrefl] at h4
    exact Bool.false_ne_true h4
  refine ⟨?_, ?_, ?_⟩
  · intro k pe hk
    simp only at hk ⊢
    rw [map_find_assign] at hk
    by_cases hkn : k = id.to_string
    · simp only [hkn, if_true, Option.some.injEq] at hk
      subst hk
      obtain ⟨c0, hc0⟩ := hreg
      refine ⟨hkn, StreamID.le_refl _, c0.add_pending_message id, ?_, ?_⟩
      · rw [map_find_modify, hc0]; simp
      · rw [hkn]; exact (Consumer.mem_add_pending c0 id _).mpr (Or.inr rfl)
    · simp only [hkn, if_false] at hk
      obtain ⟨e1, e2, c, e3, e4⟩ := h1 k pe hk
      refine ⟨e1, StreamID.le_trans e2 (StreamID.le_of_lt hlt), ?_⟩
      rw [map_find_modify, e3]
      by_cases hp : pe.consumer_name = cn
      · refine ⟨c.add_pending_message id, by simp [hp], ?_⟩
        exact (Consumer.mem_add_pending c id k).mpr (Or.inl e4)
      · exact ⟨c, by simp [hp], e4⟩
  · intro n c2 k hn hk
    simp only at hn ⊢
    obtain ⟨c, hc, hc2⟩ := find_modify_some n cn _ _ c2 hn
    rw [map_find_assign]
    by_cases hncn : n = cn
    · simp only [hncn, if_true] at hc2
      rw [hc2, Consumer.mem_add_pending] at hk
      by_cases hkn : k = id.to_string
      · exact ⟨⟨id, cn, t, 1⟩, by simp only [hkn, if_true], hncn.symm⟩
      · rcases hk with hk | hk
        · obtain ⟨pe, e1, e2⟩ := h2 n c k hc hk
          exact ⟨pe, by simp only [hkn, if_false]; exact e1, e2⟩
        · exact absurd hk hkn
    · simp only [hncn, if_false] at hc2
      rw [hc2] at hk
      obtain ⟨pe, e1, e2⟩ := h2 n c k hc hk
      have hkn := hfresh k pe e1
      exact ⟨pe, by simp only [hkn, if_false]; exact e1, e2⟩
  · intro n c2 hn
    simp only at hn
    obtain ⟨c, hc, hc2⟩ := find_modify_some n cn _ _ c2 hn
    rw [hc2]
    split
    · rw [Consumer.add_pending_name]; exact h3 n c hc
    · exact h3 n c hc

/-- One acknowledgement step keeps the invariant. -/
theorem ack_step_inv (g : ConsumerGroup) (cn : String) (id : StreamID) (hinv : g.pel_inv) :
    (ConsumerGroup.mk g.name_ g.last_delivered_id_
      (map_modify cn (fun c => c.remove_pending_message id) g.consumers_)
      (if (match map_find id.to_string g.pending_entries_ with
            | some pe => decide (pe.consumer_name = cn)
            | none => false) = true
        then map_erase id.to_string g.pending_entries_ else g.pending_entries_)).pel_inv := by
  obtain ⟨h1, h2, h3⟩ := hinv
  refine ⟨?_, ?_, ?_⟩
  · intro k pe hk
    simp only at hk ⊢
    have hold : map_find k g.pending_entries_ = some pe := by
      split at hk
      · rw [map_find_erase] at hk
        by_cases hkn : k = id.to_string
        · simp [hkn] at hk
        · simpa [hkn] using hk
      · exact hk
    obtain ⟨e1, e2, c, e3, e4⟩ := h1 k pe hold
    refine ⟨e1, e2, ?_⟩
    rw [map_find_modify, e3]
    by_cases hp : pe.consumer_name = cn
    · refine ⟨c.remove_pending_message id, by simp [hp], ?_⟩
      refine (Consumer.mem_remove_pending c id k).mpr ⟨e4, ?_⟩
      intro hkn
      rw [hkn] at hold
      rw [hold] at hk
      simp only [hp, decide_True, if_true, map_find_erase, hkn] at hk
      exact Option.noConfusion hk
    · exact ⟨c, by simp [hp], e4⟩
  · intro n c2 k hn hk
    simp only at hn ⊢
    obtain ⟨c, hc, hc2⟩ := find_modify_some n cn _ _ c2 hn
    by_cases hncn : n = cn
    · simp only [hncn, if_true] at hc2
      rw [hc2, Consumer.mem_remove_pending] at hk
      obtain ⟨pe, e1, e2⟩ := h2 n c k hc hk.1
      refine ⟨pe, ?_, e2⟩
      split
      · rw [map_find_erase]; simp only [hk.2, if_false]; exact e1
      · exact e1
    · simp only [hncn, if_false] at hc2
      rw [hc2] at hk
      obtain ⟨pe, e1, e2⟩ := h2 n c k hc hk
      refine ⟨pe, ?_, e2⟩
      split
      · rename_i hhit
        rw [map_find_erase]
        by_cases hkn : k = id.to_string
        · rw [hkn] at e1
          rw [e1] at hhit
          simp only [decide_eq_true_eq] at hhit
          exact absurd (e2.symm.trans hhit) hncn
        · simp only [hkn, if_false]; exact e1
      · exact e1
  · intro n c2 hn
    simp only at hn
    obtain ⟨c, hc, hc2⟩ := find_modify_some n cn _ _ c2 hn
    rw [hc2]
    split
    · exact h3 n c hc
    · exact h3 n c hc

end ConsumerGroup

namespace ConsumerGroup

theorem registered_modify (cn : String) (f : Consumer → Consumer) (m : List (String × Consumer))
    (h : ∃ c, map_find cn m = some c) : ∃ c, map_find cn (map_modify cn f m) = some c := by
  obtain ⟨c, hc⟩ := h
  exact ⟨f c, by rw [map_find_modify, hc]; simp⟩

theorem get_or_create_inv (now : Nat) (g : ConsumerGroup) (cn : String) (hinv : g.pel_inv) :
    (g.get_or_create_consumer now cn).pel_inv ∧
      (∃ c, map_find cn (g.get_or_create_consumer now cn).consumers_ = some c) ∧
      (g.get_or_create_consumer now cn).last_delivered_id_ = g.last_delivered_id_ := by
  unfold get_or_create_consumer
  cases hf : map_find cn g.consumers_ with
  | some c => exact ⟨hinv, ⟨c, hf⟩, rfl⟩
  | none =>
    obtain ⟨h1, h2, h3⟩ := hinv
    refine ⟨⟨?_, ?_, ?_⟩, ⟨Consumer.mk_new now cn, by simp [map_find_assign]⟩, rfl⟩
    · intro k pe hk
      obtain ⟨e1, e2, c, e3, e4⟩ := h1 k pe hk
      refine ⟨e1, e2, c, ?_, e4⟩
      simp only [map_find_assign]
      have : pe.consumer_name ≠ cn := by
        intro hp; rw [hp, hf] at e3; exact Option.noConfusion e3
      simp only [this, if_false]; exact e3
    · intro n c k hn hk
      simp only [map_find_assign] at hn
      by_cases hncn : n = cn
      · simp only [hncn, if_true, Option.some.injEq] at hn
        rw [← hn] at hk
        simp [Consumer.mk_new] at hk
      · simp only [hncn, if_false] at hn
        exact h2 n c k hn hk
    · intro n c hn
      simp only [map_find_assign] at hn
      by_cases hncn : n = cn
      · simp only [hncn, if_true, Option.some.injEq] at hn
        rw [← hn, hncn]; rfl
      · simp only [hncn, if_false] at hn
        exact h3 n c hn

theorem seen_time_inv (now : Nat) (g : ConsumerGroup) (cn : String) (hinv : g.pel_inv) :
    (ConsumerGroup.mk g.name_ g.last_delivered_id_
      (map_modify cn (Consumer.update_seen_time now) g.consumers_) g.pending_entries_).pel_inv := by
  obtain ⟨h1, h2, h3⟩ := hinv
  refine ⟨?_, ?_, ?_⟩
  · intro k pe hk
    obtain ⟨e1, e2, c, e3, e4⟩ := h1 k pe hk
    refine ⟨e1, e2, ?_⟩
    simp only
    rw [map_find_modify, e3]
    by_cases hp : pe.consumer_name = cn
    · exact ⟨c.update_seen_time now, by simp [hp], e4⟩
    · exact ⟨c, by simp [hp], e4⟩
  · intro n c2 k hn hk
    obtain ⟨c, hc, hc2⟩ := find_modify_some n cn _ _ c2 hn
    have : c2.pending_messages_ = c.pending_messages_ := by
      rw [hc2]; split <;> rfl
    rw [this] at hk
    exact h2 n c k hc hk
  · intro n c2 hn
    obtain ⟨c, hc, hc2⟩ := find_modify_some n cn _ _ c2 hn
    have : c2.name_ = c.name_ := by
      rw [hc2]; split <;> rfl
    rw [this]
    exact h3 n c hc

theorem read_loop_inv (cn : String) (count : Int) (clk : Nat → Nat)
    (entries : List StreamEntry) :
    ∀ (g : ConsumerGroup) (delivered : Int), g.pel_inv →
      (∃ c, map_find cn g.consumers_ = some c) →
      (read_loop cn count clk entries g delivered).2.pel_inv := by
  induction entries with
  | nil => intro g delivered hinv _; exact hinv
  | cons entry rest ih =>
    intro g delivered hinv hreg
    simp only [read_loop]
    by_cases hstop : count > 0 ∧ delivered ≥ count
    · simp only [hstop, and_self, if_true]; exact hinv
    · simp only [hstop, if_false]
      by_cases hgt : entry.get_id.gt g.last_delivered_id_ = true
      · simp only [hgt, if_true]
        exact ih _ _ (deliver_step_inv g cn entry.get_id _ hinv hreg hgt)
          (registered_modify cn _ _ hreg)
      · simp only [hgt, if_false, Bool.false_eq_true]
        exact ih g delivered hinv hreg

theorem ack_loop_inv (cn : String) (ids : List StreamID) :
    ∀ (g : ConsumerGroup) (acknowledged : Int), g.pel_inv →
      (ack_loop cn ids g acknowledged).2.pel_inv := by
  induction ids with
  | nil => intro g a hinv; exact hinv
  | cons id rest ih =>
    intro g a hinv
    simp only [ack_loop]
    refine ih _ _ ?_
    have := ack_step_inv g cn id hinv
    split
    · rename_i hhit
      simp only [hhit, if_true] at this
      exact this
    · rename_i hhit
      simp only [hhit, if_false] at this
      exact this

theorem reachable_inv (g : ConsumerGroup) (h : g.Reachable) : g.pel_inv := by
  induction h with
  | fresh name start_id =>
    refine ⟨?_, ?_, ?_⟩
    · intro k pe hk; simp [mk_new, map_find] at hk
    · intro n c k hn; simp [mk_new, map_find] at hn
    · intro n c hn; simp [mk_new, map_find] at hn
  | deliver h now_create now_seen clk cn avail count ih =>
    unfold read_pending_messages
    obtain ⟨i1, i2, _⟩ := get_or_create_inv now_create _ cn ih
    exact read_loop_inv cn count clk avail _ 0 (seen_time_inv now_seen _ cn i1)
      (registered_modify cn _ _ i2)
  | ack h now_create cn ids ih =>
    unfold acknowledge_messages
    exact ack_loop_inv cn ids _ 0 (get_or_create_inv now_create _ cn ih).1

/-- C3: in every group state reachable from a fresh group by deliveries and
acknowledgements, an ID is a key of the PEL if and only if exactly one
registered consumer has it in its pending set, and the name of that consumer
is the owner stored in the PEL record. -/
theorem C3_pel_consistency (g : ConsumerGroup) (h : g.Reachable) (id : StreamID) :
    ((∃ pe, map_find id.to_string g.pending_entries_ = some pe) ↔
      ∃! n, ∃ c, map_find n g.consumers_ = some c ∧ c.has_pending_message id = true) ∧
    (∀ pe, map_find id.to_string g.pending_entries_ = some pe →
      ∃ c, map_find pe.consumer_name g.consumers_ = some c ∧
        c.name_ = pe.consumer_name ∧ c.has_pending_message id = true) ∧
    (∀ n c, map_find n g.consumers_ = some c → c.has_pending_message id = true →
      ∃ pe, map_find id.to_string g.pending_entries_ = some pe ∧ pe.consumer_name = c.name_) := by
  obtain ⟨h1, h2, h3⟩ := reachable_inv g h
  have hown : ∀ pe, map_find id.to_string g.pending_entries_ = some pe →
      ∃ c, map_find pe.consumer_name g.consumers_ = some c ∧
        c.name_ = pe.consumer_name ∧ c.has_pending_message id = true := by
    intro pe hpe
    obtain ⟨_, _, c, e3, e4⟩ := h1 _ pe hpe
    exact ⟨c, e3, h3 _ c e3, by simpa [Consumer.has_pending_message] using e4⟩
  refine ⟨⟨?_, ?_⟩, hown, ?_⟩
  · rintro ⟨pe, hpe⟩
    obtain ⟨c, e3, _, e5⟩ := hown pe hpe
    refine ⟨pe.consumer_name, ⟨c, e3, e5⟩, ?_⟩
    rintro n ⟨c2, hc2, hk2⟩
    have hk3 : id.to_string ∈ c2.pending_messages_ := by
      simpa [Consumer.has_pending_message] using hk2
    obtain ⟨pe2, q1, q2⟩ := h2 n c2 _ hc2 hk3
    rw [hpe] at q1
    rw [← q2, Option.some.inj q1]
  · rintro ⟨n, ⟨c, hc, hk⟩, _⟩
    have hk3 : id.to_string ∈ c.pending_messages_ := by
      simpa [Consumer.has_pending_message] using hk
    obtain ⟨pe, q1, _⟩ := h2 n c _ hc hk3
    exact ⟨pe, q1⟩
  · intro n c hc hk
    have hk3 : id.to_string ∈ c.pending_messages_ := by
      simpa [Consumer.has_pending_message] using hk
    obtain ⟨pe, q1, q2⟩ := h2 n c _ hc hk3
    exact ⟨pe, q1, by rw [h3 n c hc]; exact q2⟩

end ConsumerGroup

/-- An instance of C3: the group after one delivery of `1000-0` to `c1`. -/
theorem ConsumerGroup.C3_pel_consistency_witness :
    (ConsumerGroup.read_pending_messages 0 0 (fun _ => 0) (ConsumerGroup.mk_new "g" ⟨0, 0⟩)
        "c1" [⟨⟨1000, 0⟩, []⟩] (-1)).2.Reachable ∧
      ∃! n, ∃ c,
        map_find n (ConsumerGroup.read_pending_messages 0 0 (fun _ => 0)
          (ConsumerGroup.mk_new "g" ⟨0, 0⟩) "c1" [⟨⟨1000, 0⟩, []⟩] (-1)).2.consumers_ = some c ∧
          c.has_pending_message ⟨1000, 0⟩ = true :=
  ⟨.deliver (.fresh "g" ⟨0, 0⟩) 0 0 (fun _ => 0) "c1" [⟨⟨1000, 0⟩, []⟩] (-1),
    (ConsumerGroup.C3_pel_consistency _
      (.deliver (.fresh "g" ⟨0, 0⟩) 0 0 (fun _ => 0) "c1" [⟨⟨1000, 0⟩, []⟩] (-1))
      ⟨1000, 0⟩).1.mp ⟨⟨⟨1000, 0⟩, "c1", 0, 1⟩, by decide⟩⟩

/-! ## No double delivery -/

namespace ConsumerGroup

theorem read_loop_bounds (cn : String) (count : Int) (clk : Nat → Nat)
    (entries : List StreamEntry) :
    ∀ (g : ConsumerGroup) (delivered : Int),
      g.last_delivered_id_.le (read_loop cn count clk entries g delivered).2.last_delivered_id_
          = true ∧
        ∀ e ∈ (read_loop cn count clk entries g delivered).1,
          g.last_delivered_id_.lt e.id_ = true ∧
            e.id_.le (read_loop cn count clk entries g delivered).2.last_delivered_id_ = true := by
  induction entries with
  | nil =>
    intro g delivered
    simp [read_loop, StreamID.le_refl]
  | cons entry rest ih =>
    intro g delivered
    simp only [read_loop]
    by_cases hstop : count > 0 ∧ delivered ≥ count
    · simp [hstop, StreamID.le_refl]
    · simp only [hstop, if_false]
      by_cases hgt : entry.get_id.gt g.last_delivered_id_ = true
      · simp only [hgt, if_true]
        have hlt : g.last_delivered_id_.lt entry.id_ = true := hgt
        obtain ⟨i1, i2⟩ := ih
          (ConsumerGroup.mk g.name_ entry.get_id
            (map_modify cn (fun c => c.add_pending_message entry.get_id) g.consumers_)
            (map_assign entry.get_id.to_string
              ⟨entry.get_id, cn, clk delivered.toNat % U64, 1⟩ g.pending_entries_))
          (delivered + 1)
        refine ⟨StreamID.le_trans (StreamID.le_of_lt hlt) i1, ?_⟩
        intro e he
        rcases List.mem_cons.mp he with he | he
        · rw [he]; exact ⟨hlt, i1⟩
        · exact ⟨StreamID.lt_trans hlt (i2 e he).1, (i2 e he).2⟩
      · simp only [hgt, if_false, Bool.false_eq_true]
        exact ih g delivered

theorem get_or_create_last (now : Nat) (g : ConsumerGroup) (cn : String) :
    (g.get_or_create_consumer now cn).last_delivered_id_ = g.last_delivered_id_ := by
  unfold get_or_create_consumer
  split <;> rfl

theorem read_pending_bounds (now_create now_seen : Nat) (clk : Nat → Nat) (g : ConsumerGroup)
    (cn : String) (entries : List StreamEntry) (count : Int) :
    g.last_delivered_id_.le
        (g.read_pending_messages now_create now_seen clk cn entries count).2.last_delivered_id_
        = true ∧
      ∀ e ∈ (g.read_pending_messages now_create now_seen clk cn entries count).1,
        g.last_delivered_id_.lt e.id_ = true ∧
          e.id_.le
            (g.read_pending_messages now_create now_seen clk cn entries count).2.last_delivered_id_
            = true := by
  unfold read_pending_messages
  have h := read_loop_bounds cn count clk entries
    (ConsumerGroup.mk (g.get_or_create_consumer now_create cn).name_
      (g.get_or_create_consumer now_create cn).last_delivered_id_
      (map_modify cn (Consumer.update_seen_time now_seen)
        (g.get_or_create_consumer now_create cn).consumers_)
      (g.get_or_create_consumer now_create cn).pending_entries_) 0
  rw [← get_or_create_last now_create g cn]
  exact h

theorem ack_loop_last (cn : String) (ids : List StreamID) :
    ∀ (g : ConsumerGroup) (a : Int),
      (ack_loop cn ids g a).2.last_delivered_id_ = g.last_delivered_id_ := by
  induction ids with
  | nil => intro g a; rfl
  | cons id rest ih =>
    intro g a
    simp only [ack_loop]
    rw [ih]
    split <;> rfl

theorem acknowledge_last (now : Nat) (g : ConsumerGroup) (cn : String) (ids : List StreamID) :
    (g.acknowledge_messages now cn ids).2.last_delivered_id_ = g.last_delivered_id_ := by
  unfold acknowledge_messages
  rw [ack_loop_last, get_or_create_last]

end ConsumerGroup

namespace RedisServer

theorem cursor_assign (srv : RedisServer) (name : String) (st : Stream) (key group : String) :
    (RedisServer.mk (map_assign name st srv.streams_)).cursor key group =
      if key = name then
        (match map_find group st.consumer_groups_ with
          | none => none
          | some g => some g.last_delivered_id_)
      else srv.cursor key group := by
  unfold cursor
  simp only [map_find_assign]
  by_cases hk : key = name
  · simp only [hk, if_true]
  · simp only [hk, if_false]

theorem xack_loop_last (clk : Nat → Nat) (ids : List StreamID) (names : List String) :
    ∀ (i : Nat) (g : ConsumerGroup) (a : Int),
      (xack_loop clk ids names i g a).2.last_delivered_id_ = g.last_delivered_id_ := by
  induction names with
  | nil => intro i g a; rfl
  | cons n rest ih =>
    intro i g a
    simp only [xack_loop]
    rw [ih, ConsumerGroup.acknowledge_last]

/-- A cursor that exists before a command still exists afterwards and has
not decreased; `same` commands leave it as it is. -/
theorem cursor_xadd (srv : RedisServer) (now_parse now_add : Nat) (stream_name id : String)
    (fields : List (String × String)) (key group : String) (x : StreamID)
    (h : srv.cursor key group = some x) :
    (srv.xadd now_parse now_add stream_name id fields).2.cursor key group = some x := by
  have hgroups : ∀ (a : StreamID) (st : Stream),
      xadd_try now_parse now_add (srv.stream_or_new stream_name) id fields = .ok (a, st) →
      st.consumer_groups_ = (srv.stream_or_new stream_name).consumer_groups_ := by
    intro a st hok
    unfold xadd_try at hok
    split at hok
    · exact Except.noConfusion hok
    · unfold Stream.add_entry at hok
      simp only at hok
      split at hok
      · exact Except.noConfusion hok
      · simp only [Except.ok.injEq, Prod.mk.injEq] at hok
        rw [← hok.2]
  have hsame : (match map_find group (srv.stream_or_new stream_name).consumer_groups_ with
      | none => none
      | some g => some g.last_delivered_id_) = srv.cursor stream_name group := by
    unfold stream_or_new cursor
    cases map_find stream_name srv.streams_ with
    | none => rfl
    | some st => rfl
  cases hx : xadd_try now_parse now_add (srv.stream_or_new stream_name) id fields with
  | error e =>
    rw [xadd_of_error _ _ _ _ _ _ _ hx, cursor_assign]
    by_cases hk : key = stream_name
    · simp only [hk, if_true, hsame]; rw [← hk]; exact h
    · simp only [hk, if_false]; exact h
  | ok r =>
    obtain ⟨a, st⟩ := r
    rw [xadd_of_ok _ _ _ _ _ _ _ _ hx, cursor_assign, hgroups a st hx]
    by_cases hk : key = stream_name
    · simp only [hk, if_true, hsame]; rw [← hk]; exact h
    · simp only [hk, if_false]; exact h

end RedisServer

namespace RedisServer

theorem cursor_of_find (srv : RedisServer) (key group : String) (st : Stream)
    (h : map_find key srv.streams_ = some st) :
    srv.cursor key group =
      match map_find group st.consumer_groups_ with
      | none => none
      | some g => some g.last_delivered_id_ := by
  unfold cursor; rw [h]

theorem cursor_xdel (srv : RedisServer) (clk : Nat → Nat) (stream_name : String)
    (ids : List String) (key group : String) (x : StreamID)
    (h : srv.cursor key group = some x) :
    (srv.xdel clk stream_name ids).2.cursor key group = some x := by
  unfold xdel
  cases hf : map_find stream_name srv.streams_ with
  | none => exact h
  | some st =>
    simp only
    rw [cursor_assign]
    by_cases hk : key = stream_name
    · simp only [hk, if_true, Stream.delete_entries]
      rw [hk, cursor_of_find srv stream_name group st hf] at h
      exact h
    · simp only [hk, if_false]; exact h

theorem cursor_xgroup_create (srv : RedisServer) (now : Nat)
    (stream_name group_name start_id : String) (key group : String) (x : StreamID)
    (h : srv.cursor key group = some x) :
    (srv.xgroup_create now stream_name group_name start_id).2.cursor key group = some x := by
  have hsame : (match map_find group (srv.stream_or_new stream_name).consumer_groups_ with
      | none => none
      | some g => some g.last_delivered_id_) = srv.cursor stream_name group := by
    unfold stream_or_new cursor
    cases map_find stream_name srv.streams_ with
    | none => rfl
    | some st => rfl
  unfold xgroup_create
  simp only
  split
  · rw [cursor_assign]
    by_cases hk : key = stream_name
    · simp only [hk, if_true, hsame]; rw [← hk]; exact h
    · simp only [hk, if_false]; exact h
  · rw [cursor_assign]
    by_cases hk : key = stream_name
    · simp only [hk, if_true]
      rw [hk, ← hsame] at h
      unfold Stream.create_consumer_group
      cases hg : map_find group_name (srv.stream_or_new stream_name).consumer_groups_ with
      | some g0 => simp only; exact h
      | none =>
        simp only [map_find_assign]
        by_cases hgg : group = group_name
        · rw [hgg, hg] at h
          exact Option.noConfusion h
        · simp only [hgg, if_false]; exact h
    · simp only [hk, if_false]; exact h

theorem cursor_xack (srv : RedisServer) (clk_parse clk_ack : Nat → Nat)
    (stream_name group_name : String) (ids : List String) (key group : String) (x : StreamID)
    (h : srv.cursor key group = some x) :
    (srv.xack clk_parse clk_ack stream_name group_name ids).2.cursor key group = some x := by
  unfold xack
  cases hf : map_find stream_name srv.streams_ with
  | none => exact h
  | some st =>
    simp only [Stream.get_consumer_group]
    cases hg : map_find group_name st.consumer_groups_ with
    | none => exact h
    | some g =>
      simp only
      rw [cursor_assign]
      by_cases hk : key = stream_name
      · simp only [hk, if_true, map_find_assign]
        rw [hk, cursor_of_find srv stream_name group st hf] at h
        by_cases hgg : group = group_name
        · simp only [hgg, if_true, xack_loop_last]
          rw [hgg, hg] at h
          exact h
        · simp only [hgg, if_false]; exact h
      · simp only [hk, if_false]; exact h

/-- The loop of XREADGROUP: a cursor that exists before the loop exists
afterwards and has not decreased; and when the loop serves group `group`,
every ID it lists under `key` is beyond the cursor before the loop and not
beyond the cursor after it. -/
theorem xreadgroup_loop_spec (group_name consumer_name : String) (count : Int)
    (clk : Nat → Nat → Nat) (key group : String) (streams : List String) :
    ∀ (i : Nat) (srv : RedisServer),
      (∀ x, srv.cursor key group = some x →
        ∃ y, (xreadgroup_loop group_name consumer_name count clk streams i srv).2.cursor
          key group = some y ∧ x.le y = true) ∧
      (group_name = group →
        ∀ id ∈ ids_for key (xreadgroup_loop group_name consumer_name count clk streams i srv).1,
          (∃ y, (xreadgroup_loop group_name consumer_name count clk streams i srv).2.cursor
            key group = some y ∧ id.le y = true) ∧
          (∀ x, srv.cursor key group = some x → x.lt id = true)) := by
  induction streams with
  | nil =>
    intro i srv
    simp only [xreadgroup_loop, ids_for, List.not_mem_nil, false_implies, implies_true, and_true]
    intro x hx
    exact ⟨x, hx, StreamID.le_refl x⟩
  | cons stream_name rest ih =>
    intro i srv
    simp only [xreadgroup_loop]
    cases hf : map_find stream_name srv.streams_ with
    | none => exact ih (i + 1) srv
    | some st =>
      simp only [Stream.get_consumer_group]
      cases hg : map_find group_name st.consumer_groups_ with
      | none => exact ih (i + 1) srv
      | some g =>
        simp only
        have hb := ConsumerGroup.read_pending_bounds (clk i 0) (clk i 1) (fun k => clk i (k + 2))
          g consumer_name (st.get_entries_after g.get_last_delivered_id (-1)) count
        generalize hr : g.read_pending_messages (clk i 0) (clk i 1) (fun k => clk i (k + 2))
          consumer_name (st.get_entries_after g.get_last_delivered_id (-1)) count = r at hb ⊢
        obtain ⟨hb1, hb2⟩ := hb
        -- the server after this iteration
        have hstep : ∀ x, srv.cursor key group = some x →
            ∃ y, (RedisServer.mk (map_assign stream_name
              { st with consumer_groups_ := map_assign group_name r.2 st.consumer_groups_ }
              srv.streams_)).cursor key group = some y ∧ x.le y = true := by
          intro x hx
          rw [cursor_assign]
          by_cases hk : key = stream_name
          · simp only [hk, if_true, map_find_assign]
            rw [hk, cursor_of_find srv stream_name group st hf] at hx
            by_cases hgg : group = group_name
            · simp only [hgg, if_true]
              rw [hgg, hg] at hx
              simp only [Option.some.injEq] at hx
              exact ⟨_, rfl, hx ▸ hb1⟩
            · simp only [hgg, if_false]
              exact ⟨x, hx, StreamID.le_refl x⟩
          · simp only [hk, if_false]
            exact ⟨x, hx, StreamID.le_refl x⟩
        obtain ⟨ih1, ih2⟩ := ih (i + 1) (RedisServer.mk (map_assign stream_name
          { st with consumer_groups_ := map_assign group_name r.2 st.consumer_groups_ }
          srv.streams_))
        refine ⟨?_, ?_⟩
        · intro x hx
          obtain ⟨y, hy, hxy⟩ := hstep x hx
          obtain ⟨z, hz, hyz⟩ := ih1 y hy
          exact ⟨z, hz, StreamID.le_trans hxy hyz⟩
        · intro hgn id hid
          have hrest : id ∈ ids_for key (xreadgroup_loop group_name consumer_name count clk rest
              (i + 1) (RedisServer.mk (map_assign stream_name
                { st with consumer_groups_ := map_assign group_name r.2 st.consumer_groups_ }
                srv.streams_))).1 →
              (∃ y, (xreadgroup_loop group_name consumer_name count clk rest (i + 1)
                (RedisServer.mk (map_assign stream_name
                  { st with consumer_groups_ := map_assign group_name r.2 st.consumer_groups_ }
                  srv.streams_))).2.cursor key group = some y ∧ id.le y = true) ∧
              (∀ x, srv.cursor key group = some x → x.lt id = true) := by
            intro hmem
            obtain ⟨j1, j2⟩ := ih2 hgn id hmem
            refine ⟨j1, ?_⟩
            intro x hx
            obtain ⟨y, hy, hxy⟩ := hstep x hx
            exact StreamID.lt_of_le_of_lt hxy (j2 y hy)
          by_cases hemp : r.1.isEmpty = true
          · simp only [hemp, if_true] at hid
            exact hrest hid
          · simp only [hemp, if_false, ids_for, Bool.false_eq_true] at hid
            by_cases hk : stream_name = key
            · rw [if_pos hk, List.mem_append, List.mem_map] at hid
              rcases hid with ⟨e, he, rfl⟩ | hid
              · obtain ⟨q1, q2⟩ := hb2 e he
                have hcur : srv.cursor key group = some g.last_delivered_id_ := by
                  rw [← hk, cursor_of_find srv stream_name group st hf, ← hgn, hg]
                have hcur1 : (RedisServer.mk (map_assign stream_name
                    { st with consumer_groups_ := map_assign group_name r.2 st.consumer_groups_ }
                    srv.streams_)).cursor key group = some r.2.last_delivered_id_ := by
                  rw [cursor_assign]
                  simp [hk, hgn, map_find_assign]
                obtain ⟨z, hz, hyz⟩ := ih1 _ hcur1
                refine ⟨⟨z, hz, StreamID.le_trans q2 hyz⟩, ?_⟩
                intro x hx
                rw [hcur] at hx
                simp only [Option.some.injEq] at hx
                exact hx ▸ q1
              · exact hrest hid
            · rw [if_neg hk] at hid
              exact hrest hid

end RedisServer

/-- One command: the IDs it delivers are not among the earlier ones, which
all lie at or below the cursor, and afterwards the earlier and the new IDs
all lie at or below the cursor. -/
theorem Command.exec_step (cmd : Command) (srv : RedisServer) (key group : String)
    (past : List StreamID)
    (hK : ∀ id ∈ past, ∃ x, srv.cursor key group = some x ∧ id.le x = true) :
    (∀ id ∈ cmd.delivered key group (cmd.exec srv).2, id ∉ past) ∧
      (∀ id ∈ past ++ cmd.delivered key group (cmd.exec srv).2,
        ∃ x, (cmd.exec srv).1.cursor key group = some x ∧ id.le x = true) := by
  cases cmd with
  | xgroup_create now stream_name group_name start_id =>
    simp only [Command.delivered, Command.exec, List.not_mem_nil, false_implies, implies_true,
      List.append_nil, true_and]
    intro id hid
    obtain ⟨x, hx, hle⟩ := hK id hid
    exact ⟨x, RedisServer.cursor_xgroup_create srv now stream_name group_name start_id key group
      x hx, hle⟩
  | xadd now_parse now_add stream_name id0 fields =>
    simp only [Command.delivered, Command.exec, List.not_mem_nil, false_implies, implies_true,
      List.append_nil, true_and]
    intro id hid
    obtain ⟨x, hx, hle⟩ := hK id hid
    exact ⟨x, RedisServer.cursor_xadd srv now_parse now_add stream_name id0 fields key group
      x hx, hle⟩
  | xdel clk stream_name ids =>
    simp only [Command.delivered, Command.exec, List.not_mem_nil, false_implies, implies_true,
      List.append_nil, true_and]
    intro id hid
    obtain ⟨x, hx, hle⟩ := hK id hid
    exact ⟨x, RedisServer.cursor_xdel srv clk stream_name ids key group x hx, hle⟩
  | xack clk_parse clk_ack stream_name group_name ids =>
    simp only [Command.delivered, Command.exec, List.not_mem_nil, false_implies, implies_true,
      List.append_nil, true_and]
    intro id hid
    obtain ⟨x, hx, hle⟩ := hK id hid
    exact ⟨x, RedisServer.cursor_xack srv clk_parse clk_ack stream_name group_name ids key group
      x hx, hle⟩
  | xreadgroup clk group_name consumer_name streams count =>
    obtain ⟨s1, s2⟩ := RedisServer.xreadgroup_loop_spec group_name consumer_name count clk
      key group streams 0 srv
    simp only [Command.delivered, Command.exec, RedisServer.xreadgroup]
    have hpast : ∀ id ∈ past, ∃ x,
        (RedisServer.xreadgroup_loop group_name consumer_name count clk streams 0 srv).2.cursor
          key group = some x ∧ id.le x = true := by
      intro id hid
      obtain ⟨x, hx, hle⟩ := hK id hid
      obtain ⟨y, hy, hxy⟩ := s1 x hx
      exact ⟨y, hy, StreamID.le_trans hle hxy⟩
    by_cases hg : group_name = group
    · simp only [hg, if_true]
      rw [hg] at s2
      refine ⟨?_, ?_⟩
      · intro id hid hmem
        obtain ⟨x, hx, hle⟩ := hK id hmem
        have hlt := (s2 rfl id hid).2 x hx
        have := StreamID.lt_of_le_of_lt hle hlt
        rw [StreamID.lt_irrefl] at this
        exact Bool.false_ne_true this
      · intro id hid
        rcases List.mem_append.mp hid with hid | hid
        · have := hpast id hid
          rw [hg] at this
          exact this
        · exact (s2 rfl id hid).1
    · simp only [hg, if_false, List.not_mem_nil, false_implies, implies_true, List.append_nil,
        true_and]
      exact hpast

theorem run_trace_fresh (key group : String) (cmds : List Command) :
    ∀ (srv : RedisServer) (past : List StreamID),
      (∀ id ∈ past, ∃ x, srv.cursor key group = some x ∧ id.le x = true) →
      (run_trace key group srv cmds).Pairwise (fun a b => ∀ id ∈ a, id ∉ b) ∧
        ∀ l ∈ run_trace key group srv cmds, ∀ id ∈ l, id ∉ past := by
  induction cmds with
  | nil =>
    intro srv past _
    simp [run_trace]
  | cons cmd rest ih =>
    intro srv past hK
    obtain ⟨e1, e2⟩ := Command.exec_step cmd srv key group past hK
    obtain ⟨i1, i2⟩ := ih (cmd.exec srv).1 (past ++ cmd.delivered key group (cmd.exec srv).2) e2
    simp only [run_trace]
    refine ⟨List.pairwise_cons.mpr ⟨?_, i1⟩, ?_⟩
    · intro l hl id hid hmem
      exact i2 l hl id hmem (List.mem_append.mpr (Or.inr hid))
    · intro l hl id hid
      rcases List.mem_cons.mp hl with hl | hl
      · rw [hl] at hid; exact e1 id hid
      · intro hmem
        exact i2 l hl id hid (List.mem_append.mpr (Or.inl hmem))

/-- C2: in any sequence of XGROUP CREATE, XADD, XDEL, XREADGROUP and XACK
commands run from any server state, no entry ID of a stream is returned by
two different XREADGROUP calls of the same group, whichever consumers the
calls name. -/
theorem C2_no_double_delivery (srv : RedisServer) (cmds : List Command) (key group : String) :
    (run_trace key group srv cmds).Pairwise (fun a b => ∀ id ∈ a, id ∉ b) :=
  (run_trace_fresh key group cmds srv [] (by simp)).1

/-! ## Reachable streams satisfy the representation invariant -/

namespace EntryMap

theorem mem_emplace (key : StreamID) (value : StreamEntry) (m : EntryMap)
    (p : StreamID × StreamEntry) (h : p ∈ emplace key value m) : p = (key, value) ∨ p ∈ m := by
  induction m with
  | nil => simpa [emplace] using h
  | cons q rest ih =>
    obtain ⟨k, v⟩ := q
    simp only [emplace] at h
    split at h
    · rcases List.mem_cons.mp h with h | h
      · exact Or.inl h
      · exact Or.inr h
    · split at h
      · rcases List.mem_cons.mp h with h | h
        · exact Or.inr (by rw [h]; exact List.mem_cons_self _ _)
        · rcases ih h with h | h
          · exact Or.inl h
          · exact Or.inr (List.mem_cons_of_mem _ h)
      · exact Or.inr h

theorem emplace_sorted (key : StreamID) (value : StreamEntry) (m : EntryMap) (h : m.sorted) :
    (emplace key value m).sorted := by
  induction m with
  | nil => simp [emplace, sorted]
  | cons q rest ih =>
    obtain ⟨k, v⟩ := q
    have hs := List.pairwise_cons.mp h
    simp only [emplace]
    by_cases h1 : key.lt k = true
    · simp only [h1, if_true]
      refine List.pairwise_cons.mpr ⟨?_, h⟩
      intro p hp
      rcases List.mem_cons.mp hp with hp | hp
      · rw [hp]; exact h1
      · exact StreamID.lt_trans h1 (hs.1 p hp)
    · simp only [h1, if_false, Bool.false_eq_true]
      by_cases h2 : k.lt key = true
      · simp only [h2, if_true]
        refine List.pairwise_cons.mpr ⟨?_, ih hs.2⟩
        intro p hp
        rcases mem_emplace key value rest p hp with hp | hp
        · rw [hp]; exact h2
        · exact hs.1 p hp
      · simp only [h2, if_false, Bool.false_eq_true]
        exact h

theorem erase_sublist (key : StreamID) (m : EntryMap) : (erase key m).1.Sublist m := by
  induction m with
  | nil => simp [erase]
  | cons q rest ih =>
    obtain ⟨k, v⟩ := q
    simp only [erase]
    split
    · exact List.sublist_cons_self _ _
    · exact List.Sublist.cons₂ _ ih

end EntryMap

namespace Stream

theorem delete_loop_sublist (ids : List StreamID) :
    ∀ (m : EntryMap) (b : Bool), (delete_loop ids m b).2.Sublist m := by
  induction ids with
  | nil => intro m b; exact List.Sublist.refl _
  | cons id rest ih =>
    intro m b
    simp only [delete_loop]
    exact (ih _ _).trans (EntryMap.erase_sublist id m)

theorem add_entry_wf (now : Nat) (s : Stream) (id : StreamID) (fields : List (String × String))
    (a : StreamID) (s1 : Stream) (hwf : s.wf) (hl : s.last_id_.valid) (hid : id.valid)
    (hok : s.add_entry now id fields = .ok (a, s1)) : s1.wf ∧ s1.last_id_.valid := by
  unfold add_entry at hok
  simp only at hok
  split at hok
  · exact Except.noConfusion hok
  · rename_i actual hres
    simp only [Except.ok.injEq, Prod.mk.injEq] at hok
    obtain ⟨ha, hs1⟩ := hok
    have hav : actual.valid := by
      unfold StreamID.valid at hl hid ⊢
      have hU : 0 < U64 := by decide
      split at hres
      · split at hres
        · simp only [Except.ok.injEq] at hres
          rw [← hres]
          exact ⟨hl.1, Nat.mod_lt _ hU⟩
        · simp only [Except.ok.injEq] at hres
          rw [← hres]
          exact ⟨Nat.mod_lt _ hU, hU⟩
      · split at hres
        · split at hres
          · simp only [Except.ok.injEq] at hres
            rw [← hres]
            exact ⟨hid.1, Nat.mod_lt _ hU⟩
          · split at hres
            · simp only [Except.ok.injEq] at hres
              rw [← hres]
              exact ⟨hid.1, hU⟩
            · exact Except.noConfusion hres
        · split at hres
          · exact Except.noConfusion hres
          · simp only [Except.ok.injEq] at hres
            rw [← hres]
            exact hid
    rw [← hs1]
    refine ⟨⟨EntryMap.emplace_sorted _ _ _ hwf.1, ?_⟩, hav⟩
    intro p hp
    rcases EntryMap.mem_emplace _ _ _ p hp with hp | hp
    · rw [hp]; exact ⟨rfl, hav⟩
    · exact hwf.2 p hp

theorem delete_entries_wf (s : Stream) (ids : List StreamID) (hwf : s.wf) :
    (s.delete_entries ids).2.wf := by
  have hsub := delete_loop_sublist ids s.entries_ false
  refine ⟨List.Pairwise.sublist hsub hwf.1, ?_⟩
  intro p hp
  exact hwf.2 p (hsub.subset hp)

/-- Every reachable stream satisfies the representation invariant. -/
theorem reachable_wf (s : Stream) (h : s.Reachable) : s.wf ∧ s.last_id_.valid := by
  induction h with
  | empty => exact ⟨by decide, by decide⟩
  | add h now id fields a s1 hid hok ih => exact add_entry_wf now _ id fields a s1 ih.1 ih.2 hid hok
  | del h ids ih => exact ⟨delete_entries_wf _ ids ih.1, ih.2⟩

end Stream

/-- An ID that `from_string` returns is made of two `uint64_t`. -/
theorem StreamID.from_string_valid (now : Nat) (s : String) (id : StreamID)
    (h : StreamID.from_string now s = .ok id) : id.valid := by
  have hU : 0 < U64 := by decide
  have hst : ∀ cs v, stoull_chars cs = .ok v → v < U64 := by
    intro cs v hv
    have hsg : ∀ neg ds, stoull_signed neg ds = .ok v → v < U64 := by
      intro neg ds hs
      unfold stoull_signed at hs
      split at hs
      · exact Except.noConfusion hs
      · split at hs
        · simp only at hs
          split at hs
          · exact Except.noConfusion hs
          · rename_i hlt
            simp only [Except.ok.injEq] at hs
            rw [← hs]
            split
            · exact Nat.mod_lt _ hU
            · omega
        · exact Except.noConfusion hs
    unfold stoull_chars at hv
    split at hv
    · exact hsg _ _ hv
    · split at hv
      · exact hsg _ _ hv
      · split at hv
        · exact hsg _ _ hv
        · exact hsg _ _ hv
  unfold StreamID.from_string at h
  split at h
  · simp only [Except.ok.injEq] at h
    rw [← h]
    exact ⟨Nat.mod_lt _ hU, hU⟩
  · split at h
    · exact Except.noConfusion h
    · split at h
      · exact Except.noConfusion h
      · rename_i ts hts
        simp only at h
        split at h
        · simp only [Except.ok.injEq] at h
          rw [← h]
          exact ⟨hst _ _ hts, hU⟩
        · split at h
          · exact Except.noConfusion h
          · rename_i sq hsq
            simp only [Except.ok.injEq] at h
            rw [← h]
            exact ⟨hst _ _ hts, hst _ _ hsq⟩

/-- A run in which deliveries do occur: two entries, handed to two consumers
by three XREADGROUP calls. -/
theorem run_trace_example :
    run_trace "s" "g" RedisServer.mk_new
      [.xadd 0 0 "s" "1000-0" [("a", "1")],
        .xgroup_create 0 "s" "g" "0-0",
        .xreadgroup (fun _ _ => 0) "g" "c1" ["s"] 2,
        .xadd 0 0 "s" "1000-*" [("b", "2")],
        .xack (fun _ => 0) (fun _ => 0) "s" "g" ["1000-0"],
        .xreadgroup (fun _ _ => 0) "g" "c2" ["s"] 2,
        .xreadgroup (fun _ _ => 0) "g" "c1" ["s"] 2]
      = [[], [], [⟨1000, 0⟩], [], [], [⟨1000, 1⟩], []] := by
  decide

/-! ## Supporting facts on `add_entry` and `get_range` -/

namespace Stream

/-- Away from the wrap of the sequence number, a successful `add_entry`
returns an ID greater than the previous `last_id_`. -/
theorem add_entry_gt_last (now : Nat) (s : Stream) (id : StreamID)
    (fields : List (String × String)) (a : StreamID) (s1 : Stream)
    (hseq : s.last_id_.sequence < UINT64_MAX)
    (hok : s.add_entry now id fields = .ok (a, s1)) :
    a.gt s.last_id_ = true ∧ s1.last_id_ = a := by
  have hmod : (s.last_id_.sequence + 1) % U64 = s.last_id_.sequence + 1 := by
    apply Nat.mod_eq_of_lt
    simp only [UINT64_MAX, U64] at *
    omega
  unfold add_entry at hok
  simp only at hok
  split at hok
  · exact Except.noConfusion hok
  · rename_i actual hres
    simp only [Except.ok.injEq, Prod.mk.injEq] at hok
    obtain ⟨ha, hs1⟩ := hok
    rw [← hs1, ← ha]
    refine ⟨?_, rfl⟩
    rw [StreamID.gt_iff]
    split at hres
    · split at hres
      · simp only [Except.ok.injEq] at hres
        rw [← hres, hmod]; simp
      · rename_i hle
        simp only [Except.ok.injEq] at hres
        rw [← hres]
        have := (StreamID.not_le_iff_lt _ _).mp (by simpa using hle)
        exact (StreamID.lt_iff _ _).mp this
    · split at hres
      · split at hres
        · rename_i heq
          simp only [Except.ok.injEq] at hres
          rw [← hres, hmod]
          simp only
          omega
        · split at hres
          · simp only [Except.ok.injEq] at hres
            rw [← hres]
            simp only
            omega
          · exact Except.noConfusion hres
      · split at hres
        · exact Except.noConfusion hres
        · rename_i hle
          simp only [Except.ok.injEq] at hres
          rw [← hres]
          have := (StreamID.not_le_iff_lt _ _).mp (by simpa using hle)
          exact (StreamID.lt_iff _ _).mp this

theorem range_loop_unlimited (end_it : Nat) (count : Int) (hc : count < 0)
    (l : List (StreamID × StreamEntry)) :
    ∀ (it : Nat) (added : Int), it ≤ end_it → end_it - it ≤ l.length →
      range_loop end_it count it l added
        = some ((l.take (end_it - it)).map (fun p => p.2)) := by
  induction l with
  | nil =>
    intro it added h1 h2
    have : it = end_it := by simp only [List.length_nil] at h2; omega
    simp [range_loop, this]
  | cons e rest ih =>
    intro it added h1 h2
    by_cases he : it = end_it
    · simp [range_loop, he]
    · have e1 : end_it - it = (end_it - (it + 1)) + 1 := by omega
      simp only [range_loop, ne_eq, he, not_false_eq_true, hc, true_or, and_self, if_true]
      rw [ih (it + 1) (added + 1) (by omega) (by simp only [List.length_cons] at h2; omega), e1]
      simp

end Stream

namespace EntryMap

theorem lower_bound_zero_of_le (a : StreamID) (m : EntryMap)
    (h : ∀ p ∈ m, a.le p.1 = true) : lower_bound a m = 0 := by
  cases m with
  | nil => rfl
  | cons q rest =>
    obtain ⟨k, v⟩ := q
    have := h (k, v) (List.mem_cons_self _ _)
    have hk : k.lt a = false := (StreamID.not_lt_iff_le _ _).mpr this
    simp [lower_bound, hk]

/-- On an ordered map and for `a ≤ b`, the elements between the positions
`lower_bound a` and `upper_bound b` are the ones with `a ≤ key ≤ b`. -/
theorem between_bounds (a b : StreamID) (hab : a.le b = true) (m : EntryMap) (h : m.sorted) :
    lower_bound a m ≤ upper_bound b m ∧
      (m.drop (lower_bound a m)).take (upper_bound b m - lower_bound a m)
        = m.filter (fun p => a.le p.1 && p.1.le b) := by
  induction m with
  | nil => simp [lower_bound, upper_bound]
  | cons q rest ih =>
    obtain ⟨k, v⟩ := q
    have hs := List.pairwise_cons.mp h
    obtain ⟨ih1, ih2⟩ := ih hs.2
    by_cases hka : k.lt a = true
    · have hkb : b.lt k = false := by
        rw [StreamID.not_lt_iff_le]
        exact StreamID.le_of_lt (StreamID.lt_of_lt_of_le hka hab)
      have hna : a.le k = false := (StreamID.not_le_iff_lt _ _).mpr hka
      simp only [lower_bound, upper_bound, hka, hkb, if_true, if_false, Bool.false_eq_true,
        List.drop_succ_cons, List.filter_cons, hna, Bool.false_and]
      refine ⟨by omega, ?_⟩
      rw [← ih2]
      congr 1
      omega
    · have hka2 : k.lt a = false := by simpa using hka
      have hak : a.le k = true := (StreamID.not_lt_iff_le _ _).mp hka2
      by_cases hbk : b.lt k = true
      · have hnb : k.le b = false := (StreamID.not_le_iff_lt _ _).mpr hbk
        simp only [lower_bound, upper_bound, hka2, hbk, if_true, if_false, Bool.false_eq_true,
          List.drop_zero, Nat.sub_self, List.take_zero, le_refl, true_and]
        symm
        apply List.filter_eq_nil_iff.mpr
        intro p hp
        rcases List.mem_cons.mp hp with hp | hp
        · rw [hp]; simp [hnb]
        · have h1 := StreamID.lt_trans hbk (hs.1 p hp)
          have h2 : p.1.le b = false := (StreamID.not_le_iff_lt _ _).mpr h1
          simp [h2]
      · have hbk2 : b.lt k = false := by simpa using hbk
        have hkb : k.le b = true := (StreamID.not_lt_iff_le _ _).mp hbk2
        have hrest : lower_bound a rest = 0 := by
          apply lower_bound_zero_of_le
          intro p hp
          exact StreamID.le_trans hak (StreamID.le_of_lt (hs.1 p hp))
        rw [hrest] at ih2
        simp only [lower_bound, upper_bound, hka2, hbk2, if_false, Bool.false_eq_true,
          List.drop_zero, Nat.sub_zero, List.take_succ_cons, List.filter_cons, hak, hkb,
          Bool.and_self, if_true, Nat.zero_le, true_and]
        simp only [List.drop_zero, Nat.sub_zero] at ih2
        rw [ih2]

theorem lower_bound_min (m : EntryMap) : lower_bound ⟨0, 0⟩ m = 0 := by
  apply lower_bound_zero_of_le
  intro p _
  rw [StreamID.le_iff]
  simp only
  omega

theorem upper_bound_max (m : EntryMap) (hv : ∀ p ∈ m, p.1.valid) :
    upper_bound ⟨UINT64_MAX, UINT64_MAX⟩ m = m.length := by
  induction m with
  | nil => rfl
  | cons q rest ih =>
    obtain ⟨k, v⟩ := q
    have hk : k.valid := hv (k, v) (List.mem_cons_self _ _)
    have hlt : StreamID.lt ⟨UINT64_MAX, UINT64_MAX⟩ k = false := by
      rw [← Bool.not_eq_true, StreamID.lt_iff]
      unfold StreamID.valid at hk
      simp only [U64, UINT64_MAX] at *
      omega
    simp only [upper_bound, hlt, if_false, Bool.false_eq_true, List.length_cons]
    rw [ih (fun p hp => hv p (List.mem_cons_of_mem _ hp))]

end EntryMap

/-- For `a ≤ b` and a negative count, `get_range` returns the entries with
`a ≤ id ≤ b`, in the order of the map. -/
theorem Stream.get_range_of_le (s : Stream) (hwf : s.wf) (a b : StreamID)
    (hab : a.le b = true) (count : Int) (hc : count < 0) :
    s.get_range a b count
      = some ((s.entries_.filter (fun p => a.le p.1 && p.1.le b)).map (fun p => p.2)) := by
  obtain ⟨h1, h2⟩ := EntryMap.between_bounds a b hab s.entries_ hwf.1
  have hstart : (if a.timestamp_ms = 0 ∧ a.sequence = 0 then 0
      else EntryMap.lower_bound a s.entries_) = EntryMap.lower_bound a s.entries_ := by
    split
    · rename_i h0
      have : a = ⟨0, 0⟩ := by cases a; simp only [StreamID.mk.injEq]; exact h0
      rw [this, EntryMap.lower_bound_min]
    · rfl
  have hend : (if b.timestamp_ms = UINT64_MAX ∧ b.sequence = UINT64_MAX then s.entries_.length
      else EntryMap.upper_bound b s.entries_) = EntryMap.upper_bound b s.entries_ := by
    split
    · rename_i h0
      have : b = ⟨UINT64_MAX, UINT64_MAX⟩ := by
        cases b; simp only [StreamID.mk.injEq]; exact h0
      rw [this, EntryMap.upper_bound_max _ (fun p hp => (hwf.2 p hp).2)]
    · rfl
  unfold Stream.get_range
  simp only [hstart, hend]
  rw [Stream.range_loop_unlimited _ count hc _ _ 0 h1, h2]
  have := EntryMap.upper_bound_le_length b s.entries_
  simp only [List.length_drop]
  omega

/-! ## The cursor after a delivery -/

namespace ConsumerGroup

theorem read_loop_last (cn : String) (count : Int) (clk : Nat → Nat)
    (entries : List StreamEntry) :
    ∀ (g : ConsumerGroup) (delivered : Int),
      (read_loop cn count clk entries g delivered).2.last_delivered_id_ =
        match (read_loop cn count clk entries g delivered).1.getLast? with
        | some e => e.id_
        | none => g.last_delivered_id_ := by
  induction entries with
  | nil => intro g delivered; simp [read_loop]
  | cons entry rest ih =>
    intro g delivered
    simp only [read_loop]
    by_cases hstop : count > 0 ∧ delivered ≥ count
    · simp [hstop]
    · simp only [hstop, if_false]
      by_cases hgt : entry.get_id.gt g.last_delivered_id_ = true
      · simp only [hgt, if_true]
        rw [ih, List.getLast?_cons]
        cases (read_loop cn count clk rest
          (ConsumerGroup.mk g.name_ entry.get_id
            (map_modify cn (fun c => c.add_pending_message entry.get_id) g.consumers_)
            (map_assign entry.get_id.to_string
              ⟨entry.get_id, cn, clk delivered.toNat % U64, 1⟩ g.pending_entries_))
          (delivered + 1)).1.getLast? with
        | none => rfl
        | some e => rfl
      · simp only [hgt, if_false, Bool.false_eq_true]
        exact ih g delivered

/-- C11: after `read_pending_messages`, `last_delivered_id_` is greater than
or equal to its value before the call; when the result is not empty it is
the ID of the last returned entry, and when the result is empty it is
unchanged. -/
theorem C11_cursor_after_delivery (now_create now_seen : Nat) (clk : Nat → Nat)
    (g : ConsumerGroup) (consumer_name : String) (available_entries : List StreamEntry)
    (count : Int) :
    g.last_delivered_id_.le
        (g.read_pending_messages now_create now_seen clk consumer_name available_entries
          count).2.last_delivered_id_ = true ∧
      ((g.read_pending_messages now_create now_seen clk consumer_name available_entries
          count).1 ≠ [] →
        ∃ e, (g.read_pending_messages now_create now_seen clk consumer_name available_entries
            count).1.getLast? = some e ∧
          (g.read_pending_messages now_create now_seen clk consumer_name available_entries
            count).2.last_delivered_id_ = e.id_) ∧
      ((g.read_pending_messages now_create now_seen clk consumer_name available_entries
          count).1 = [] →
        (g.read_pending_messages now_create now_seen clk consumer_name available_entries
          count).2.last_delivered_id_ = g.last_delivered_id_) := by
  have hb := (read_pending_bounds now_create now_seen clk g consumer_name available_entries
    count).1
  have hl : (g.read_pending_messages now_create now_seen clk consumer_name available_entries
      count).2.last_delivered_id_ =
      match (g.read_pending_messages now_create now_seen clk consumer_name available_entries
        count).1.getLast? with
      | some e => e.id_
      | none => g.last_delivered_id_ := by
    unfold read_pending_messages
    rw [read_loop_last]
    simp only [get_or_create_last]
  refine ⟨hb, ?_, ?_⟩
  · intro hne
    cases hq : (g.read_pending_messages now_create now_seen clk consumer_name available_entries
        count).1.getLast? with
    | none => exact absurd (List.getLast?_eq_none_iff.mp hq) hne
    | some e =>
      rw [hq] at hl
      exact ⟨e, rfl, hl⟩
  · intro hnil
    rw [hnil] at hl
    exact hl

end ConsumerGroup

/-! ## Acknowledgement -/

theorem pel_owned_erase (pel : List (String × PendingEntry)) (cn key k : String) :
    pel_owned (map_erase key pel) cn k = if k = key then false else pel_owned pel cn k := by
  unfold pel_owned
  rw [map_find_erase]
  by_cases h : k = key
  · simp only [h, if_true]
  · simp only [h, if_false]

namespace Consumer

theorem mem_foldl_remove (ids : List StreamID) :
    ∀ (c : Consumer) (k : String),
      k ∈ (ids.foldl remove_pending_message c).pending_messages_ ↔
        k ∈ c.pending_messages_ ∧ k ∉ ids.map StreamID.to_string := by
  induction ids with
  | nil => intro c k; simp
  | cons id rest ih =>
    intro c k
    simp only [List.foldl_cons, ih, mem_remove_pending, List.map_cons, List.mem_cons, not_or]
    tauto

end Consumer

namespace ConsumerGroup

/-- One iteration of the loop of `acknowledge_messages`. -/
theorem ack_loop_cons (cn : String) (id : StreamID) (rest : List StreamID) (g : ConsumerGroup)
    (a : Int) :
    ack_loop cn (id :: rest) g a =
      ack_loop cn rest
        (ConsumerGroup.mk g.name_ g.last_delivered_id_
          (map_modify cn (fun c => c.remove_pending_message id) g.consumers_)
          (if pel_owned g.pending_entries_ cn id.to_string = true
            then map_erase id.to_string g.pending_entries_ else g.pending_entries_))
        (if pel_owned g.pending_entries_ cn id.to_string = true then a + 1 else a) := by
  simp only [ack_loop, pel_owned]
  split <;> rfl

theorem ack_loop_pel (cn : String) (ids : List StreamID) :
    ∀ (g : ConsumerGroup) (a : Int) (k : String),
      map_find k (ack_loop cn ids g a).2.pending_entries_ =
        if k ∈ ids.map StreamID.to_string ∧ pel_owned g.pending_entries_ cn k = true then none
        else map_find k g.pending_entries_ := by
  induction ids with
  | nil => intro g a k; simp [ack_loop]
  | cons id rest ih =>
    intro g a k
    rw [ack_loop_cons, ih]
    simp only [List.map_cons, List.mem_cons]
    by_cases hown : pel_owned g.pending_entries_ cn id.to_string = true
    · simp only [hown, if_true, pel_owned_erase, map_find_erase]
      by_cases hk : k = id.to_string
      · simp [hk, hown]
      · simp [hk]
    · simp only [hown, if_false, Bool.false_eq_true]
      by_cases hk : k = id.to_string
      · have : pel_owned g.pending_entries_ cn k = false := by
          rw [hk]; simpa using hown
        simp [this]
      · simp [hk]

theorem ack_loop_count (cn : String) (ids : List StreamID) :
    ∀ (g : ConsumerGroup) (a : Int),
      (ack_loop cn ids g a).1 = a +
        (((ids.map StreamID.to_string).toFinset.filter
          (fun k => pel_owned g.pending_entries_ cn k = true)).card : Int) := by
  induction ids with
  | nil => intro g a; simp [ack_loop]
  | cons id rest ih =>
    intro g a
    rw [ack_loop_cons, ih]
    simp only [List.map_cons, List.toFinset_cons, Finset.filter_insert]
    by_cases hown : pel_owned g.pending_entries_ cn id.to_string = true
    · simp only [hown, if_true]
      have hset : (rest.map StreamID.to_string).toFinset.filter
            (fun k => pel_owned (map_erase id.to_string g.pending_entries_) cn k = true)
          = ((rest.map StreamID.to_string).toFinset.filter
            (fun k => pel_owned g.pending_entries_ cn k = true)).erase id.to_string := by
        ext k
        simp only [Finset.mem_filter, Finset.mem_erase, pel_owned_erase]
        by_cases hk : k = id.to_string
        · simp [hk]
        · simp [hk]
      rw [hset]
      by_cases hmem : id.to_string ∈ (rest.map StreamID.to_string).toFinset.filter
          (fun k => pel_owned g.pending_entries_ cn k = true)
      · rw [Finset.insert_eq_of_mem hmem, Finset.card_erase_of_mem hmem]
        have hpos : 0 < ((rest.map StreamID.to_string).toFinset.filter
            (fun k => pel_owned g.pending_entries_ cn k = true)).card :=
          Finset.card_pos.mpr ⟨_, hmem⟩
        omega
      · rw [Finset.erase_eq_of_not_mem hmem, Finset.card_insert_of_not_mem hmem]
        push_cast
        omega
    · simp only [hown, if_false, Bool.false_eq_true]

theorem ack_loop_consumers (cn : String) (ids : List StreamID) :
    ∀ (g : ConsumerGroup) (a : Int) (n : String),
      map_find n (ack_loop cn ids g a).2.consumers_ =
        if n = cn then
          (map_find n g.consumers_).map (fun c => ids.foldl Consumer.remove_pending_message c)
        else map_find n g.consumers_ := by
  induction ids with
  | nil =>
    intro g a n
    simp only [ack_loop, List.foldl_nil]
    split
    · cases map_find n g.consumers_ <;> rfl
    · rfl
  | cons id rest ih =>
    intro g a n
    rw [ack_loop_cons, ih]
    simp only [map_find_modify]
    by_cases hn : n = cn
    · simp only [hn, if_true, Option.map_map, List.foldl_cons]
      rfl
    · simp only [hn, if_false]

end ConsumerGroup

theorem card_listed_keys (ids : List StreamID) (p : String → Bool) :
    ((ids.map StreamID.to_string).toFinset.filter (fun k => p k = true)).card =
      (ids.toFinset.filter (fun id => p id.to_string = true)).card := by
  have himg : (ids.map StreamID.to_string).toFinset = ids.toFinset.image StreamID.to_string := by
    ext k
    simp
  rw [himg, Finset.filter_image]
  exact Finset.card_image_of_injective _ (fun a b h => StreamID.to_string_injective a b h)

namespace ConsumerGroup

theorem get_or_create_pel (now : Nat) (g : ConsumerGroup) (cn : String) :
    (g.get_or_create_consumer now cn).pending_entries_ = g.pending_entries_ := by
  unfold get_or_create_consumer
  split <;> rfl

theorem get_or_create_find (now : Nat) (g : ConsumerGroup) (cn n : String) :
    map_find n (g.get_or_create_consumer now cn).consumers_ =
      if n = cn then
        (match map_find cn g.consumers_ with
          | some c => some c
          | none => some (Consumer.mk_new now cn))
      else map_find n g.consumers_ := by
  unfold get_or_create_consumer
  cases hf : map_find cn g.consumers_ with
  | some c =>
    by_cases hn : n = cn
    · simp only [hn, if_true, hf]
    · simp only [hn, if_false]
  | none =>
    simp only [map_find_assign]

/-- C12: `acknowledge_messages(c, ids)` removes from the PEL exactly the
records of the listed IDs that exist and have owner `c`; it returns the
number of distinct IDs so removed; afterwards none of the listed IDs is in
the pending set of `c`, whose other members are kept; the records and the
pending sets of the other consumers, and `last_delivered_id_`, are as before. -/
theorem C12_acknowledge_messages (now_create : Nat) (g : ConsumerGroup) (c : String)
    (ids : List StreamID) :
    (∀ id ∈ ids, pel_owned g.pending_entries_ c id.to_string = true →
      map_find id.to_string (g.acknowledge_messages now_create c ids).2.pending_entries_
        = none) ∧
    (∀ k, ¬ (k ∈ ids.map StreamID.to_string ∧ pel_owned g.pending_entries_ c k = true) →
      map_find k (g.acknowledge_messages now_create c ids).2.pending_entries_
        = map_find k g.pending_entries_) ∧
    (g.acknowledge_messages now_create c ids).1 =
      ((ids.toFinset.filter
        (fun id => pel_owned g.pending_entries_ c id.to_string = true)).card : Int) ∧
    (∃ cons, map_find c (g.acknowledge_messages now_create c ids).2.consumers_ = some cons ∧
      (∀ id ∈ ids, cons.has_pending_message id = false) ∧
      (∀ k, k ∉ ids.map StreamID.to_string →
        (k ∈ cons.pending_messages_ ↔
          ∃ c0, map_find c g.consumers_ = some c0 ∧ k ∈ c0.pending_messages_))) ∧
    (∀ n, n ≠ c →
      map_find n (g.acknowledge_messages now_create c ids).2.consumers_
        = map_find n g.consumers_) ∧
    (g.acknowledge_messages now_create c ids).2.last_delivered_id_ = g.last_delivered_id_ := by
  refine ⟨?_, ?_, ?_, ?_, ?_, acknowledge_last now_create g c ids⟩
  · intro id hid hown
    unfold acknowledge_messages
    rw [ack_loop_pel, get_or_create_pel]
    have : id.to_string ∈ ids.map StreamID.to_string := List.mem_map_of_mem _ hid
    simp only [this, hown, and_self, if_true]
  · intro k hk
    unfold acknowledge_messages
    rw [ack_loop_pel, get_or_create_pel, if_neg hk]
  · unfold acknowledge_messages
    rw [ack_loop_count, get_or_create_pel, card_listed_keys]
    simp
  · unfold acknowledge_messages
    simp only [ack_loop_consumers, if_true, get_or_create_find]
    cases hf : map_find c g.consumers_ with
    | some c0 =>
      refine ⟨ids.foldl Consumer.remove_pending_message c0, rfl, ?_, ?_⟩
      · intro id hid
        simp only [Consumer.has_pending_message, Consumer.mem_foldl_remove, decide_eq_false_iff_not,
          not_and, not_not]
        intro _
        exact List.mem_map_of_mem _ hid
      · intro k hk
        simp only [Consumer.mem_foldl_remove, hk, not_false_eq_true, and_true, Option.some.injEq,
          exists_eq_left']
    | none =>
      refine ⟨ids.foldl Consumer.remove_pending_message (Consumer.mk_new now_create c), rfl, ?_, ?_⟩
      · intro id hid
        simp only [Consumer.has_pending_message, Consumer.mem_foldl_remove, decide_eq_false_iff_not,
          not_and, not_not]
        intro _
        exact List.mem_map_of_mem _ hid
      · intro k hk
        simp [Consumer.mem_foldl_remove, Consumer.mk_new]
  · intro n hn
    unfold acknowledge_messages
    simp only [ack_loop_consumers, hn, if_false, get_or_create_find]

end ConsumerGroup

theorem map_modify_id {V : Type} (key : String) (f : V → V) (m : List (String × V))
    (h : ∀ v, map_find key m = some v → f v = v) : map_modify key f m = m := by
  induction m with
  | nil => rfl
  | cons p rest ih =>
    obtain ⟨k, v⟩ := p
    by_cases hk : k = key
    · have := h v (by simp [map_find, hk])
      simp [map_modify, hk, this]
    · have h2 : ∀ v, map_find key rest = some v → f v = v := by
        intro w hw
        exact h w (by simpa [map_find, hk] using hw)
      simp [map_modify, hk, ih h2]

namespace ConsumerGroup

theorem ack_loop_absent (cn : String) (ids : List StreamID) :
    ∀ (g : ConsumerGroup) (a : Int),
      (∀ id ∈ ids, map_find id.to_string g.pending_entries_ = none) →
      (∀ c0, map_find cn g.consumers_ = some c0 →
        ∀ id ∈ ids, id.to_string ∉ c0.pending_messages_) →
      ack_loop cn ids g a = (a, g) := by
  induction ids with
  | nil => intro g a _ _; rfl
  | cons id rest ih =>
    intro g a habs hpend
    rw [ack_loop_cons]
    have hown : pel_owned g.pending_entries_ cn id.to_string = false := by
      unfold pel_owned
      rw [habs id (List.mem_cons_self _ _)]
    have hmod : map_modify cn (fun c => c.remove_pending_message id) g.consumers_
        = g.consumers_ := by
      apply map_modify_id
      intro c0 hc0
      have hn := hpend c0 hc0 id (List.mem_cons_self _ _)
      have hf : c0.pending_messages_.filter (fun s => decide (s ≠ id.to_string))
          = c0.pending_messages_ := by
        apply List.filter_eq_self.mpr
        intro s hs
        simp only [ne_eq, decide_not, Bool.not_eq_true', decide_eq_false_iff_not]
        intro hsk
        exact hn (hsk ▸ hs)
      simp only [Consumer.remove_pending_message, hf]
    simp only [hown, Bool.false_eq_true, if_false, hmod]
    exact ih g a (fun i hi => habs i (List.mem_cons_of_mem _ hi))
      (fun c0 hc0 i hi => hpend c0 hc0 i (List.mem_cons_of_mem _ hi))

/-- C13 (counterexample): on a fresh group, acknowledging the never
delivered ID `1-1` under the unregistered name `c9` returns 0 and registers
a consumer `c9`, so the consumer registry is not as before. -/
theorem C13_counterexample :
    map_find (StreamID.mk 1 1).to_string (ConsumerGroup.mk_new "g" ⟨0, 0⟩).pending_entries_
        = none ∧
      map_find "c9" (ConsumerGroup.mk_new "g" ⟨0, 0⟩).consumers_ = none ∧
      ((ConsumerGroup.mk_new "g" ⟨0, 0⟩).acknowledge_messages 0 "c9" [⟨1, 1⟩]).1 = 0 ∧
      ((ConsumerGroup.mk_new "g" ⟨0, 0⟩).acknowledge_messages 0 "c9" [⟨1, 1⟩]).2.consumers_
        = [("c9", ⟨"c9", 0, []⟩)] ∧
      ((ConsumerGroup.mk_new "g" ⟨0, 0⟩).acknowledge_messages 0 "c9" [⟨1, 1⟩]).2
        ≠ ConsumerGroup.mk_new "g" ⟨0, 0⟩ := by
  decide

/-- C13 (amended): in every reachable group state, acknowledging IDs that are
not in the PEL returns 0; under a registered consumer name the whole group
state is unchanged, and under an unregistered name the only change is that
the name is registered, with an empty pending set. -/
theorem C13_ack_of_absent_ids (now_create : Nat) (g : ConsumerGroup) (c : String)
    (ids : List StreamID) (hr : g.Reachable)
    (habs : ∀ id ∈ ids, map_find id.to_string g.pending_entries_ = none) :
    (∀ c0, map_find c g.consumers_ = some c0 →
      g.acknowledge_messages now_create c ids = (0, g)) ∧
    (map_find c g.consumers_ = none →
      g.acknowledge_messages now_create c ids =
        (0, { g with
          consumers_ := map_assign c (Consumer.mk_new now_create c) g.consumers_ })) := by
  obtain ⟨_, h2, _⟩ := reachable_inv g hr
  refine ⟨?_, ?_⟩
  · intro c0 hc0
    unfold acknowledge_messages
    have hg : g.get_or_create_consumer now_create c = g := by
      unfold get_or_create_consumer; rw [hc0]
    rw [hg]
    apply ack_loop_absent c ids g 0 habs
    intro c1 hc1 id hid hmem
    obtain ⟨pe, hpe, _⟩ := h2 c c1 _ hc1 hmem
    rw [habs id hid] at hpe
    exact Option.noConfusion hpe
  · intro hnone
    unfold acknowledge_messages
    have hg : g.get_or_create_consumer now_create c =
        { g with consumers_ := map_assign c (Consumer.mk_new now_create c) g.consumers_ } := by
      unfold get_or_create_consumer; rw [hnone]
    rw [hg]
    refine ack_loop_absent c ids _ 0 (fun id hid => habs id hid) ?_
    intro c1 hc1 id _ hmem
    simp only [map_find_assign, if_true, Option.some.injEq] at hc1
    rw [← hc1] at hmem
    simp [Consumer.mk_new] at hmem

/-- An instance of the amended C13: after one delivery to `c1`, `c1`
acknowledges the never delivered ID `7-7`. -/
theorem C13_ack_of_absent_ids_witness :
    ((ConsumerGroup.read_pending_messages 0 0 (fun _ => 0) (ConsumerGroup.mk_new "g" ⟨0, 0⟩)
        "c1" [⟨⟨1000, 0⟩, []⟩] (-1)).2.Reachable ∧
      (∀ id ∈ [StreamID.mk 7 7],
        map_find id.to_string
          (ConsumerGroup.read_pending_messages 0 0 (fun _ => 0)
            (ConsumerGroup.mk_new "g" ⟨0, 0⟩) "c1" [⟨⟨1000, 0⟩, []⟩]
            (-1)).2.pending_entries_ = none)) ∧
      (ConsumerGroup.read_pending_messages 0 0 (fun _ => 0) (ConsumerGroup.mk_new "g" ⟨0, 0⟩)
          "c1" [⟨⟨1000, 0⟩, []⟩] (-1)).2.acknowledge_messages 5 "c1" [⟨7, 7⟩]
        = (0, (ConsumerGroup.read_pending_messages 0 0 (fun _ => 0)
            (ConsumerGroup.mk_new "g" ⟨0, 0⟩) "c1" [⟨⟨1000, 0⟩, []⟩] (-1)).2) :=
  ⟨⟨.deliver (.fresh "g" ⟨0, 0⟩) 0 0 (fun _ => 0) "c1" [⟨⟨1000, 0⟩, []⟩] (-1), by decide⟩,
    (C13_ack_of_absent_ids 5 _ "c1" [⟨7, 7⟩]
      (.deliver (.fresh "g" ⟨0, 0⟩) 0 0 (fun _ => 0) "c1" [⟨⟨1000, 0⟩, []⟩] (-1))
      (by decide)).1 ⟨"c1", 0, ["1000-0"]⟩ (by decide)⟩

end ConsumerGroup

/-! ## `XACK` -/

theorem map_find_mem_keys {V : Type} (n : String) (m : List (String × V)) (v : V)
    (h : map_find n m = some v) : n ∈ m.map (fun p => p.1) := by
  induction m with
  | nil => simp [map_find] at h
  | cons p rest ih =>
    obtain ⟨k, w⟩ := p
    by_cases hk : k = n
    · simp [hk]
    · simp only [map_find, hk, if_false] at h
      simp [ih h]

namespace ConsumerGroup

theorem acknowledge_pel (now : Nat) (g : ConsumerGroup) (cn : String) (ids : List StreamID)
    (k : String) :
    map_find k (g.acknowledge_messages now cn ids).2.pending_entries_ =
      if k ∈ ids.map StreamID.to_string ∧ pel_owned g.pending_entries_ cn k = true then none
      else map_find k g.pending_entries_ := by
  unfold acknowledge_messages
  rw [ack_loop_pel, get_or_create_pel]

theorem acknowledge_count (now : Nat) (g : ConsumerGroup) (cn : String) (ids : List StreamID) :
    (g.acknowledge_messages now cn ids).1 =
      (((ids.map StreamID.to_string).toFinset.filter
        (fun k => pel_owned g.pending_entries_ cn k = true)).card : Int) := by
  unfold acknowledge_messages
  rw [ack_loop_count, get_or_create_pel]
  simp

end ConsumerGroup

namespace RedisServer

/-- The loop of `xack`: it counts the distinct listed keys whose record is
owned by one of the visited names, and removes exactly those records. -/
theorem xack_loop_spec (clk : Nat → Nat) (ids : List StreamID) (names : List String) :
    ∀ (i : Nat) (g : ConsumerGroup) (a : Int),
      (xack_loop clk ids names i g a).1 = a +
          (((ids.map StreamID.to_string).toFinset.filter
            (fun k => pel_owner_in g.pending_entries_ names k = true)).card : Int) ∧
        ∀ k, map_find k (xack_loop clk ids names i g a).2.pending_entries_ =
          if k ∈ ids.map StreamID.to_string ∧ pel_owner_in g.pending_entries_ names k = true
          then none else map_find k g.pending_entries_ := by
  induction names with
  | nil =>
    intro i g a
    have h0 : ∀ k, pel_owner_in g.pending_entries_ [] k = false := by
      intro k; unfold pel_owner_in; split <;> simp
    simp [xack_loop, h0]
  | cons n rest ih =>
    intro i g a
    simp only [xack_loop]
    obtain ⟨ih1, ih2⟩ := ih (i + 1) (g.acknowledge_messages (clk i) n ids).2
      (a + (g.acknowledge_messages (clk i) n ids).1)
    have hnext : ∀ k, k ∈ ids.map StreamID.to_string →
        pel_owner_in (g.acknowledge_messages (clk i) n ids).2.pending_entries_ rest k =
          (!(pel_owned g.pending_entries_ n k) && pel_owner_in g.pending_entries_ rest k) := by
      intro k hk
      unfold pel_owner_in
      rw [ConsumerGroup.acknowledge_pel]
      by_cases ho : pel_owned g.pending_entries_ n k = true
      · simp [hk, ho]
      · simp [ho]
    have hsplit : ∀ k, pel_owner_in g.pending_entries_ (n :: rest) k =
        (pel_owned g.pending_entries_ n k || pel_owner_in g.pending_entries_ rest k) := by
      intro k
      unfold pel_owner_in pel_owned
      cases map_find k g.pending_entries_ with
      | none => rfl
      | some pe => simp [List.mem_cons]
    refine ⟨?_, ?_⟩
    · rw [ih1, ConsumerGroup.acknowledge_count]
      have hcard : ((ids.map StreamID.to_string).toFinset.filter
            (fun k => pel_owned g.pending_entries_ n k = true)).card +
          ((ids.map StreamID.to_string).toFinset.filter
            (fun k => pel_owner_in (g.acknowledge_messages (clk i) n ids).2.pending_entries_
              rest k = true)).card =
          ((ids.map StreamID.to_string).toFinset.filter
            (fun k => pel_owner_in g.pending_entries_ (n :: rest) k = true)).card := by
        simp only [Finset.card_filter]
        rw [← Finset.sum_add_distrib]
        apply Finset.sum_congr rfl
        intro k hk
        have hk2 : k ∈ ids.map StreamID.to_string := by simpa using hk
        rw [hnext k hk2, hsplit k]
        cases pel_owned g.pending_entries_ n k <;>
          cases pel_owner_in g.pending_entries_ rest k <;> simp
      rw [← hcard]
      push_cast
      omega
    · intro k
      rw [ih2, ConsumerGroup.acknowledge_pel, hsplit k]
      by_cases hk : k ∈ ids.map StreamID.to_string
      · rw [hnext k hk]
        cases pel_owned g.pending_entries_ n k <;>
          cases pel_owner_in g.pending_entries_ rest k <;> simp [hk]
      · simp [hk]

theorem xack_loop_reachable (clk : Nat → Nat) (ids : List StreamID) (names : List String) :
    ∀ (i : Nat) (g : ConsumerGroup) (a : Int), g.Reachable →
      (xack_loop clk ids names i g a).2.Reachable := by
  induction names with
  | nil => intro i g a h; exact h
  | cons n rest ih =>
    intro i g a h
    simp only [xack_loop]
    exact ih _ _ _ (.ack h (clk i) n ids)

/-- In a group that satisfies the PEL invariant, every record is owned by a
registered consumer. -/
theorem owner_in_names (g : ConsumerGroup) (hinv : g.pel_inv) (k : String) :
    pel_owner_in g.pending_entries_ g.get_consumer_names k
      = (map_find k g.pending_entries_).isSome := by
  unfold pel_owner_in
  cases hf : map_find k g.pending_entries_ with
  | none => rfl
  | some pe =>
    obtain ⟨_, _, c, hc, _⟩ := hinv.1 k pe hf
    have := map_find_mem_keys _ _ _ hc
    simp [ConsumerGroup.get_consumer_names, this]

theorem from_string_no_clock (now1 now2 : Nat) (s : String) (h : s ≠ "*") :
    StreamID.from_string now1 s = StreamID.from_string now2 s := by
  unfold StreamID.from_string
  simp only [h, if_false]

theorem parse_ids_no_clock (clk1 clk2 : Nat → Nat) (ids : List String)
    (h : ∀ s ∈ ids, s ≠ "*") : ∀ i j, parse_ids clk1 ids i = parse_ids clk2 ids j := by
  induction ids with
  | nil => intro i j; rfl
  | cons s rest ih =>
    intro i j
    simp only [parse_ids]
    rw [from_string_no_clock (clk1 i) (clk2 j) s (h s (List.mem_cons_self _ _)),
      ih (fun t ht => h t (List.mem_cons_of_mem _ ht)) (i + 1) (j + 1)]

end RedisServer

namespace RedisServer

open RedisProtocol

theorem xack_of_group (srv : RedisServer) (clk_parse clk_ack : Nat → Nat) (key group : String)
    (ids : List String) (st : Stream) (g : ConsumerGroup)
    (hst : map_find key srv.streams_ = some st)
    (hg : map_find group st.consumer_groups_ = some g) :
    xack srv clk_parse clk_ack key group ids =
      (format_integer
        (xack_loop clk_ack (parse_ids clk_parse ids 0) g.get_consumer_names 0 g 0).1,
        ⟨map_assign key
          { st with
            consumer_groups_ := map_assign group
              (xack_loop clk_ack (parse_ids clk_parse ids 0) g.get_consumer_names 0 g 0).2
              st.consumer_groups_ }
          srv.streams_⟩) := by
  simp only [xack, hst, Stream.get_consumer_group, hg]

theorem xack_loop_total (clk : Nat → Nat) (ids : List StreamID) (g : ConsumerGroup)
    (hinv : g.pel_inv) :
    (xack_loop clk ids g.get_consumer_names 0 g 0).1 =
      ((ids.toFinset.filter
        (fun id => (map_find id.to_string g.pending_entries_).isSome = true)).card : Int) := by
  rw [(xack_loop_spec clk ids g.get_consumer_names 0 g 0).1,
    ← card_listed_keys ids (fun k => (map_find k g.pending_entries_).isSome)]
  simp only [owner_in_names g hinv, zero_add]

theorem xack_loop_clears (clk : Nat → Nat) (ids : List StreamID) (g : ConsumerGroup)
    (hinv : g.pel_inv) (id : StreamID) (hid : id ∈ ids) :
    map_find id.to_string
      (xack_loop clk ids g.get_consumer_names 0 g 0).2.pending_entries_ = none := by
  rw [(xack_loop_spec clk ids g.get_consumer_names 0 g 0).2, owner_in_names g hinv]
  have hk : id.to_string ∈ ids.map StreamID.to_string := List.mem_map_of_mem _ hid
  cases hf : map_find id.to_string g.pending_entries_ with
  | none => simp
  | some pe => simp [hk]

/-- C14 (counterexample): the entry `5000-0` is pending for `c1`. `XACK s g *`
with the clock at 4000 names the ID `4000-0` and replies `:0`; the same
command repeated with the clock at 5000 names `5000-0` and replies `:1`. -/
theorem C14_counterexample :
    (xack
        ((xgroup_create (xadd mk_new 0 0 "s" "5000-0" []).2 0 "s" "g" "0-0").2.xreadgroup
          (fun _ _ => 0) "g" "c1" ["s"] (-1)).2.2
        (fun _ => 4000) (fun _ => 0) "s" "g" ["*"]).1 = ":0\r\n" ∧
      (xack
        (xack
          ((xgroup_create (xadd mk_new 0 0 "s" "5000-0" []).2 0 "s" "g" "0-0").2.xreadgroup
            (fun _ _ => 0) "g" "c1" ["s"] (-1)).2.2
          (fun _ => 4000) (fun _ => 0) "s" "g" ["*"]).2
        (fun _ => 5000) (fun _ => 0) "s" "g" ["*"]).1 = ":1\r\n" := by
  decide

/-- C14 (amended): for a reachable group, XACK replies the number of distinct
listed IDs that are in the PEL before the call, each counted once whatever
the number of consumers; repeating the XACK with ID arguments other than
`*` replies `:0`. After scenario S3, `XACK s g 1000-0 1000-1` replies `:2`
and a second `XACK s g 1000-0` replies `:0`. -/
theorem C14_xack_counts_once (srv : RedisServer) (clk_parse clk_ack : Nat → Nat)
    (key group : String) (ids : List String) (st : Stream) (g : ConsumerGroup)
    (hst : map_find key srv.streams_ = some st)
    (hg : map_find group st.consumer_groups_ = some g) (hr : g.Reachable) :
    (xack srv clk_parse clk_ack key group ids).1 =
        format_integer (((parse_ids clk_parse ids 0).toFinset.filter
          (fun id => (map_find id.to_string g.pending_entries_).isSome = true)).card : Int) ∧
      (∀ (clk_parse2 clk_ack2 : Nat → Nat), (∀ s ∈ ids, s ≠ "*") →
        (xack (xack srv clk_parse clk_ack key group ids).2 clk_parse2 clk_ack2 key group ids).1
          = ":0\r\n") ∧
      (xack after_S3 (fun _ => 0) (fun _ => 0) "s" "g" ["1000-0", "1000-1"]).1 = ":2\r\n" ∧
      (xack (xack after_S3 (fun _ => 0) (fun _ => 0) "s" "g" ["1000-0", "1000-1"]).2
        (fun _ => 0) (fun _ => 0) "s" "g" ["1000-0"]).1 = ":0\r\n" := by
  have hinv := ConsumerGroup.reachable_inv g hr
  refine ⟨?_, ?_, by decide, by decide⟩
  · rw [xack_of_group srv clk_parse clk_ack key group ids st g hst hg,
      xack_loop_total clk_ack _ g hinv]
  · intro clk_parse2 clk_ack2 hstar
    rw [xack_of_group srv clk_parse clk_ack key group ids st g hst hg]
    have hr1 := xack_loop_reachable clk_ack (parse_ids clk_parse ids 0) g.get_consumer_names
      0 g 0 hr
    have hst1 : map_find key (RedisServer.mk (map_assign key
        { st with
          consumer_groups_ := map_assign group
            (xack_loop clk_ack (parse_ids clk_parse ids 0) g.get_consumer_names 0 g 0).2
            st.consumer_groups_ }
        srv.streams_)).streams_ =
        some { st with
          consumer_groups_ := map_assign group
            (xack_loop clk_ack (parse_ids clk_parse ids 0) g.get_consumer_names 0 g 0).2
            st.consumer_groups_ } := by
      simp only [map_find_assign, if_true]
    have hg1 : map_find group (map_assign group
        (xack_loop clk_ack (parse_ids clk_parse ids 0) g.get_consumer_names 0 g 0).2
        st.consumer_groups_) =
        some (xack_loop clk_ack (parse_ids clk_parse ids 0) g.get_consumer_names 0 g 0).2 := by
      simp only [map_find_assign, if_true]
    rw [xack_of_group _ clk_parse2 clk_ack2 key group ids _ _ hst1 hg1,
      xack_loop_total clk_ack2 _ _ (ConsumerGroup.reachable_inv _ hr1),
      parse_ids_no_clock clk_parse2 clk_parse ids hstar 0 0]
    have hempty : (parse_ids clk_parse ids 0).toFinset.filter
        (fun id => (map_find id.to_string
          (xack_loop clk_ack (parse_ids clk_parse ids 0) g.get_consumer_names 0 g
            0).2.pending_entries_).isSome = true) = ∅ := by
      apply Finset.filter_eq_empty_iff.mpr
      intro id hid
      rw [xack_loop_clears clk_ack _ g hinv id (by simpa using hid)]
      simp
    rw [hempty]
    rfl

end RedisServer

theorem ConsumerGroup.after_one_delivery_reachable :
    ConsumerGroup.after_one_delivery.Reachable :=
  .deliver (.fresh "g" ⟨0, 0⟩) 0 0 (fun _ => 0) "c1" [⟨⟨1000, 0⟩, []⟩] (-1)

/-- An instance of the amended C14: the entry `1000-0` is pending for `c1`,
and `XACK s g 1000-0 1000-0 9-9` replies `:1`. -/
theorem RedisServer.C14_xack_counts_once_witness :
    (map_find "s" RedisServer.with_one_pending.streams_ = some Stream.with_one_pending ∧
      map_find "g" Stream.with_one_pending.consumer_groups_
        = some ConsumerGroup.after_one_delivery ∧
      ConsumerGroup.after_one_delivery.Reachable) ∧
      (RedisServer.xack RedisServer.with_one_pending (fun _ => 0) (fun _ => 0) "s" "g"
        ["1000-0", "1000-0", "9-9"]).1 = ":1\r\n" :=
  ⟨⟨rfl, rfl, ConsumerGroup.after_one_delivery_reachable⟩,
    ((RedisServer.C14_xack_counts_once RedisServer.with_one_pending (fun _ => 0) (fun _ => 0)
      "s" "g" ["1000-0", "1000-0", "9-9"] Stream.with_one_pending
      ConsumerGroup.after_one_delivery rfl rfl
      ConsumerGroup.after_one_delivery_reachable).1).trans (by decide)⟩

/-! ## `XDEL` and `last_id_` -/

namespace RedisServer

/-- C15 (evaluation at the failing input): the stream holds the single entry
`1-1`. `XDEL s 1-1 9-9` removes one entry and replies `:2`; `XDEL s 1-1 1-1`
likewise replies `:2`; `XDEL s 9-9` removes nothing and replies `:0`. -/
theorem C15_xdel_reply_overcounts :
    ((xadd mk_new 0 0 "s" "1-1" []).2.stream_or_new "s").length = 1 ∧
      (xdel (xadd mk_new 0 0 "s" "1-1" []).2 (fun _ => 0) "s" ["1-1", "9-9"]).1 = ":2\r\n" ∧
      ((xdel (xadd mk_new 0 0 "s" "1-1" []).2 (fun _ => 0) "s"
        ["1-1", "9-9"]).2.stream_or_new "s").length = 0 ∧
      (xdel (xadd mk_new 0 0 "s" "1-1" []).2 (fun _ => 0) "s" ["1-1", "1-1"]).1 = ":2\r\n" ∧
      ((xdel (xadd mk_new 0 0 "s" "1-1" []).2 (fun _ => 0) "s"
        ["1-1", "1-1"]).2.stream_or_new "s").length = 0 ∧
      (xdel (xadd mk_new 0 0 "s" "1-1" []).2 (fun _ => 0) "s" ["9-9"]).1 = ":0\r\n" := by
  decide

/-- C16 (frame part, and evaluation at the failing input): `delete_entries`
never changes `last_id_`. After `XADD s 5-18446744073709551615` returned
that ID and XDEL removed it, `last_id_` is still `(5, 2^64 - 1)`, and the
next `XADD s 5-*` succeeds with `5-0`, which is not greater than the ID
returned first. -/
theorem C16_delete_keeps_last_id_then_wrap :
    (∀ (s : Stream) (ids : List StreamID), (s.delete_entries ids).2.last_id_ = s.last_id_) ∧
      (xadd mk_new 0 0 "s" "5-18446744073709551615" []).1
        = "$22\r\n5-18446744073709551615\r\n" ∧
      (xdel (xadd mk_new 0 0 "s" "5-18446744073709551615" []).2 (fun _ => 0) "s"
        ["5-18446744073709551615"]).1 = ":1\r\n" ∧
      ((xdel (xadd mk_new 0 0 "s" "5-18446744073709551615" []).2 (fun _ => 0) "s"
        ["5-18446744073709551615"]).2.stream_or_new "s").length = 0 ∧
      ((xdel (xadd mk_new 0 0 "s" "5-18446744073709551615" []).2 (fun _ => 0) "s"
        ["5-18446744073709551615"]).2.stream_or_new "s").last_id_ = ⟨5, UINT64_MAX⟩ ∧
      (xadd (xdel (xadd mk_new 0 0 "s" "5-18446744073709551615" []).2 (fun _ => 0) "s"
        ["5-18446744073709551615"]).2 0 0 "s" "5-*" []).1 = "$3\r\n5-0\r\n" ∧
      StreamID.gt ⟨5, 0⟩ ⟨5, UINT64_MAX⟩ = false := by
  refine ⟨fun s ids => rfl, ?_⟩
  decide

end RedisServer

/-- C17 (evaluation at the failing input): the stream reached from the empty
one by `add_entry(5-18446744073709551615)` and then `add_entry(5-0)`, with
no deletion, holds the key `(5, 2^64 - 1)` while its `last_id_` is `(5, 0)`,
which is less than that key and is not the largest key. -/
theorem Stream.C17_last_id_below_a_key :
    (Stream.mk [(⟨5, 0⟩, ⟨⟨5, 0⟩, []⟩), (⟨5, UINT64_MAX⟩, ⟨⟨5, UINT64_MAX⟩, []⟩)] []
        ⟨5, 0⟩).Reachable ∧
      Stream.mk_new.add_entry 0 ⟨5, UINT64_MAX⟩ []
        = .ok (⟨5, UINT64_MAX⟩,
          Stream.mk [(⟨5, UINT64_MAX⟩, ⟨⟨5, UINT64_MAX⟩, []⟩)] [] ⟨5, UINT64_MAX⟩) ∧
      (Stream.mk [(⟨5, UINT64_MAX⟩, ⟨⟨5, UINT64_MAX⟩, []⟩)] [] ⟨5, UINT64_MAX⟩).add_entry 0
          ⟨5, 0⟩ []
        = .ok (⟨5, 0⟩,
          Stream.mk [(⟨5, 0⟩, ⟨⟨5, 0⟩, []⟩), (⟨5, UINT64_MAX⟩, ⟨⟨5, UINT64_MAX⟩, []⟩)] []
            ⟨5, 0⟩) ∧
      StreamID.ge ⟨5, 0⟩ ⟨5, UINT64_MAX⟩ = false := by
  have h1 : Stream.mk_new.add_entry 0 ⟨5, UINT64_MAX⟩ []
      = .ok (⟨5, UINT64_MAX⟩,
        Stream.mk [(⟨5, UINT64_MAX⟩, ⟨⟨5, UINT64_MAX⟩, []⟩)] [] ⟨5, UINT64_MAX⟩) := by decide
  have h2 : (Stream.mk [(⟨5, UINT64_MAX⟩, ⟨⟨5, UINT64_MAX⟩, []⟩)] [] ⟨5, UINT64_MAX⟩).add_entry
      0 ⟨5, 0⟩ []
      = .ok (⟨5, 0⟩,
        Stream.mk [(⟨5, 0⟩, ⟨⟨5, 0⟩, []⟩), (⟨5, UINT64_MAX⟩, ⟨⟨5, UINT64_MAX⟩, []⟩)] []
          ⟨5, 0⟩) := by decide
  exact ⟨.add (.add .empty 0 ⟨5, UINT64_MAX⟩ [] _ _ (by decide) h1) 0 ⟨5, 0⟩ [] _ _
    (by decide) h2, h1, h2, by decide⟩

/-! ## `get_range` with a count -/

namespace Stream

theorem range_loop_counted (end_it : Nat) (count : Int) (l : List (StreamID × StreamEntry)) :
    ∀ (it : Nat) (added : Int), it ≤ end_it → end_it - it ≤ l.length →
      range_loop end_it count it l added
        = some (after_loop count (l.take (end_it - it)) added) := by
  induction l with
  | nil =>
    intro it added h1 h2
    have : it = end_it := by simp only [List.length_nil] at h2; omega
    simp [range_loop, after_loop, this]
  | cons e rest ih =>
    intro it added h1 h2
    by_cases he : it = end_it
    · simp [range_loop, after_loop, he]
    · have e1 : end_it - it = (end_it - (it + 1)) + 1 := by omega
      rw [e1, List.take_succ_cons]
      simp only [range_loop, after_loop, ne_eq, he, not_false_eq_true, true_and]
      by_cases hc : count < 0 ∨ added < count
      · simp only [hc, if_true]
        rw [ih (it + 1) (added + 1) (by omega) (by simp only [List.length_cons] at h2; omega)]
        rfl
      · simp only [hc, if_false]

/-- For `a ≤ b`, `get_range` returns the entries with `a ≤ id ≤ b` in the
order of the map: all of them for a negative count, the first `count` of
them otherwise. -/
theorem get_range_counted (s : Stream) (hwf : s.wf) (a b : StreamID) (hab : a.le b = true)
    (count : Int) :
    s.get_range a b count =
      some (if count < 0
        then (s.entries_.filter (fun p => a.le p.1 && p.1.le b)).map (fun p => p.2)
        else ((s.entries_.filter (fun p => a.le p.1 && p.1.le b)).map
          (fun p => p.2)).take count.toNat) := by
  obtain ⟨h1, h2⟩ := EntryMap.between_bounds a b hab s.entries_ hwf.1
  have hstart : (if a.timestamp_ms = 0 ∧ a.sequence = 0 then 0
      else EntryMap.lower_bound a s.entries_) = EntryMap.lower_bound a s.entries_ := by
    split
    · rename_i h0
      have : a = ⟨0, 0⟩ := by cases a; simp only [StreamID.mk.injEq]; exact h0
      rw [this, EntryMap.lower_bound_min]
    · rfl
  have hend : (if b.timestamp_ms = UINT64_MAX ∧ b.sequence = UINT64_MAX then s.entries_.length
      else EntryMap.upper_bound b s.entries_) = EntryMap.upper_bound b s.entries_ := by
    split
    · rename_i h0
      have : b = ⟨UINT64_MAX, UINT64_MAX⟩ := by
        cases b; simp only [StreamID.mk.injEq]; exact h0
      rw [this, EntryMap.upper_bound_max _ (fun p hp => (hwf.2 p hp).2)]
    · rfl
  have hlen : EntryMap.upper_bound b s.entries_ - EntryMap.lower_bound a s.entries_
      ≤ (s.entries_.drop (EntryMap.lower_bound a s.entries_)).length := by
    have := EntryMap.upper_bound_le_length b s.entries_
    simp only [List.length_drop]
    omega
  unfold get_range
  simp only [hstart, hend]
  rw [range_loop_counted _ count _ _ 0 h1 hlen, h2, after_loop_eq]
  simp

end Stream


namespace Stream

/-- C18: for bounds `a ≤ b`, every negative count gives the unlimited result,
and for `count ≥ 0` the result is the first `min(count, n)` entries of the
unlimited result, so `count = 0` yields no entries. After scenario S1,
`XRANGE s 1000-1 1001-0 COUNT 1` replies with the entry `1000-1` alone and
`XRANGE s - +` with the three entries in the order `1000-0`, `1000-1`,
`1001-0`. -/
theorem C18_get_range_count (s : Stream) (hwf : s.wf) (a b : StreamID) (hab : a.le b = true)
    (count : Int) :
    (count < 0 → s.get_range a b count = s.get_range a b (-1)) ∧
    (0 ≤ count → s.get_range a b count
      = (s.get_range a b (-1)).map (fun all => all.take count.toNat)) ∧
    s.get_range a b 0 = some [] ∧
    RedisServer.process_command_xrange RedisServer.after_S1 0 0
        ["XRANGE", "s", "1000-1", "1001-0", "COUNT", "1"]
      = .ok (some (RedisProtocol.format_stream_entries [⟨⟨1000, 1⟩, [("b", "2")]⟩])) ∧
    RedisServer.process_command_xrange RedisServer.after_S1 0 0 ["XRANGE", "s", "-", "+"]
      = .ok (some (RedisProtocol.format_stream_entries
          [⟨⟨1000, 0⟩, [("a", "1")]⟩, ⟨⟨1000, 1⟩, [("b", "2")]⟩, ⟨⟨1001, 0⟩, [("c", "3")]⟩])) := by
  refine ⟨?_, ?_, ?_, by decide, by decide⟩
  · intro h
    rw [get_range_counted s hwf a b hab count, get_range_counted s hwf a b hab (-1), if_pos h,
      if_pos (by decide)]
  · intro h
    rw [get_range_counted s hwf a b hab count, get_range_counted s hwf a b hab (-1),
      if_neg (by omega), if_pos (by decide)]
    rfl
  · rw [get_range_counted s hwf a b hab 0]
    simp

/-- An instance of C18: the stream of scenario S1 with the bounds `1000-1`
and `1001-0` and the count 1. -/
theorem C18_get_range_count_witness :
    ((RedisServer.after_S1.stream_or_new "s").wf ∧
        StreamID.le ⟨1000, 1⟩ ⟨1001, 0⟩ = true) ∧
      (RedisServer.after_S1.stream_or_new "s").get_range ⟨1000, 1⟩ ⟨1001, 0⟩ 1
        = some [⟨⟨1000, 1⟩, [("b", "2")]⟩] :=
  ⟨by decide,
    ((C18_get_range_count (RedisServer.after_S1.stream_or_new "s") (by decide) ⟨1000, 1⟩
      ⟨1001, 0⟩ (by decide) 1).2.1 (by decide)).trans (by decide)⟩

end Stream

/-! ## Deliveries with a count -/

namespace ConsumerGroup

theorem read_loop_result (cn : String) (count : Int) (clk : Nat → Nat)
    (entries : List StreamEntry) :
    ∀ (g : ConsumerGroup) (delivered : Int),
      entries.Pairwise (fun x y => x.id_.lt y.id_ = true) →
      (read_loop cn count clk entries g delivered).1 =
        if count > 0 then
          (entries.filter (fun e => e.get_id.gt g.last_delivered_id_)).take
            (count - delivered).toNat
        else entries.filter (fun e => e.get_id.gt g.last_delivered_id_) := by
  induction entries with
  | nil => intro g delivered _; simp [read_loop]
  | cons entry rest ih =>
    intro g delivered hasc
    have hs := List.pairwise_cons.mp hasc
    simp only [read_loop]
    by_cases hstop : count > 0 ∧ delivered ≥ count
    · have e0 : (count - delivered).toNat = 0 := by omega
      simp only [hstop, and_self, if_true, e0, List.take_zero]
    · simp only [hstop, if_false]
      by_cases hgt : entry.get_id.gt g.last_delivered_id_ = true
      · simp only [hgt, if_true, List.filter_cons]
        rw [ih _ _ hs.2]
        have hcongr : rest.filter (fun e => e.get_id.gt entry.get_id)
            = rest.filter (fun e => e.get_id.gt g.last_delivered_id_) := by
          apply List.filter_congr
          intro e he
          have h1 : entry.id_.lt e.id_ = true := hs.1 e he
          have h0 : g.last_delivered_id_.lt entry.id_ = true := hgt
          have h2 : g.last_delivered_id_.lt e.id_ = true := StreamID.lt_trans h0 h1
          simp only [StreamEntry.get_id, StreamID.gt, h1, h2]
        simp only [hcongr]
        by_cases hc : count > 0
        · have e1 : (count - delivered).toNat = (count - (delivered + 1)).toNat + 1 := by omega
          simp only [hc, if_true, e1, List.take_succ_cons]
        · simp only [hc, if_false]
      · simp only [hgt, if_false, Bool.false_eq_true, List.filter_cons]
        exact ih g delivered hs.2

/-- C19 (counterexample): on a fresh group with cursor `0-0`, a read with
`count = 0` and the single candidate `1-1` returns that candidate, records
it in the PEL and moves `last_delivered_id_` to `1-1`. -/
theorem C19_counterexample :
    ((ConsumerGroup.mk_new "g" ⟨0, 0⟩).read_pending_messages 0 0 (fun _ => 0) "c1"
        [⟨⟨1, 1⟩, []⟩] 0).1 = [⟨⟨1, 1⟩, []⟩] ∧
      ((ConsumerGroup.mk_new "g" ⟨0, 0⟩).read_pending_messages 0 0 (fun _ => 0) "c1"
        [⟨⟨1, 1⟩, []⟩] 0).2.last_delivered_id_ = ⟨1, 1⟩ ∧
      ((ConsumerGroup.mk_new "g" ⟨0, 0⟩).read_pending_messages 0 0 (fun _ => 0) "c1"
        [⟨⟨1, 1⟩, []⟩] 0).2.pending_entries_ = [("1-1", ⟨⟨1, 1⟩, "c1", 0, 1⟩)] := by
  decide

/-- C19 (amended): for a strictly ascending candidate list, a read with
`count > 0` returns the first `min(count, n)` candidates whose ID is greater
than `last_delivered_id_`, hence at most `count` entries; a read with
`count ≤ 0` returns all of them. After scenario S1 and `XGROUP CREATE s g
0-0`, a read with COUNT 2 by `c1` returns the first two entries and a
following read with COUNT 2 by `c2` returns only the third. -/
theorem C19_delivery_count (now_create now_seen : Nat) (clk : Nat → Nat) (g : ConsumerGroup)
    (consumer_name : String) (available_entries : List StreamEntry) (count : Int)
    (hasc : available_entries.Pairwise (fun x y => x.id_.lt y.id_ = true)) :
    (0 < count →
      (g.read_pending_messages now_create now_seen clk consumer_name available_entries
          count).1 =
        (available_entries.filter (fun e => e.get_id.gt g.last_delivered_id_)).take
          count.toNat ∧
      ((g.read_pending_messages now_create now_seen clk consumer_name available_entries
          count).1.length : Int) ≤ count) ∧
    (count ≤ 0 →
      (g.read_pending_messages now_create now_seen clk consumer_name available_entries
          count).1 =
        available_entries.filter (fun e => e.get_id.gt g.last_delivered_id_)) ∧
    (RedisServer.after_S1_group.xreadgroup (fun _ _ => 0) "g" "c1" ["s"] 2).1
      = [("s", [⟨⟨1000, 0⟩, [("a", "1")]⟩, ⟨⟨1000, 1⟩, [("b", "2")]⟩])] ∧
    ((RedisServer.after_S1_group.xreadgroup (fun _ _ => 0) "g" "c1" ["s"] 2).2.2.xreadgroup
        (fun _ _ => 0) "g" "c2" ["s"] 2).1
      = [("s", [⟨⟨1001, 0⟩, [("c", "3")]⟩])] := by
  have hres : (g.read_pending_messages now_create now_seen clk consumer_name available_entries
      count).1 =
      if count > 0 then
        (available_entries.filter (fun e => e.get_id.gt g.last_delivered_id_)).take
          (count - 0).toNat
      else available_entries.filter (fun e => e.get_id.gt g.last_delivered_id_) := by
    unfold read_pending_messages
    rw [read_loop_result consumer_name count clk available_entries _ 0 hasc]
    simp only [get_or_create_last]
  refine ⟨?_, ?_, by decide, by decide⟩
  · intro hc
    rw [hres, if_pos hc]
    simp only [sub_zero, true_and]
    have := List.length_take_le count.toNat
      (available_entries.filter (fun e => e.get_id.gt g.last_delivered_id_))
    omega
  · intro hc
    rw [hres, if_neg (by omega)]

/-- An instance of the amended C19: three ascending candidates, cursor
`1-1`, `count = 1`. -/
theorem C19_delivery_count_witness :
    ([(⟨⟨1, 1⟩, []⟩ : StreamEntry), ⟨⟨2, 1⟩, []⟩, ⟨⟨3, 1⟩, []⟩].Pairwise
        (fun x y => x.id_.lt y.id_ = true)) ∧
      ((ConsumerGroup.mk_new "g" ⟨1, 1⟩).read_pending_messages 0 0 (fun _ => 0) "c1"
        [⟨⟨1, 1⟩, []⟩, ⟨⟨2, 1⟩, []⟩, ⟨⟨3, 1⟩, []⟩] 1).1 = [⟨⟨2, 1⟩, []⟩] :=
  ⟨by decide,
    ((C19_delivery_count 0 0 (fun _ => 0) (ConsumerGroup.mk_new "g" ⟨1, 1⟩) "c1"
      [⟨⟨1, 1⟩, []⟩, ⟨⟨2, 1⟩, []⟩, ⟨⟨3, 1⟩, []⟩] 1 (by decide)).1 (by decide)).1.trans
      (by decide)⟩

end ConsumerGroup

/-! ## `XGROUP CREATE` -/

theorem map_assign_self {V : Type} (key : String) (value : V) (m : List (String × V))
    (h : map_find key m = some value) : map_assign key value m = m := by
  induction m with
  | nil => simp [map_find] at h
  | cons p rest ih =>
    obtain ⟨k, v⟩ := p
    by_cases hk : k = key
    · simp only [map_find, hk, if_true, Option.some.injEq] at h
      simp [map_assign, hk, h]
    · simp only [map_find, hk, if_false] at h
      simp [map_assign, hk, ih h]

namespace RedisServer

open RedisProtocol

/-- C20: `create_consumer_group` returns false exactly when a group of that
name exists, and then leaves the stream as it is; otherwise it returns true
and the group exists afterwards. When the start ID of XGROUP CREATE parses,
the reply is `-BUSYGROUP Consumer Group name already exists` and the server
is unchanged in the first case, and `+OK` in the second. A second
`XGROUP CREATE s g 0-0` replies `-BUSYGROUP`. -/
theorem C20_create_consumer_group (s : Stream) (start_id : StreamID) (srv : RedisServer)
    (now : Nat) (key name start_text : String) (id : StreamID)
    (hparse : (if start_text = "$" then Except.ok (srv.stream_or_new key).get_last_id
      else StreamID.from_string now start_text) = .ok id) :
    ((s.create_consumer_group name start_id).1 = false ↔
      ∃ g, map_find name s.consumer_groups_ = some g) ∧
    ((s.create_consumer_group name start_id).1 = false →
      (s.create_consumer_group name start_id).2 = s) ∧
    ((s.create_consumer_group name start_id).1 = true →
      (s.create_consumer_group name start_id).2.entries_ = s.entries_ ∧
      (s.create_consumer_group name start_id).2.last_id_ = s.last_id_ ∧
      ∃ g, map_find name (s.create_consumer_group name start_id).2.consumer_groups_ = some g ∧
        g.consumers_ = [] ∧ g.pending_entries_ = []) ∧
    ((∃ g, map_find name (srv.stream_or_new key).consumer_groups_ = some g) →
      xgroup_create srv now key name start_text
        = ("-BUSYGROUP Consumer Group name already exists\r\n", srv)) ∧
    (map_find name (srv.stream_or_new key).consumer_groups_ = none →
      (xgroup_create srv now key name start_text).1 = "+OK\r\n" ∧
      ((srv.stream_or_new key).create_consumer_group name id).1 = true ∧
      (xgroup_create srv now key name start_text).2.stream_or_new key
        = ((srv.stream_or_new key).create_consumer_group name id).2) ∧
    (xgroup_create after_S1_group 0 "s" "g" "0-0").1
      = "-BUSYGROUP Consumer Group name already exists\r\n" := by
  refine ⟨?_, ?_, ?_, ?_, ?_, by decide⟩
  · unfold Stream.create_consumer_group
    cases hf : map_find name s.consumer_groups_ with
    | none => simp
    | some g => simp
  · unfold Stream.create_consumer_group
    cases hf : map_find name s.consumer_groups_ with
    | none => simp
    | some g => simp
  · unfold Stream.create_consumer_group
    cases hf : map_find name s.consumer_groups_ with
    | none =>
      intro _
      refine ⟨rfl, rfl, ?_⟩
      simp only [map_find_assign, if_true]
      exact ⟨_, rfl, rfl, rfl⟩
    | some g => simp
  · rintro ⟨g, hg⟩
    have hex : ∃ st, map_find key srv.streams_ = some st := by
      unfold stream_or_new at hg
      cases hf : map_find key srv.streams_ with
      | none => rw [hf] at hg; simp [Stream.mk_new, map_find] at hg
      | some st => exact ⟨st, rfl⟩
    obtain ⟨st, hst⟩ := hex
    have hso : srv.stream_or_new key = st := by unfold stream_or_new; rw [hst]
    unfold xgroup_create
    simp only [hparse]
    rw [hso] at hg ⊢
    simp only [Stream.create_consumer_group, hg, Bool.false_eq_true, if_false,
      map_assign_self key st srv.streams_ hst]
    rfl
  · intro hnone
    unfold xgroup_create
    simp only [hparse]
    refine ⟨?_, ?_, ?_⟩
    · simp only [Stream.create_consumer_group, hnone, if_true]
      rfl
    · simp only [Stream.create_consumer_group, hnone]
    · rw [stream_or_new_assign]

/-- An instance of C20: `XGROUP CREATE s g 0-0` on the server of scenario S1. -/
theorem C20_create_consumer_group_witness :
    (if ("0-0" : String) = "$" then Except.ok (after_S1.stream_or_new "s").get_last_id
        else StreamID.from_string 0 "0-0") = .ok ⟨0, 0⟩ ∧
      (xgroup_create after_S1 0 "s" "g" "0-0").1 = "+OK\r\n" :=
  ⟨by decide,
    ((C20_create_consumer_group Stream.mk_new ⟨0, 0⟩ after_S1 0 "s" "g" "0-0" ⟨0, 0⟩
      (by decide)).2.2.2.2.1 (by decide)).1⟩

end RedisServer

/-! ## C25: the comparison operators of `StreamID` -/

/-- C25: `operator<` is the lexicographic order on (timestamp_ms, sequence):
it is irreflexive and transitive, and exactly one of `a < b`, `a == b`,
`b < a` holds for every pair; `operator==` is equality of both fields;
`operator>` is the converse of `operator<`, `operator<=` and `operator>=` are
the reflexive closures of `<` and `>` (so `a <= b` holds exactly when `b < a`
does not), and `operator!=` is the negation of `operator==`. -/
theorem StreamID.C25_comparison_operators (a b c : StreamID) :
    (a.lt b = true ↔ a.timestamp_ms < b.timestamp_ms ∨
      (a.timestamp_ms = b.timestamp_ms ∧ a.sequence < b.sequence)) ∧
    a.lt a = false ∧
    (a.lt b = true → b.lt c = true → a.lt c = true) ∧
    ((a.lt b = true ∧ a.eq b = false ∧ b.lt a = false) ∨
      (a.lt b = false ∧ a.eq b = true ∧ b.lt a = false) ∨
      (a.lt b = false ∧ a.eq b = false ∧ b.lt a = true)) ∧
    (a.eq b = true ↔ a = b) ∧
    a.gt b = b.lt a ∧
    a.le b = (a.lt b || a.eq b) ∧
    a.ge b = (a.gt b || a.eq b) ∧
    a.ne b = !(a.eq b) ∧
    a.le a = true ∧ a.ge a = true ∧
    (a.le b = true ↔ b.lt a = false) ∧
    (a.ge b = true ↔ a.lt b = false) ∧
    (a.ne b = true ↔ a ≠ b) := by
  have hle : a.le b = true ↔ b.lt a = false := by
    rw [StreamID.not_lt_iff_le]
  have hge : a.ge b = true ↔ a.lt b = false := by
    rw [StreamID.not_lt_iff_le]
    unfold StreamID.ge StreamID.gt StreamID.le
    rw [Bool.or_eq_true, Bool.or_eq_true, StreamID.eq_iff, StreamID.eq_iff]
    constructor
    · rintro (h | h)
      · exact Or.inl h
      · exact Or.inr h.symm
    · rintro (h | h)
      · exact Or.inl h
      · exact Or.inr h.symm
  have hne : a.ne b = true ↔ a ≠ b := by
    unfold StreamID.ne
    rw [Bool.not_eq_true', ← Bool.not_eq_true, StreamID.eq_iff]
  refine ⟨StreamID.lt_iff a b, StreamID.lt_irrefl a, fun h1 h2 => StreamID.lt_trans h1 h2, ?_,
    StreamID.eq_iff a b, rfl, rfl, rfl, rfl, StreamID.le_refl a, ?_, hle, hge, hne⟩
  · have h1 := StreamID.lt_iff a b
    have h2 := StreamID.lt_iff b a
    have h3 := StreamID.eq_iff a b
    cases hab : a.lt b <;> cases hba : b.lt a <;> cases he : a.eq b <;>
      simp only [hab, hba, he, Bool.false_eq_true, false_iff, true_iff, not_or, not_and,
        not_lt] at h1 h2 h3 <;> simp
    · apply h3
      cases a; cases b
      simp only [StreamID.mk.injEq]
      simp only at h1 h2
      omega
    · rw [h3] at h2; omega
    · rw [h3] at h1; omega
    · omega
    · omega
  · unfold StreamID.ge
    rw [Bool.or_eq_true]
    exact Or.inr ((StreamID.eq_iff a a).mpr rfl)
/-! ## C22: `set_last_delivered_id` -/

/-- C22 (counterexample): on a group whose cursor is `5-0`,
`set_last_delivered_id(1-0)` is not rejected: the cursor becomes `1-0`, which
is smaller than it was. -/
theorem ConsumerGroup.C22_counterexample :
    (StreamID.mk 1 0).lt (ConsumerGroup.mk_new "g" ⟨5, 0⟩).get_last_delivered_id = true ∧
    ((ConsumerGroup.mk_new "g" ⟨5, 0⟩).set_last_delivered_id ⟨1, 0⟩).get_last_delivered_id
      = ⟨1, 0⟩ ∧
    (((ConsumerGroup.mk_new "g" ⟨5, 0⟩).set_last_delivered_id ⟨1, 0⟩).get_last_delivered_id).lt
      (ConsumerGroup.mk_new "g" ⟨5, 0⟩).get_last_delivered_id = true := by
  decide

/-- C22 (amended): `set_last_delivered_id(id)` stores `id` as the cursor
whatever the current cursor is, and changes nothing else; the cursor is
non-decreasing under `read_pending_messages` and is left as it is by
`acknowledge_messages`, `get_or_create_consumer` and `delete_consumer`. -/
theorem ConsumerGroup.C22_set_last_delivered_id (g : ConsumerGroup) (id : StreamID)
    (now_create now_seen : Nat) (clk : Nat → Nat) (c : String) (entries : List StreamEntry)
    (count : Int) (ids : List StreamID) :
    (g.set_last_delivered_id id).get_last_delivered_id = id ∧
    (g.set_last_delivered_id id).name_ = g.name_ ∧
    (g.set_last_delivered_id id).consumers_ = g.consumers_ ∧
    (g.set_last_delivered_id id).pending_entries_ = g.pending_entries_ ∧
    g.get_last_delivered_id.le
      (g.read_pending_messages now_create now_seen clk c entries count).2.get_last_delivered_id
      = true ∧
    (g.acknowledge_messages now_create c ids).2.get_last_delivered_id
      = g.get_last_delivered_id ∧
    (g.get_or_create_consumer now_create c).get_last_delivered_id = g.get_last_delivered_id ∧
    (g.delete_consumer c).2.get_last_delivered_id = g.get_last_delivered_id :=
  ⟨rfl, rfl, rfl, rfl, (ConsumerGroup.read_pending_bounds now_create now_seen clk g c entries count).1,
    ConsumerGroup.acknowledge_last now_create g c ids,
    ConsumerGroup.get_or_create_last now_create g c, rfl⟩

/-! ## C21: the cursor of a new group -/

namespace RedisServer

open RedisProtocol

/-- The outcome of XGROUP CREATE when no group of that name exists and the
start ID is read as `id`. -/
theorem xgroup_create_fresh (srv : RedisServer) (now : Nat) (key g t : String) (id : StreamID)
    (hno : map_find g (srv.stream_or_new key).consumer_groups_ = none)
    (hparse : (if t = "$" then Except.ok (srv.stream_or_new key).get_last_id
      else StreamID.from_string now t) = .ok id) :
    (xgroup_create srv now key g t).1 = "+OK\r\n" ∧
    (xgroup_create srv now key g t).2.cursor key g = some
      (if id.timestamp_ms = 0 ∧ id.sequence = 0 then (⟨0, 0⟩ : StreamID)
        else if id.timestamp_ms = UINT64_MAX ∧ id.sequence = UINT64_MAX then
          (srv.stream_or_new key).last_id_
        else id) := by
  unfold xgroup_create
  simp only [hparse]
  constructor
  · simp only [Stream.create_consumer_group, hno, if_true]
    rfl
  · rw [cursor_assign]
    simp only [if_true, Stream.create_consumer_group, hno, map_find_assign]
    rfl

/-- C21 (counterexample): on the server of scenario S1, whose stream `s` has
last_id `1001-0` and no group, the well-formed start ID
`18446744073709551615-18446744073709551615` denotes (2^64-1, 2^64-1), but
XGROUP CREATE leaves the new group's cursor at `1001-0`. -/
theorem C21_counterexample :
    StreamID.from_string 0 "18446744073709551615-18446744073709551615"
      = .ok ⟨18446744073709551615, 18446744073709551615⟩ ∧
    map_find "g" (after_S1.stream_or_new "s").consumer_groups_ = none ∧
    (after_S1.stream_or_new "s").last_id_ = ⟨1001, 0⟩ ∧
    (xgroup_create after_S1 0 "s" "g" "18446744073709551615-18446744073709551615").1
      = "+OK\r\n" ∧
    (xgroup_create after_S1 0 "s" "g" "18446744073709551615-18446744073709551615").2.cursor
      "s" "g" = some ⟨1001, 0⟩ := by
  decide

/-- C21 (amended): when stream `key` has no group `g`, `XGROUP CREATE key g $`
replies `+OK` and creates the group with the stream's last_id as cursor; for
a start ID `<ms>-<seq>` made of two digit runs with values below 2^64 the
reply is `+OK` and the cursor is (ms, seq), except for
ms = seq = 2^64-1, which `create_consumer_group` reads as `$`: the cursor is
then the stream's last_id. -/
theorem C21_xgroup_create_cursor (srv : RedisServer) (now : Nat) (key g : String)
    (ms_txt seq_txt : List Char)
    (hno : map_find g (srv.stream_or_new key).consumer_groups_ = none)
    (hms : ms_txt ≠ [] ∧ all_digits ms_txt ∧ digits_value ms_txt 0 < U64)
    (hseq : seq_txt ≠ [] ∧ all_digits seq_txt ∧ digits_value seq_txt 0 < U64) :
    (xgroup_create srv now key g "$").1 = "+OK\r\n" ∧
    (xgroup_create srv now key g "$").2.cursor key g = some (srv.stream_or_new key).last_id_ ∧
    (xgroup_create srv now key g (String.mk (ms_txt ++ '-' :: seq_txt))).1 = "+OK\r\n" ∧
    (¬ (digits_value ms_txt 0 = UINT64_MAX ∧ digits_value seq_txt 0 = UINT64_MAX) →
      (xgroup_create srv now key g (String.mk (ms_txt ++ '-' :: seq_txt))).2.cursor key g
        = some ⟨digits_value ms_txt 0, digits_value seq_txt 0⟩) ∧
    ((digits_value ms_txt 0 = UINT64_MAX ∧ digits_value seq_txt 0 = UINT64_MAX) →
      (xgroup_create srv now key g (String.mk (ms_txt ++ '-' :: seq_txt))).2.cursor key g
        = some (srv.stream_or_new key).last_id_) := by
  have hd := xgroup_create_fresh srv now key g "$" (srv.stream_or_new key).last_id_ hno
    (by simp [Stream.get_last_id])
  have hne : String.mk (ms_txt ++ '-' :: seq_txt) ≠ "$" := by
    intro h
    have h2 := congrArg String.length h
    have h3 : ms_txt.length ≠ 0 := fun h0 => hms.1 (List.length_eq_zero.mp h0)
    have h4 : seq_txt.length ≠ 0 := fun h0 => hseq.1 (List.length_eq_zero.mp h0)
    simp [String.length] at h2
    omega
  have hstar : seq_txt ≠ ['*'] := by
    intro hc
    have := hseq.2.1 '*' (by rw [hc]; exact List.mem_singleton_self _)
    exact absurd this (by decide)
  have hp : (if String.mk (ms_txt ++ '-' :: seq_txt) = "$"
      then Except.ok (srv.stream_or_new key).get_last_id
      else StreamID.from_string now (String.mk (ms_txt ++ '-' :: seq_txt)))
      = .ok ⟨digits_value ms_txt 0, digits_value seq_txt 0⟩ := by
    rw [if_neg hne, StreamID.from_string_digits now _ _ hms.1 hms.2.1 hms.2.2, if_neg hstar,
      stoull_chars_digits _ hseq.1 hseq.2.1 hseq.2.2]
  have ht := xgroup_create_fresh srv now key g _ _ hno hp
  refine ⟨hd.1, ?_, ht.1, ?_, ?_⟩
  · rw [hd.2]
    by_cases h0 : (srv.stream_or_new key).last_id_.timestamp_ms = 0 ∧
        (srv.stream_or_new key).last_id_.sequence = 0
    · rw [if_pos h0]
      cases hl : (srv.stream_or_new key).last_id_ with
      | mk a b => rw [hl] at h0; simp only at h0; rw [h0.1, h0.2]
    · rw [if_neg h0]
      split <;> rfl
  · intro hs
    rw [ht.2]
    simp only [hs, if_false]
    by_cases h0 : digits_value ms_txt 0 = 0 ∧ digits_value seq_txt 0 = 0
    · rw [if_pos h0, h0.1, h0.2]
    · rw [if_neg h0]
  · intro hs
    rw [ht.2]
    have h0 : ¬ (digits_value ms_txt 0 = 0 ∧ digits_value seq_txt 0 = 0) := by
      rw [hs.1]; unfold UINT64_MAX; omega
    have hm : ¬ (UINT64_MAX = 0) := by unfold UINT64_MAX; omega
    simp only [hs, hm, if_false, and_self, if_true]

end RedisServer

/-- An instance of C21: `XGROUP CREATE s g $` and `XGROUP CREATE s g 5-7` on
the server of scenario S1. -/
theorem RedisServer.C21_xgroup_create_cursor_witness :
    map_find "g" (RedisServer.after_S1.stream_or_new "s").consumer_groups_ = none ∧
    (RedisServer.xgroup_create RedisServer.after_S1 0 "s" "g" "$").2.cursor "s" "g"
      = some (RedisServer.after_S1.stream_or_new "s").last_id_ ∧
    (RedisServer.xgroup_create RedisServer.after_S1 0 "s" "g" (String.mk (['5'] ++ '-' :: ['7']))).1
      = "+OK\r\n" :=
  ⟨by decide,
    (RedisServer.C21_xgroup_create_cursor RedisServer.after_S1 0 "s" "g" ['5'] ['7'] (by decide)
      ⟨by decide, by decide, by decide⟩ ⟨by decide, by decide, by decide⟩).2.1,
    (RedisServer.C21_xgroup_create_cursor RedisServer.after_S1 0 "s" "g" ['5'] ['7'] (by decide)
      ⟨by decide, by decide, by decide⟩ ⟨by decide, by decide, by decide⟩).2.2.1⟩

/-! ## C24: the strings `from_string` rejects -/

theorem skip_space_split (cs : List Char) :
    ∃ w, cs = w ++ skip_space cs ∧ ∀ c ∈ w, c_isspace c = true := by
  induction cs with
  | nil => exact ⟨[], rfl, by simp⟩
  | cons c cs ih =>
    by_cases hc : c_isspace c = true
    · obtain ⟨w, h1, h2⟩ := ih
      refine ⟨c :: w, ?_, ?_⟩
      · simp only [skip_space, hc, if_true, List.cons_append]
        rw [← h1]
      · intro d hd
        rcases List.mem_cons.mp hd with hd | hd
        · rw [hd]; exact hc
        · exact h2 d hd
    · exact ⟨[], by simp [skip_space, hc], by simp⟩

theorem skip_space_append (w r : List Char) (hw : ∀ c ∈ w, c_isspace c = true)
    (hr : ∀ c r2, r = c :: r2 → c_isspace c = false) : skip_space (w ++ r) = r := by
  induction w with
  | nil =>
    cases r with
    | nil => rfl
    | cons c r2 => simp [skip_space, hr c r2 rfl]
  | cons c w ih =>
    simp only [List.cons_append, skip_space, hw c (List.mem_cons_self _ _), if_true]
    exact ih (fun d hd => hw d (List.mem_cons_of_mem _ hd))

theorem digit_run_split (l : List Char) :
    ∃ ds t, l = ds ++ t ∧ all_digits ds ∧ (∀ c t2, t = c :: t2 → c_isdigit c = false) := by
  induction l with
  | nil => exact ⟨[], [], rfl, (fun c hc => nomatch hc), (fun c t2 h => nomatch h)⟩
  | cons c cs ih =>
    by_cases hc : c_isdigit c = true
    · obtain ⟨ds, t, h1, h2, h3⟩ := ih
      refine ⟨c :: ds, t, by rw [h1]; rfl, ?_, h3⟩
      intro d hd
      rcases List.mem_cons.mp hd with hd | hd
      · rw [hd]; exact hc
      · exact h2 d hd
    · refine ⟨[], c :: cs, rfl, (fun d hd => nomatch hd), ?_⟩
      intro d t2 h
      simp only [List.cons.injEq] at h
      rw [← h.1]
      simpa using hc

theorem digits_value_run (ds t : List Char) (hd : all_digits ds)
    (ht : ∀ c t2, t = c :: t2 → c_isdigit c = false) (acc : Nat) :
    digits_value (ds ++ t) acc = digits_value ds acc := by
  rw [digits_value_append ds t hd]
  cases t with
  | nil => rfl
  | cons c t2 => simp [digits_value, ht c t2 rfl]

/-- The conversion after the sign succeeds exactly on a non-empty run of
digits of value below 2^64, followed by text that does not begin with a
digit. -/
theorem stoull_signed_ok_iff (neg : Bool) (r : List Char) :
    (∃ v, stoull_signed neg r = .ok v) ↔
      ∃ ds t, r = ds ++ t ∧ ds ≠ [] ∧ all_digits ds ∧
        (∀ c t2, t = c :: t2 → c_isdigit c = false) ∧ digits_value ds 0 < U64 := by
  constructor
  · rintro ⟨v, hv⟩
    obtain ⟨ds, t, h1, h2, h3⟩ := digit_run_split r
    cases r with
    | nil => simp [stoull_signed] at hv
    | cons d r2 =>
      by_cases hd : c_isdigit d = true
      · have hne : ds ≠ [] := by
          intro hds
          rw [hds, List.nil_append] at h1
          have := h3 d r2 h1.symm
          rw [hd] at this
          exact Bool.noConfusion this
        refine ⟨ds, t, h1, hne, h2, h3, ?_⟩
        rw [← digits_value_run ds t h2 h3, ← h1]
        by_contra hge
        have hge2 : digits_value (d :: r2) 0 ≥ U64 := by omega
        simp [stoull_signed, hd, hge2] at hv
      · simp [stoull_signed, hd] at hv
  · rintro ⟨ds, t, h1, hne, h2, h3, h4⟩
    cases ds with
    | nil => exact absurd rfl hne
    | cons d ds2 =>
      have hd : c_isdigit d = true := h2 d (List.mem_cons_self _ _)
      have hval : digits_value r 0 = digits_value (d :: ds2) 0 := by
        rw [h1]; exact digits_value_run _ t h2 h3 0
      have hlt : ¬ (digits_value r 0 ≥ U64) := by omega
      rw [h1] at hlt ⊢
      simp only [List.cons_append] at hlt ⊢
      simp only [stoull_signed, hd, if_true, hlt, if_false]
      exact ⟨_, rfl⟩

/-- The conversion `std::stoull` succeeds exactly on: white space, an optional
sign, a non-empty run of digits of value below 2^64, then text that does not
begin with a digit. -/
theorem stoull_chars_ok_iff (cs : List Char) :
    (∃ v, stoull_chars cs = .ok v) ↔
      ∃ w sign ds t, cs = w ++ sign ++ ds ++ t ∧ (∀ c ∈ w, c_isspace c = true) ∧
        (sign = [] ∨ sign = ['+'] ∨ sign = ['-']) ∧ ds ≠ [] ∧ all_digits ds ∧
        (∀ c t2, t = c :: t2 → c_isdigit c = false) ∧ digits_value ds 0 < U64 := by
  constructor
  · rintro ⟨v, hv⟩
    obtain ⟨w, hw1, hw2⟩ := skip_space_split cs
    unfold stoull_chars at hv
    cases hs : skip_space cs with
    | nil => rw [hs] at hv; simp [stoull_signed] at hv
    | cons c r =>
      rw [hs] at hv hw1
      simp only at hv
      by_cases hm : c = '-'
      · rw [if_pos hm] at hv
        obtain ⟨ds, t, h1, h2, h3, h4, h5⟩ := (stoull_signed_ok_iff true r).mp ⟨v, hv⟩
        exact ⟨w, ['-'], ds, t, by rw [hw1, hm, h1]; simp, hw2, Or.inr (Or.inr rfl), h2, h3, h4, h5⟩
      · rw [if_neg hm] at hv
        by_cases hp : c = '+'
        · rw [if_pos hp] at hv
          obtain ⟨ds, t, h1, h2, h3, h4, h5⟩ := (stoull_signed_ok_iff false r).mp ⟨v, hv⟩
          exact ⟨w, ['+'], ds, t, by rw [hw1, hp, h1]; simp, hw2, Or.inr (Or.inl rfl), h2, h3, h4,
            h5⟩
        · rw [if_neg hp] at hv
          obtain ⟨ds, t, h1, h2, h3, h4, h5⟩ := (stoull_signed_ok_iff false (c :: r)).mp ⟨v, hv⟩
          exact ⟨w, [], ds, t, by rw [hw1, h1]; simp, hw2, Or.inl rfl, h2, h3, h4, h5⟩
  · rintro ⟨w, sign, ds, t, h1, hw, hsign, hne, hd, ht, hv⟩
    cases ds with
    | nil => exact absurd rfl hne
    | cons d ds2 =>
      have hdd : c_isdigit d = true := hd d (List.mem_cons_self _ _)
      have hok := (stoull_signed_ok_iff false (d :: ds2 ++ t)).mpr ⟨d :: ds2, t, rfl, hne, hd, ht, hv⟩
      have hokn := (stoull_signed_ok_iff true (d :: ds2 ++ t)).mpr ⟨d :: ds2, t, rfl, hne, hd, ht, hv⟩
      rcases hsign with hs | hs | hs
      · have hsk : skip_space cs = d :: (ds2 ++ t) := by
          rw [h1, hs, List.append_nil, List.append_assoc]
          apply skip_space_append _ _ hw
          intro c r2 hc
          simp only [List.cons_append, List.cons.injEq] at hc
          rw [← hc.1]; exact isdigit_not_space d hdd
        unfold stoull_chars
        rw [hsk]
        simp only [(isdigit_ne_dash d hdd).1, (isdigit_ne_dash d hdd).2.1, if_false]
        exact hok
      · have hsk : skip_space cs = '+' :: (d :: ds2 ++ t) := by
          rw [h1, hs, List.append_assoc, List.append_assoc]
          apply skip_space_append _ _ hw
          intro c r2 hc
          simp only [List.cons_append, List.nil_append, List.cons.injEq] at hc
          rw [← hc.1]; decide
        unfold stoull_chars
        rw [hsk]
        simp only [if_true, show ¬ ('+' = '-') by decide, if_false]
        exact hok
      · have hsk : skip_space cs = '-' :: (d :: ds2 ++ t) := by
          rw [h1, hs, List.append_assoc, List.append_assoc]
          apply skip_space_append _ _ hw
          intro c r2 hc
          simp only [List.cons_append, List.nil_append, List.cons.injEq] at hc
          rw [← hc.1]; decide
        unfold stoull_chars
        rw [hsk]
        simp only [if_true]
        exact hokn

theorem find_dash_none (l : List Char) (h : '-' ∉ l) : StreamID.find_dash l = none := by
  induction l with
  | nil => rfl
  | cons c cs ih =>
    have hc : c ≠ '-' := fun e => h (by rw [e]; exact List.mem_cons_self _ _)
    simp [StreamID.find_dash, hc, ih (fun hm => h (List.mem_cons_of_mem _ hm))]

theorem find_dash_first (p q : List Char) (h : '-' ∉ p) :
    StreamID.find_dash (p ++ '-' :: q) = some p.length := by
  induction p with
  | nil => simp [StreamID.find_dash]
  | cons c cs ih =>
    have hc : c ≠ '-' := fun e => h (by rw [e]; exact List.mem_cons_self _ _)
    simp [StreamID.find_dash, hc, ih (fun hm => h (List.mem_cons_of_mem _ hm))]

/-- The strings `from_string` rejects. A string other than `*` that has no
`-` is rejected. On a string with a `-`, with `p` the text before the first
`-` and `q` the text after it, the parse reads `p` with `std::stoull`, and `q`
too unless `q` is `*`, and fails exactly when one of these conversions
fails. The conversion succeeds exactly on: optional white space, an optional
`+` or `-`, a non-empty run of digits of value below 2^64, then any text that
does not begin with a digit. -/
theorem StreamID.from_string_failure_cases (now : Nat) (s : String) (p q cs : List Char) :
    (s ≠ "*" → '-' ∉ s.data →
      StreamID.from_string now s = .error (.invalid_argument "Invalid stream ID format")) ∧
    ('-' ∉ p →
      StreamID.from_string now (String.mk (p ++ '-' :: q)) =
        match stoull_chars p with
        | .error e => .error e
        | .ok ms =>
          if q = ['*'] then .ok ⟨ms, 0⟩
          else
            match stoull_chars q with
            | .error e => .error e
            | .ok sq => .ok ⟨ms, sq⟩) ∧
    ((∃ v, stoull_chars cs = .ok v) ↔
      ∃ w sign ds t, cs = w ++ sign ++ ds ++ t ∧ (∀ c ∈ w, c_isspace c = true) ∧
        (sign = [] ∨ sign = ['+'] ∨ sign = ['-']) ∧ ds ≠ [] ∧ all_digits ds ∧
        (∀ c t2, t = c :: t2 → c_isdigit c = false) ∧ digits_value ds 0 < U64) := by
  refine ⟨?_, ?_, stoull_chars_ok_iff cs⟩
  · intro hs hd
    unfold StreamID.from_string
    rw [if_neg hs, find_dash_none _ hd]
  · intro hp
    have hstar : String.mk (p ++ '-' :: q) ≠ "*" := by
      intro h
      have h2 := congrArg String.data h
      simp only at h2
      cases p with
      | nil =>
        simp only [List.nil_append] at h2
        have h3 := (List.cons.inj h2).1
        exact absurd h3 (by decide)
      | cons c p2 =>
        have h3 := congrArg List.length h2
        simp at h3
    have htake : List.take p.length (p ++ '-' :: q) = p := by simp
    have hdrop : List.drop (p.length + 1) (p ++ '-' :: q) = q := by
      rw [List.drop_append_eq_append_drop]
      simp
    unfold StreamID.from_string
    simp only [hstar, if_false, find_dash_first p q hp, htake, hdrop]

/-- C24 (evaluation at the failing input): `from_string` rejects `abc`, `5`,
`-5-3`, `5-`, `x-1` and `5-x`, but it returns an ID for ` 5-3` (leading white
space), `+5-3` (a sign), `5--3` (a second dash, read as the sequence
2^64-3), `5-3abc` and `5x-3` (text after the digits) and `5-3-2` (a third
part): the text that `std::stoull` leaves unread is never looked at.
`XADD s 5-3abc f v` on an empty server is answered with the ID `5-3`. -/
theorem StreamID.C24_malformed_text_accepted :
    StreamID.from_string 0 "abc" = .error (.invalid_argument "Invalid stream ID format") ∧
    StreamID.from_string 0 "5" = .error (.invalid_argument "Invalid stream ID format") ∧
    StreamID.from_string 0 "-5-3" = .error (.invalid_argument "stoull") ∧
    StreamID.from_string 0 "5-" = .error (.invalid_argument "stoull") ∧
    StreamID.from_string 0 "x-1" = .error (.invalid_argument "stoull") ∧
    StreamID.from_string 0 "5-x" = .error (.invalid_argument "stoull") ∧
    StreamID.from_string 0 " 5-3" = .ok ⟨5, 3⟩ ∧
    StreamID.from_string 0 "+5-3" = .ok ⟨5, 3⟩ ∧
    StreamID.from_string 0 "5--3" = .ok ⟨5, 18446744073709551613⟩ ∧
    StreamID.from_string 0 "5-3abc" = .ok ⟨5, 3⟩ ∧
    StreamID.from_string 0 "5x-3" = .ok ⟨5, 3⟩ ∧
    StreamID.from_string 0 "5-3-2" = .ok ⟨5, 3⟩ ∧
    (RedisServer.xadd RedisServer.mk_new 0 0 "s" "5-3abc" [("f", "v")]).1 = "$3\r\n5-3\r\n" := by
  decide

/-! ## C30: acknowledgements of distinct IDs commute -/

theorem map_erase_eq_filter {V : Type} (key : String) (m : List (String × V)) :
    map_erase key m = m.filter (fun p => !decide (p.1 = key)) := by
  induction m with
  | nil => rfl
  | cons p rest ih =>
    obtain ⟨k, v⟩ := p
    by_cases h : k = key
    · simp only [map_erase, h, if_true, List.filter_cons, decide_True, Bool.not_true,
        Bool.false_eq_true, if_false]
      rw [← ih]
    · simp only [map_erase, h, if_false, List.filter_cons, decide_False, Bool.not_false, if_true]
      rw [ih]

theorem map_erase_comm {V : Type} (k1 k2 : String) (m : List (String × V)) :
    map_erase k1 (map_erase k2 m) = map_erase k2 (map_erase k1 m) := by
  simp only [map_erase_eq_filter, List.filter_filter]
  apply List.filter_congr
  intro x _
  exact Bool.and_comm _ _

theorem map_modify_modify {V : Type} (key : String) (f h : V → V) (m : List (String × V)) :
    map_modify key f (map_modify key h m) = map_modify key (fun v => f (h v)) m := by
  induction m with
  | nil => rfl
  | cons p rest ih =>
    obtain ⟨k, v⟩ := p
    by_cases h1 : k = key <;> simp [map_modify, h1, ih]

theorem Consumer.remove_pending_comm (c : Consumer) (a b : StreamID) :
    (c.remove_pending_message a).remove_pending_message b
      = (c.remove_pending_message b).remove_pending_message a := by
  simp only [Consumer.remove_pending_message, List.filter_filter]
  congr 1
  apply List.filter_congr
  intro x _
  exact Bool.and_comm _ _

namespace ConsumerGroup

theorem get_or_create_registered (now : Nat) (g : ConsumerGroup) (cn : String) (c : Consumer)
    (h : map_find cn g.consumers_ = some c) : g.get_or_create_consumer now cn = g := by
  unfold get_or_create_consumer
  rw [h]

/-- The state and the count after the acknowledgement of one ID. -/
theorem acknowledge_one (now : Nat) (g : ConsumerGroup) (cn : String) (id : StreamID) :
    g.acknowledge_messages now cn [id] =
      (if pel_owned g.pending_entries_ cn id.to_string = true then 1 else 0,
        ConsumerGroup.mk g.name_ g.last_delivered_id_
          (map_modify cn (fun c => c.remove_pending_message id)
            (g.get_or_create_consumer now cn).consumers_)
          (if pel_owned g.pending_entries_ cn id.to_string = true
            then map_erase id.to_string g.pending_entries_ else g.pending_entries_)) := by
  have hname : (g.get_or_create_consumer now cn).name_ = g.name_ := by
    unfold get_or_create_consumer; split <;> rfl
  unfold acknowledge_messages
  rw [ack_loop_cons, get_or_create_pel, get_or_create_last, hname]
  simp only [ack_loop, zero_add]

theorem acknowledge_one_registered (now : Nat) (g : ConsumerGroup) (cn : String)
    (id : StreamID) :
    ∃ c, map_find cn (g.acknowledge_messages now cn [id]).2.consumers_ = some c := by
  rw [acknowledge_one]
  simp only [map_find_modify, if_true, get_or_create_find]
  cases map_find cn g.consumers_ with
  | none => exact ⟨_, rfl⟩
  | some c => exact ⟨_, rfl⟩

/-- The state and the total count after two acknowledgements of one ID each
by the same consumer, the IDs being distinct. -/
theorem acknowledge_two (now1 now2 : Nat) (g : ConsumerGroup) (cn : String) (a b : StreamID)
    (hab : a ≠ b) :
    ((g.acknowledge_messages now1 cn [a]).2.acknowledge_messages now2 cn [b]).2 =
      ConsumerGroup.mk g.name_ g.last_delivered_id_
        (map_modify cn (fun c => (c.remove_pending_message a).remove_pending_message b)
          (g.get_or_create_consumer now1 cn).consumers_)
        (match pel_owned g.pending_entries_ cn a.to_string,
            pel_owned g.pending_entries_ cn b.to_string with
          | true, true => map_erase b.to_string (map_erase a.to_string g.pending_entries_)
          | true, false => map_erase a.to_string g.pending_entries_
          | false, true => map_erase b.to_string g.pending_entries_
          | false, false => g.pending_entries_) ∧
    (g.acknowledge_messages now1 cn [a]).1
        + ((g.acknowledge_messages now1 cn [a]).2.acknowledge_messages now2 cn [b]).1 =
      (if pel_owned g.pending_entries_ cn a.to_string = true then 1 else 0)
        + (if pel_owned g.pending_entries_ cn b.to_string = true then 1 else 0) := by
  obtain ⟨c1, hc1⟩ := acknowledge_one_registered now1 g cn a
  have hkey : b.to_string ≠ a.to_string := fun h => hab (StreamID.to_string_injective b a h).symm
  have hreg := get_or_create_registered now2 _ cn c1 hc1
  rw [acknowledge_one now2, hreg]
  rw [acknowledge_one now1]
  simp only [map_modify_modify]
  cases ha : pel_owned g.pending_entries_ cn a.to_string <;>
    cases hb : pel_owned g.pending_entries_ cn b.to_string <;>
    simp [pel_owned_erase, hkey, ha, hb]

/-- The state and the count after one call that acknowledges two distinct
IDs. -/
theorem acknowledge_pair (now1 : Nat) (g : ConsumerGroup) (cn : String) (a b : StreamID)
    (hab : a ≠ b) :
    (g.acknowledge_messages now1 cn [a, b]).2 =
      ConsumerGroup.mk g.name_ g.last_delivered_id_
        (map_modify cn (fun c => (c.remove_pending_message a).remove_pending_message b)
          (g.get_or_create_consumer now1 cn).consumers_)
        (match pel_owned g.pending_entries_ cn a.to_string,
            pel_owned g.pending_entries_ cn b.to_string with
          | true, true => map_erase b.to_string (map_erase a.to_string g.pending_entries_)
          | true, false => map_erase a.to_string g.pending_entries_
          | false, true => map_erase b.to_string g.pending_entries_
          | false, false => g.pending_entries_) ∧
    (g.acknowledge_messages now1 cn [a, b]).1 =
      (if pel_owned g.pending_entries_ cn a.to_string = true then 1 else 0)
        + (if pel_owned g.pending_entries_ cn b.to_string = true then 1 else 0) := by
  have hkey : b.to_string ≠ a.to_string := fun h => hab (StreamID.to_string_injective b a h).symm
  have hname : (g.get_or_create_consumer now1 cn).name_ = g.name_ := by
    unfold get_or_create_consumer; split <;> rfl
  unfold acknowledge_messages
  rw [ack_loop_cons, ack_loop_cons, get_or_create_pel, get_or_create_last, hname]
  simp only [ack_loop, map_modify_modify]
  cases ha : pel_owned g.pending_entries_ cn a.to_string <;>
    cases hb : pel_owned g.pending_entries_ cn b.to_string <;>
    simp [pel_owned_erase, hkey, ha, hb]

/-- C30: for every group state, consumer `c` and distinct IDs `a` and `b`,
acknowledging `[a]` and then `[b]` as `c` gives the same group state and the
same total count as acknowledging `[b]` and then `[a]`, and as the single
call with `[a, b]` (the first call of each sequence reads the clock `now1`
when it has to create the consumer). Moreover, for every ID `x` that is
pending with owner `o`, and every consumer name `n` other than `o`: of the
two calls `ack(o, [x])` and `ack(n, [x])`, in either order, the call of the
owner returns 1 and the other returns 0. -/
theorem C30_acknowledgements_commute (g : ConsumerGroup) (now1 now2 now3 : Nat) (c : String)
    (a b : StreamID) (hab : a ≠ b) :
    ((g.acknowledge_messages now1 c [a]).2.acknowledge_messages now2 c [b]).2
      = ((g.acknowledge_messages now1 c [b]).2.acknowledge_messages now3 c [a]).2 ∧
    (g.acknowledge_messages now1 c [a]).1
        + ((g.acknowledge_messages now1 c [a]).2.acknowledge_messages now2 c [b]).1
      = (g.acknowledge_messages now1 c [b]).1
        + ((g.acknowledge_messages now1 c [b]).2.acknowledge_messages now3 c [a]).1 ∧
    ((g.acknowledge_messages now1 c [a]).2.acknowledge_messages now2 c [b]).2
      = (g.acknowledge_messages now1 c [a, b]).2 ∧
    (g.acknowledge_messages now1 c [a]).1
        + ((g.acknowledge_messages now1 c [a]).2.acknowledge_messages now2 c [b]).1
      = (g.acknowledge_messages now1 c [a, b]).1 ∧
    (∀ (x : StreamID) (o n : String) (pe : PendingEntry),
      map_find x.to_string g.pending_entries_ = some pe → pe.consumer_name = o → n ≠ o →
      (g.acknowledge_messages now1 o [x]).1 = 1 ∧
      ((g.acknowledge_messages now1 o [x]).2.acknowledge_messages now2 n [x]).1 = 0 ∧
      (g.acknowledge_messages now1 n [x]).1 = 0 ∧
      ((g.acknowledge_messages now1 n [x]).2.acknowledge_messages now2 o [x]).1 = 1) := by
  have hab2 := acknowledge_two now1 now2 g c a b hab
  have hba2 := acknowledge_two now1 now3 g c b a (Ne.symm hab)
  have hp := acknowledge_pair now1 g c a b hab
  refine ⟨?_, ?_, ?_, ?_, ?_⟩
  · rw [hab2.1, hba2.1]
    have hfun : (fun c : Consumer => (c.remove_pending_message a).remove_pending_message b)
        = (fun c : Consumer => (c.remove_pending_message b).remove_pending_message a) :=
      funext (fun c => Consumer.remove_pending_comm c a b)
    rw [hfun]
    cases pel_owned g.pending_entries_ c a.to_string <;>
      cases pel_owned g.pending_entries_ c b.to_string <;>
      simp only [map_erase_comm]
  · rw [hab2.2, hba2.2]; omega
  · rw [hab2.1, hp.1]
  · rw [hab2.2, hp.2]
  · intro x o n pe hx ho hn
    have hoo : pel_owned g.pending_entries_ o x.to_string = true := by
      simp [pel_owned, hx, ho]
    have hno : pel_owned g.pending_entries_ n x.to_string = false := by
      simp only [pel_owned, hx, ho, decide_eq_false_iff_not]
      exact fun h => hn h.symm
    refine ⟨?_, ?_, ?_, ?_⟩
    · rw [acknowledge_one]; simp [hoo]
    · rw [acknowledge_one now2, acknowledge_one now1]
      simp [hoo, pel_owned_erase]
    · rw [acknowledge_one]; simp [hno]
    · rw [acknowledge_one now2, acknowledge_one now1]
      simp [hno, hoo]

end ConsumerGroup

/-- An instance of C30: on a fresh group, whose PEL is empty, and on the group
`after_one_delivery`, where `1000-0` is pending with owner `c1`, the IDs
`1000-0` and `2000-0` acknowledged by `c1` in both orders; and `1000-0`
acknowledged by `c2` and then by its owner `c1`. -/
theorem ConsumerGroup.C30_acknowledgements_commute_witness :
    (StreamID.mk 1000 0 ≠ StreamID.mk 2000 0) ∧
    (((ConsumerGroup.mk_new "g" ⟨0, 0⟩).acknowledge_messages 0 "c1"
        [⟨1000, 0⟩]).2.acknowledge_messages 0 "c1" [⟨2000, 0⟩]).2
      = (((ConsumerGroup.mk_new "g" ⟨0, 0⟩).acknowledge_messages 0 "c1"
          [⟨2000, 0⟩]).2.acknowledge_messages 0 "c1" [⟨1000, 0⟩]).2 ∧
    ((ConsumerGroup.after_one_delivery.acknowledge_messages 0 "c1" [⟨1000, 0⟩]).2.acknowledge_messages
        0 "c1" [⟨2000, 0⟩]).2
      = ((ConsumerGroup.after_one_delivery.acknowledge_messages 0 "c1"
          [⟨2000, 0⟩]).2.acknowledge_messages 0 "c1" [⟨1000, 0⟩]).2 ∧
    map_find (StreamID.mk 1000 0).to_string ConsumerGroup.after_one_delivery.pending_entries_
      = some ⟨⟨1000, 0⟩, "c1", 0, 1⟩ ∧
    ((ConsumerGroup.after_one_delivery.acknowledge_messages 0 "c2" [⟨1000, 0⟩]).2.acknowledge_messages
        0 "c1" [⟨1000, 0⟩]).1 = 1 :=
  ⟨by decide,
    (ConsumerGroup.C30_acknowledgements_commute (ConsumerGroup.mk_new "g" ⟨0, 0⟩) 0 0 0 "c1"
      ⟨1000, 0⟩ ⟨2000, 0⟩ (by decide)).1,
    (ConsumerGroup.C30_acknowledgements_commute ConsumerGroup.after_one_delivery 0 0 0 "c1"
      ⟨1000, 0⟩ ⟨2000, 0⟩ (by decide)).1,
    by decide,
    ((ConsumerGroup.C30_acknowledgements_commute ConsumerGroup.after_one_delivery 0 0 0 "c1"
      ⟨1000, 0⟩ ⟨2000, 0⟩ (by decide)).2.2.2.2 ⟨1000, 0⟩ "c1" "c2" ⟨⟨1000, 0⟩, "c1", 0, 1⟩
      (by decide) rfl (by decide)).2.2.2⟩

/-! ## C23: the round trip through `format_array` and `parse_command` -/

theorem foldl_append_eq {α : Type} (f : α → String) (l : List α) :
    ∀ init : String, (l.foldl (fun acc x => acc ++ f x) init).data
      = init.data ++ (l.map (fun x => (f x).data)).flatten := by
  induction l with
  | nil => intro init; simp
  | cons x rest ih =>
    intro init
    simp only [List.foldl_cons, ih, String.data_append, List.map_cons, List.flatten_cons,
      List.append_assoc]

theorem stoi_chars_digits (ds : List Char) (hne : ds ≠ []) (hd : all_digits ds)
    (hv : digits_value ds 0 ≤ 2147483647) :
    stoi_chars ds = .ok (Int.ofNat (digits_value ds 0)) := by
  cases ds with
  | nil => exact absurd rfl hne
  | cons c cs =>
    have hc : c_isdigit c = true := hd c (List.mem_cons_self _ _)
    have hs := isdigit_not_space c hc
    obtain ⟨h1, h2, _⟩ := isdigit_ne_dash c hc
    have hv2 : ¬ ((Int.ofNat (digits_value (c :: cs) 0) < -2147483648) ∨
        (Int.ofNat (digits_value (c :: cs) 0) > 2147483647)) := by
      simp only [Int.ofNat_eq_coe]
      omega
    simp only [stoi_chars, skip_space, hs, h1, h2, if_false, hc, if_true, hv2,
      Bool.false_eq_true]

theorem getD_append_cons (pre : List Char) (c : Char) (rest : List Char) (d : Char) :
    (pre ++ c :: rest).getD pre.length d = c := by
  induction pre with
  | nil => rfl
  | cons x xs ih => simpa using ih

namespace RedisProtocol

theorem find_crlf_cons (c d : Char) (rest : List Char) :
    find_crlf (c :: d :: rest) =
      if c = '\r' ∧ d = '\n' then some 0 else (find_crlf (d :: rest)).map (· + 1) := rfl

theorem find_crlf_digits (ds rest : List Char) (hd : all_digits ds) :
    find_crlf (ds ++ '\r' :: '\n' :: rest) = some ds.length := by
  induction ds with
  | nil => rw [List.nil_append, find_crlf_cons]; simp
  | cons c cs ih =>
    have hc : c_isdigit c = true := hd c (List.mem_cons_self _ _)
    have hcs : all_digits cs := fun d hd2 => hd d (List.mem_cons_of_mem _ hd2)
    have hcr : c ≠ '\r' := by
      intro e; rw [e] at hc; exact absurd hc (by decide)
    have h2 := ih hcs
    cases cs with
    | nil =>
      rw [List.nil_append] at h2
      rw [List.cons_append, List.nil_append, find_crlf_cons, h2]
      simp [hcr]
    | cons d ds2 =>
      rw [List.cons_append] at h2
      rw [List.cons_append, List.cons_append, find_crlf_cons, h2]
      simp [hcr]

theorem bulk_data (a : String) :
    (format_bulk_string a).data
      = '$' :: (Nat.toDigits 10 a.length ++ '\r' :: '\n' :: (a.data ++ ['\r', '\n'])) := by
  simp [format_bulk_string, String.data_append, repr_data]

theorem array_data (A : List String) :
    (format_array A).data
      = '*' :: (Nat.toDigits 10 A.length ++ '\r' :: '\n' ::
          (A.map (fun a => (format_bulk_string a).data)).flatten) := by
  unfold format_array
  rw [foldl_append_eq]
  simp [String.data_append, repr_data]

/-- The bulk string that `format_bulk_string` wrote at position `pre.length`
is read back, and the position moves to its end. -/
theorem parse_bulk_string_format (input : String) (pre rest : List Char) (a : String)
    (hin : input.data = pre ++ (format_bulk_string a).data ++ rest)
    (ha : a.length ≤ 2147483645) (hl : input.length < 18446744073709551616) :
    parse_bulk_string input pre.length
      = .ok (some (a, (pre ++ (format_bulk_string a).data).length)) := by
  obtain ⟨hd1, hd2, hd3⟩ := toDigits_spec a.length
  rw [bulk_data] at hin ⊢
  generalize hD : Nat.toDigits 10 a.length = D at hin hd1 hd2 hd3 ⊢
  have hal : a.length = a.data.length := rfl
  have hlen : input.length = pre.length + (1 + (D.length + (2 + (a.length + 2)))) + rest.length := by
    show input.data.length = _
    rw [hin, hal]
    simp only [List.length_append, List.length_cons, List.length_nil]
    omega
  have F1 : ¬ (pre.length ≥ input.length) := by omega
  have F2 : input.data.getD pre.length ' ' = '$' := by
    rw [hin, List.append_assoc, List.cons_append]
    exact getD_append_cons _ _ _ _
  have F3 : input.data.drop (pre.length + 1)
      = D ++ '\r' :: '\n' :: (a.data ++ ['\r', '\n'] ++ rest) := by
    rw [hin, List.append_assoc, List.drop_append_eq_append_drop]
    simp
  have F4 : find_from input (pre.length + 1) = some (D.length + (pre.length + 1)) := by
    unfold find_from
    rw [F3, find_crlf_digits _ _ hd1]
    rfl
  have F5 : substr input (pre.length + 1) (D.length + (pre.length + 1) - (pre.length + 1)) = D := by
    unfold substr
    rw [F3]
    simp
  have F6 : stoi_chars D = .ok (Int.ofNat a.length) := by
    rw [stoi_chars_digits D hd2 hd1 (by omega), hd3]
  have F7 : input.data.drop (D.length + (pre.length + 1) + 2) = a.data ++ (['\r', '\n'] ++ rest) := by
    have : D.length + (pre.length + 1) + 2 = (pre.length + 1) + (D.length + 2) := by omega
    rw [this, ← List.drop_drop, F3]
    rw [show D ++ '\r' :: '\n' :: (a.data ++ ['\r', '\n'] ++ rest)
      = (D ++ ['\r', '\n']) ++ (a.data ++ (['\r', '\n'] ++ rest)) by simp]
    rw [List.drop_append_eq_append_drop]
    simp
  have hne : ¬ ((Int.ofNat a.length) = -1) := by
    simp only [Int.ofNat_eq_coe]; omega
  have F8 : ((Int.ofNat (D.length + (pre.length + 1) + 2) + Int.ofNat a.length)
      % 18446744073709551616).toNat = D.length + (pre.length + 1) + 2 + a.length := by
    simp only [Int.ofNat_eq_coe]
    omega
  have F9 : ¬ (Int.ofNat a.length + 2 > 2147483647) := by
    simp only [Int.ofNat_eq_coe]; omega
  have F10 : ((Int.ofNat a.length) % 18446744073709551616).toNat = a.length := by
    simp only [Int.ofNat_eq_coe]
    omega
  have F11 : ((Int.ofNat (D.length + (pre.length + 1) + 2) + (Int.ofNat a.length + 2))
      % 18446744073709551616).toNat = D.length + (pre.length + 1) + 2 + a.length + 2 := by
    simp only [Int.ofNat_eq_coe]
    omega
  have F12 : ¬ (D.length + (pre.length + 1) + 2 + a.length > input.length) := by omega
  unfold parse_bulk_string
  simp only [F1, F2, ne_eq, not_true_eq_false, or_self, if_false, F4, F5, F6, hne, F8, F12, F9,
    F10, F11]
  unfold substr
  rw [F7]
  have htake : List.take a.length (a.data ++ (['\r', '\n'] ++ rest)) = a.data := by
    rw [hal, List.take_append_eq_append_take]
    simp
  rw [htake]
  have hpos : D.length + (pre.length + 1) + 2 + a.length + 2
      = (pre ++ '$' :: (D ++ '\r' :: '\n' :: (a.data ++ ['\r', '\n']))).length := by
    rw [hal]
    simp only [List.length_append, List.length_cons, List.length_nil]
    omega
  rw [hpos]

/-- The elements that `format_bulk_string` wrote one after the other from
position `pre.length` on are read back. -/
theorem parse_elements_format (input : String) (A : List String) :
    ∀ (pre : List Char),
      input.data = pre ++ (A.map (fun a => (format_bulk_string a).data)).flatten →
      (∀ a ∈ A, a.length ≤ 2147483645) → input.length < 18446744073709551616 →
      parse_elements input A.length pre.length = .ok (some A) := by
  induction A with
  | nil => intro pre _ _ _; rfl
  | cons a rest ih =>
    intro pre hin hA hl
    simp only [List.map_cons, List.flatten_cons] at hin
    have hin2 : input.data = pre ++ (format_bulk_string a).data
        ++ (rest.map (fun a => (format_bulk_string a).data)).flatten := by
      rw [hin, List.append_assoc]
    have hb := parse_bulk_string_format input pre _ a hin2 (hA a (List.mem_cons_self _ _)) hl
    have hlen : ¬ (pre.length ≥ input.length) := by
      have : input.length = (pre ++ (format_bulk_string a).data
        ++ (rest.map (fun a => (format_bulk_string a).data)).flatten).length := by
        rw [← hin2]; rfl
      rw [this, bulk_data]
      simp only [List.length_append, List.length_cons]
      omega
    have hch : input.data.getD pre.length ' ' = '$' := by
      rw [hin2, bulk_data, List.append_assoc, List.cons_append]
      exact getD_append_cons _ _ _ _
    have hrest := ih (pre ++ (format_bulk_string a).data) hin2
      (fun x hx => hA x (List.mem_cons_of_mem _ hx)) hl
    simp only [List.length_cons, parse_elements, hlen, if_false, hch, if_true, hb, hrest]

end RedisProtocol
namespace RedisProtocol

/-- The header `*<digits>\r\n` at the start of the input is read, and the
element loop starts after it. -/
theorem parse_array_header (input : String) (D rest : List Char) (n : Nat)
    (hin : input.data = '*' :: (D ++ '\r' :: '\n' :: rest))
    (hd : all_digits D) (hne : D ≠ []) (hv : digits_value D 0 = n) (hn : n ≤ 2147483647) :
    parse_array input 0 = parse_elements input n (D.length + 3) := by
  have hlen : input.length = 1 + (D.length + (2 + rest.length)) := by
    show input.data.length = _
    rw [hin]
    simp only [List.length_append, List.length_cons]
    omega
  have F1 : ¬ (0 ≥ input.length) := by omega
  have F2 : input.data.getD 0 ' ' = '*' := by rw [hin]; rfl
  have F3 : input.data.drop (0 + 1) = D ++ '\r' :: '\n' :: rest := by rw [hin]; rfl
  have F4 : find_from input (0 + 1) = some (D.length + (0 + 1)) := by
    unfold find_from
    rw [F3, find_crlf_digits _ _ hd]
    rfl
  have F5 : substr input (0 + 1) (D.length + (0 + 1) - (0 + 1)) = D := by
    unfold substr
    rw [F3]
    simp
  have F6 : stoi_chars D = .ok (Int.ofNat n) := by
    rw [stoi_chars_digits D hne hd (by omega), hv]
  have h1 : ¬ ((n : Int) = -1) := by omega
  have h2 : ¬ ((n : Int) < 0) := by omega
  unfold parse_array
  simp only [F1, F2, ne_eq, not_true_eq_false, or_self, if_false, F4, F5, F6, h1, h2,
    Int.ofNat_eq_coe, Int.toNat_ofNat]

/-- When the length text of the bulk string at position `pre.length` is
refused by `std::stoi`, `parse_bulk_string` throws that exception. -/
theorem parse_bulk_string_length_error (input : String) (pre D rest : List Char) (e : Exception)
    (hin : input.data = pre ++ '$' :: (D ++ '\r' :: '\n' :: rest))
    (hd : all_digits D) (he : stoi_chars D = .error e) :
    parse_bulk_string input pre.length = .error e := by
  have hlen : input.length = pre.length + (1 + (D.length + (2 + rest.length))) := by
    show input.data.length = _
    rw [hin]
    simp only [List.length_append, List.length_cons]
    omega
  have F1 : ¬ (pre.length ≥ input.length) := by omega
  have F2 : input.data.getD pre.length ' ' = '$' := by
    rw [hin]
    exact getD_append_cons _ _ _ _
  have F3 : input.data.drop (pre.length + 1) = D ++ '\r' :: '\n' :: rest := by
    rw [hin, List.drop_append_eq_append_drop]
    simp
  have F4 : find_from input (pre.length + 1) = some (D.length + (pre.length + 1)) := by
    unfold find_from
    rw [F3, find_crlf_digits _ _ hd]
    rfl
  have F5 : substr input (pre.length + 1) (D.length + (pre.length + 1) - (pre.length + 1)) = D := by
    unfold substr
    rw [F3]
    simp
  unfold parse_bulk_string
  simp only [F1, F2, ne_eq, not_true_eq_false, or_self, if_false, F4, F5, he]

theorem two_gib_length : two_gib_string.length = 2147483648 := by
  show (List.replicate 2147483648 'a').length = 2147483648
  exact List.length_replicate _ _

/-- A one-element array whose bulk string announces a length that `std::stoi`
refuses makes `parse_command` throw that exception. -/
theorem parse_command_length_error (input : String) (D rest : List Char) (e : Exception)
    (hin : input.data
      = '*' :: (['1'] ++ '\r' :: '\n' :: ('$' :: (D ++ '\r' :: '\n' :: rest))))
    (hd : all_digits D) (he : stoi_chars D = .error e) :
    parse_command input = .error e := by
  have hne : input.data ≠ [] := by rw [hin]; simp
  have h0 : input.data.getD 0 ' ' = '*' := by rw [hin]; rfl
  have hhead := parse_array_header input ['1'] _ 1 hin (by decide) (by decide) (by decide)
    (by decide)
  have hin2 : input.data = ['*', '1', '\r', '\n'] ++ '$' :: (D ++ '\r' :: '\n' :: rest) := by
    rw [hin]; rfl
  have hbulk : parse_bulk_string input 4 = .error e :=
    parse_bulk_string_length_error input ['*', '1', '\r', '\n'] D rest e hin2 hd he
  have hlen : ¬ (4 ≥ input.length) := by
    have hl : input.length = input.data.length := rfl
    rw [hl, hin2]
    simp only [List.length_append, List.length_cons]
    omega
  have hch : input.data.getD 4 ' ' = '$' := by
    rw [hin2]
    exact getD_append_cons ['*', '1', '\r', '\n'] _ _ _
  unfold parse_command
  rw [if_neg hne, if_pos h0, hhead]
  simp only [List.length_singleton, Nat.reduceAdd, parse_elements, hlen, if_false, hch, if_true,
    hbulk]

/-- C23 (counterexample): for the one-element list whose element is a string
of 2^31 bytes, `format_array` writes the length `2147483648`, which
`std::stoi` refuses, so `parse_command` throws `std::out_of_range` instead of
returning the list. -/
theorem C23_counterexample :
    two_gib_string.length = 2147483648 ∧
    parse_command (format_array [two_gib_string]) = .error (.out_of_range "stoi") := by
  refine ⟨two_gib_length, ?_⟩
  have hdata : (format_array [two_gib_string]).data
      = '*' :: (['1'] ++ '\r' :: '\n' ::
        ('$' :: (Nat.toDigits 10 2147483648 ++ '\r' :: '\n' ::
          (two_gib_string.data ++ ['\r', '\n'])))) := by
    rw [array_data]
    simp only [List.map_cons, List.map_nil, List.flatten_cons, List.flatten_nil, List.append_nil,
      bulk_data, two_gib_length, List.length_singleton]
    rfl
  exact parse_command_length_error _ _ _ _ hdata (toDigits_spec 2147483648).1 (by decide)

/-- C23 (amended): for every list `A` of at most 2^31-1 strings, each of at
most 2^31-3 bytes (any bytes, the empty string and the empty list
included), whose encoding is shorter than 2^64 bytes,
`parse_command(format_array(A))` returns exactly `A`. -/
theorem C23_round_trip (A : List String) (hn : A.length ≤ 2147483647)
    (hA : ∀ a ∈ A, a.length ≤ 2147483645)
    (hl : (format_array A).length < 18446744073709551616) :
    parse_command (format_array A) = .ok (some A) := by
  obtain ⟨hd1, hd2, hd3⟩ := toDigits_spec A.length
  have hdata := array_data A
  have hne : (format_array A).data ≠ [] := by rw [hdata]; simp
  have h0 : (format_array A).data.getD 0 ' ' = '*' := by rw [hdata]; rfl
  have hhead := parse_array_header (format_array A) _ _ A.length hdata hd1 hd2 hd3 hn
  have hdata2 : (format_array A).data
      = ('*' :: (Nat.toDigits 10 A.length ++ ['\r', '\n']))
        ++ (A.map (fun a => (format_bulk_string a).data)).flatten := by
    rw [hdata]; simp
  have hel := parse_elements_format (format_array A) A _ hdata2 hA hl
  have hpos : ('*' :: (Nat.toDigits 10 A.length ++ ['\r', '\n'])).length
      = (Nat.toDigits 10 A.length).length + 3 := by
    simp only [List.length_append, List.length_cons, List.length_nil]
  rw [hpos] at hel
  unfold parse_command
  rw [if_neg hne, if_pos h0, hhead, hel]

end RedisProtocol

/-- An instance of C23: the empty list, and a list whose elements are empty or
hold CR, LF, `$`, `*` and spaces. -/
theorem RedisProtocol.C23_round_trip_witness :
    RedisProtocol.parse_command (RedisProtocol.format_array []) = .ok (some []) ∧
    RedisProtocol.parse_command (RedisProtocol.format_array ["", "a\r\nb", "$5 *", "\r\n"])
      = .ok (some ["", "a\r\nb", "$5 *", "\r\n"]) :=
  ⟨RedisProtocol.C23_round_trip [] (by decide) (by decide) (by decide),
    RedisProtocol.C23_round_trip ["", "a\r\nb", "$5 *", "\r\n"] (by decide) (by decide)
      (by decide)⟩

/-! ## C27: unbalanced lists after `STREAMS` -/

/-- C27: on the server of scenario S1 with group `g` (cursor `0-0`, empty
PEL), `XREAD STREAMS s x 0-0`, with three tokens after `STREAMS`, is refused
and changes nothing; `XREADGROUP GROUP g c1 STREAMS s x >`, with three tokens
after `STREAMS` too, is not refused: the reply is the one of
`xreadgroup(g, c1, [s], -1)`, an array, the cursor of `g` moves to `1001-0`
and `c1` owns the pending record `1000-0`. -/
theorem RedisServer.C27_xreadgroup_odd_list_delivers :
    RedisServer.process_command RedisServer.after_S1_group (fun _ _ => 0) "XREAD STREAMS s x 0-0"
      = some ("-ERR Unbalanced XREAD list of streams: for each stream key an ID or $ must be specified\r\n",
          RedisServer.after_S1_group) ∧
    RedisServer.after_S1_group.cursor "s" "g" = some ⟨0, 0⟩ ∧
    RedisServer.process_command RedisServer.after_S1_group (fun _ _ => 0)
        "XREADGROUP GROUP g c1 STREAMS s x >"
      = some ((RedisServer.after_S1_group.xreadgroup (fun _ _ => 0) "g" "c1" ["s"] (-1)).2.1,
          (RedisServer.after_S1_group.xreadgroup (fun _ _ => 0) "g" "c1" ["s"] (-1)).2.2) ∧
    ((RedisServer.process_command RedisServer.after_S1_group (fun _ _ => 0)
        "XREADGROUP GROUP g c1 STREAMS s x >").map (fun r => r.1.data.take 4))
      = some ['*', '1', '\r', '\n'] ∧
    ((RedisServer.process_command RedisServer.after_S1_group (fun _ _ => 0)
        "XREADGROUP GROUP g c1 STREAMS s x >").map (fun r => r.2.cursor "s" "g"))
      = some (some ⟨1001, 0⟩) ∧
    ((RedisServer.process_command RedisServer.after_S1_group (fun _ _ => 0)
        "XREADGROUP GROUP g c1 STREAMS s x >").map
        (fun r => ((r.2.stream_or_new "s").get_consumer_group "g").map
          (fun g => pel_owned g.pending_entries_ "c1" "1000-0")))
      = some (some true) := by
  decide

/-! ## `process_command`: the dispatch -/

namespace RedisServer

open RedisProtocol

theorem process_command_of_parts (srv : RedisServer) (clk : Nat → Nat → Nat) (input : String)
    (parts : List String) (h : parse_command input = .ok (some parts)) :
    process_command srv clk input =
      match process_parts srv clk parts with
      | .error e => some (format_error ("ERR " ++ e.what), srv)
      | .ok r => r := by
  unfold process_command
  rw [h]

theorem process_parts_xread (srv : RedisServer) (clk : Nat → Nat → Nat) (cmd0 : String)
    (args : List String) (h : to_upper cmd0 = "XREAD") :
    process_parts srv clk (cmd0 :: args) =
      match scan_options args 1 (-1) (-1) with
      | .error e => .error e
      | .ok (streams_pos, count, _) =>
        if streams_pos = 0 ∨ streams_pos ≥ (cmd0 :: args).length then
          .ok (some (format_error "ERR wrong number of arguments for 'xread' command", srv))
        else
          if ((cmd0 :: args).length - streams_pos) / 2 = 0
              ∨ ((cmd0 :: args).length - streams_pos) % 2 ≠ 0 then
            .ok (some (format_error
              "ERR Unbalanced XREAD list of streams: for each stream key an ID or $ must be specified",
              srv))
          else
            .ok ((srv.xread (fun i => clk i 0)
              (((cmd0 :: args).drop streams_pos).take (((cmd0 :: args).length - streams_pos) / 2))
              ((cmd0 :: args).drop (streams_pos + ((cmd0 :: args).length - streams_pos) / 2))
              count).map (fun reply => (reply, srv))) := by
  simp only [process_parts, h]
  rfl

theorem process_parts_xreadgroup (srv : RedisServer) (clk : Nat → Nat → Nat)
    (cmd0 x group_name consumer_name : String) (rest : List String)
    (h : to_upper cmd0 = "XREADGROUP") (hlen : 2 ≤ rest.length) :
    process_parts srv clk (cmd0 :: x :: group_name :: consumer_name :: rest) =
      match scan_options rest 4 (-1) (-1) with
      | .error e => .error e
      | .ok (streams_pos, count, _) =>
        if streams_pos = 0 ∨ streams_pos ≥ rest.length + 4 then
          .ok (some (format_error "ERR wrong number of arguments for 'xreadgroup' command", srv))
        else
          if (rest.length + 4 - streams_pos) / 2 = 0 then
            .ok (some (format_error "ERR Unbalanced XREADGROUP list of streams", srv))
          else
            .ok (some
              ((srv.xreadgroup clk group_name consumer_name
                (((cmd0 :: x :: group_name :: consumer_name :: rest).drop streams_pos).take
                  ((rest.length + 4 - streams_pos) / 2)) count).2.1,
               (srv.xreadgroup clk group_name consumer_name
                (((cmd0 :: x :: group_name :: consumer_name :: rest).drop streams_pos).take
                  ((rest.length + 4 - streams_pos) / 2)) count).2.2)) := by
  have h6 : ¬ (rest.length + 1 + 1 + 1 + 1 < 6) := by omega
  simp only [process_parts, h, List.length_cons, h6]
  rfl

theorem process_parts_xrange (srv : RedisServer) (clk : Nat → Nat → Nat) (cmd0 : String)
    (args : List String) (h : to_upper cmd0 = "XRANGE") :
    process_parts srv clk (cmd0 :: args) =
      match srv.process_command_xrange (clk 0 0) (clk 0 1) (cmd0 :: args) with
      | .error e => .error e
      | .ok reply => .ok (reply.map (fun r => (r, srv))) := by
  simp only [process_parts, h]
  rfl

theorem process_parts_xadd_eq (srv : RedisServer) (clk : Nat → Nat → Nat) (cmd0 : String)
    (args : List String) (h : to_upper cmd0 = "XADD") :
    process_parts srv clk (cmd0 :: args) =
      if (cmd0 :: args).length < 4 ∨ ((cmd0 :: args).length - 3) % 2 ≠ 0 then
        .ok (some (format_error "ERR wrong number of arguments for 'xadd' command", srv))
      else
        match args with
        | stream_name :: id :: rest =>
          .ok ((field_pairs rest).map
            (fun fields => srv.xadd (clk 0 0) (clk 0 1) stream_name id fields))
        | _ => .ok none := by
  simp only [process_parts, h]
  rfl

theorem field_pairs_some : ∀ (l : List String), l.length % 2 = 0 → ∃ fields, field_pairs l = some fields
  | [], _ => ⟨[], rfl⟩
  | [_], h => by simp at h
  | f :: v :: rest, h => by
    have h2 : rest.length % 2 = 0 := by
      simp only [List.length_cons] at h
      omega
    obtain ⟨fields, hf⟩ := field_pairs_some rest h2
    exact ⟨(f, v) :: fields, by simp [field_pairs, hf]⟩

theorem field_pairs_even : ∀ (l : List String) (fields : List (String × String)),
    field_pairs l = some fields → l.length % 2 = 0
  | [], _, _ => rfl
  | [_], _, h => by simp [field_pairs] at h
  | f :: v :: rest, fields, h => by
    cases hr : field_pairs rest with
    | none => simp [field_pairs, hr] at h
    | some fs =>
      have := field_pairs_even rest fs hr
      simp only [List.length_cons]
      omega

theorem process_parts_xadd (srv : RedisServer) (clk : Nat → Nat → Nat)
    (cmd0 stream_name id : String) (rest : List String) (fields : List (String × String))
    (h : to_upper cmd0 = "XADD") (hne : rest ≠ []) (hf : field_pairs rest = some fields) :
    process_parts srv clk (cmd0 :: stream_name :: id :: rest) =
      .ok (some (srv.xadd (clk 0 0) (clk 0 1) stream_name id fields)) := by
  have hev := field_pairs_even rest fields hf
  have hpos : 0 < rest.length := List.length_pos.mpr hne
  have h4 : ¬ (rest.length + 1 + 1 + 1 < 4 ∨ (rest.length + 1 + 1 + 1 - 3) % 2 ≠ 0) := by
    omega
  simp only [process_parts, h, List.length_cons, h4, hf]
  rfl

end RedisServer

/-! ## The option loop of XREAD and XREADGROUP -/

namespace RedisServer

open RedisProtocol

theorem scan_options_cons (arg v : String) (rest2 : List String) (i : Nat) (count block : Int) :
    scan_options (arg :: v :: rest2) i count block =
      if to_upper arg = "STREAMS" then .ok (i + 1, count, block)
      else if to_upper arg = "COUNT" then
        match stoi v with
        | .error e => .error e
        | .ok n => scan_options rest2 (i + 2) n block
      else if to_upper arg = "BLOCK" then
        match stoi v with
        | .error e => .error e
        | .ok n => scan_options rest2 (i + 2) count n
      else scan_options (v :: rest2) (i + 1) count block := by
  simp only [scan_options]

/-- The option loop passes over a prefix of tokens that `options_passed`
accepts and goes on with what follows. -/
theorem scan_options_passed : ∀ (pre tail : List String) (i : Nat) (count block : Int),
    options_passed pre = true →
    ∃ i2 count2 block2,
      scan_options (pre ++ tail) i count block = scan_options tail i2 count2 block2
  | [], tail, i, count, block, _ => ⟨i, count, block, rfl⟩
  | [arg], tail, i, count, block, h => by
    unfold options_passed at h
    by_cases hs : to_upper arg = "STREAMS"
    · simp [hs] at h
    · by_cases ho : to_upper arg = "COUNT" ∨ to_upper arg = "BLOCK"
      · simp [hs, ho] at h
      · have h1 : to_upper arg ≠ "COUNT" := fun e => ho (Or.inl e)
        have h2 : to_upper arg ≠ "BLOCK" := fun e => ho (Or.inr e)
        cases tail with
        | nil => exact ⟨i, count, block, by simp [scan_options, hs]⟩
        | cons v r2 =>
          refine ⟨i + 1, count, block, ?_⟩
          rw [List.singleton_append, scan_options_cons]
          simp only [hs, h1, h2, if_false]
  | arg :: v :: rest2, tail, i, count, block, h => by
    unfold options_passed at h
    by_cases hs : to_upper arg = "STREAMS"
    · simp [hs] at h
    · by_cases ho : to_upper arg = "COUNT" ∨ to_upper arg = "BLOCK"
      · simp only [hs, ho, if_false, if_true, Bool.and_eq_true] at h
        cases hv : stoi v with
        | error e => rw [hv] at h; simp at h
        | ok n =>
          rcases ho with hc | hb
          · obtain ⟨i2, c2, b2, hrec⟩ := scan_options_passed rest2 tail (i + 2) n block h.2
            refine ⟨i2, c2, b2, ?_⟩
            rw [List.cons_append, List.cons_append, scan_options_cons]
            simp only [hs, hc, if_false, if_true, hv]
            exact hrec
          · by_cases hc : to_upper arg = "COUNT"
            · obtain ⟨i2, c2, b2, hrec⟩ := scan_options_passed rest2 tail (i + 2) n block h.2
              refine ⟨i2, c2, b2, ?_⟩
              rw [List.cons_append, List.cons_append, scan_options_cons]
              simp only [hs, hc, if_false, if_true, hv]
              exact hrec
            · obtain ⟨i2, c2, b2, hrec⟩ := scan_options_passed rest2 tail (i + 2) count n h.2
              refine ⟨i2, c2, b2, ?_⟩
              rw [List.cons_append, List.cons_append, scan_options_cons]
              simp only [hs, hc, hb, if_false, if_true, hv]
              exact hrec
      · have h1 : to_upper arg ≠ "COUNT" := fun e => ho (Or.inl e)
        have h2 : to_upper arg ≠ "BLOCK" := fun e => ho (Or.inr e)
        simp only [hs, ho, if_false] at h
        obtain ⟨i2, c2, b2, hrec⟩ := scan_options_passed (v :: rest2) tail (i + 1) count block h
        refine ⟨i2, c2, b2, ?_⟩
        rw [List.cons_append, List.cons_append, scan_options_cons]
        simp only [hs, h1, h2, if_false]
        exact hrec

/-- The option loop throws when, after tokens it passes over, it reads a
COUNT or BLOCK value that `std::stoi` refuses. -/
theorem scan_options_throws (pre : List String) (arg v : String) (rest : List String)
    (i : Nat) (count block : Int) (e : Exception) (hpre : options_passed pre = true)
    (harg : to_upper arg = "COUNT" ∨ to_upper arg = "BLOCK") (hv : stoi v = .error e) :
    scan_options (pre ++ arg :: v :: rest) i count block = .error e := by
  obtain ⟨i2, c2, b2, h⟩ := scan_options_passed pre (arg :: v :: rest) i count block hpre
  have hns : to_upper arg ≠ "STREAMS" := by
    rcases harg with h | h <;> rw [h] <;> decide
  rw [h, scan_options_cons, if_neg hns]
  by_cases hc : to_upper arg = "COUNT"
  · rw [if_pos hc, hv]
  · rw [if_neg hc, if_pos (harg.resolve_left hc), hv]

/-- The option loop throws only in that case. -/
theorem scan_options_error : ∀ (args : List String) (i : Nat) (count block : Int)
    (e : Exception), scan_options args i count block = .error e →
    ∃ pre arg v rest, args = pre ++ arg :: v :: rest ∧ options_passed pre = true ∧
      (to_upper arg = "COUNT" ∨ to_upper arg = "BLOCK") ∧ stoi v = .error e
  | [], i, count, block, e, h => by simp [scan_options] at h
  | [arg], i, count, block, e, h => by
    simp only [scan_options] at h
    split at h <;> exact Except.noConfusion h
  | arg :: v :: rest2, i, count, block, e, h => by
    rw [scan_options_cons] at h
    by_cases hs : to_upper arg = "STREAMS"
    · rw [if_pos hs] at h; exact Except.noConfusion h
    · rw [if_neg hs] at h
      by_cases hc : to_upper arg = "COUNT"
      · rw [if_pos hc] at h
        cases hv : stoi v with
        | error e2 =>
          rw [hv] at h
          simp only [Except.error.injEq] at h
          exact ⟨[], arg, v, rest2, rfl, rfl, Or.inl hc, by rw [hv, h]⟩
        | ok n =>
          rw [hv] at h
          obtain ⟨pre, a2, v2, r2, h1, h2, h3, h4⟩ := scan_options_error rest2 (i + 2) n block e h
          refine ⟨arg :: v :: pre, a2, v2, r2, by rw [h1]; rfl, ?_, h3, h4⟩
          unfold options_passed
          simp only [hs, hc, true_or, if_false, if_true, hv, Bool.true_and]
          exact h2
      · rw [if_neg hc] at h
        by_cases hb : to_upper arg = "BLOCK"
        · rw [if_pos hb] at h
          cases hv : stoi v with
          | error e2 =>
            rw [hv] at h
            simp only [Except.error.injEq] at h
            exact ⟨[], arg, v, rest2, rfl, rfl, Or.inr hb, by rw [hv, h]⟩
          | ok n =>
            rw [hv] at h
            obtain ⟨pre, a2, v2, r2, h1, h2, h3, h4⟩ :=
              scan_options_error rest2 (i + 2) count n e h
            refine ⟨arg :: v :: pre, a2, v2, r2, by rw [h1]; rfl, ?_, h3, h4⟩
            unfold options_passed
            simp only [hs, hb, or_true, if_false, if_true, hv, Bool.true_and]
            exact h2
        · rw [if_neg hb] at h
          obtain ⟨pre, a2, v2, r2, h1, h2, h3, h4⟩ :=
            scan_options_error (v :: rest2) (i + 1) count block e h
          refine ⟨arg :: pre, a2, v2, r2, by rw [h1]; rfl, ?_, h3, h4⟩
          unfold options_passed
          simp only [hs, hc, hb, or_self, if_false]
          exact h2

end RedisServer

/-! ## C26: arguments that fail to parse -/

namespace RedisProtocol

theorem format_error_head (m : String) : (format_error m).data.head? = some '-' := by
  simp [format_error, String.data_append]

theorem format_integer_head (v : Int) : (format_integer v).data.head? = some ':' := by
  simp [format_integer, String.data_append]

theorem foldl_append_init (l : List String) :
    ∀ init : String, l.foldl (fun r s => r ++ s) init = init ++ l.foldl (fun r s => r ++ s) "" := by
  induction l with
  | nil => intro init; simp
  | cons a rest ih =>
    intro init
    simp only [List.foldl_cons]
    rw [ih (init ++ a), ih ("" ++ a)]
    simp [String.append_assoc]

theorem join_cons (a : String) (l : List String) :
    String.join (a :: l) = a ++ String.join l := by
  unfold String.join
  simp only [List.foldl_cons]
  rw [foldl_append_init]
  simp

theorem foldl_append_join {α : Type} (f : α → String) (l : List α) :
    ∀ init : String, l.foldl (fun acc x => acc ++ f x) init = init ++ String.join (l.map f) := by
  induction l with
  | nil => intro init; simp [String.join]
  | cons x rest ih =>
    intro init
    simp only [List.foldl_cons, List.map_cons, ih, join_cons, String.append_assoc]

/-- The reply built from a non-empty `results` vector: the header `*<n>` and
then, for each item in order, `*2`, the stream name as a bulk string and the
entries. -/
theorem format_stream_read_response_eq (r : List (String × List StreamEntry)) :
    format_stream_read_response r =
      if r = [] then "*-1\r\n"
      else "*" ++ Nat.repr r.length ++ "\r\n" ++ String.join (r.map (fun p =>
        "*2\r\n" ++ format_bulk_string p.1 ++ format_stream_entries p.2)) := by
  unfold format_stream_read_response
  cases r with
  | nil => rfl
  | cons p rest =>
    have hfun : (fun (acc : String) (p : String × List StreamEntry) =>
          acc ++ "*2\r\n" ++ format_bulk_string p.1 ++ format_stream_entries p.2)
        = (fun acc p => acc ++ ("*2\r\n" ++ format_bulk_string p.1 ++ format_stream_entries p.2)) := by
      funext acc p
      simp [String.append_assoc]
    simp only [List.isEmpty_cons, Bool.false_eq_true, if_false, hfun, reduceCtorEq]
    rw [foldl_append_join]

theorem format_stream_read_response_head (r : List (String × List StreamEntry)) :
    (format_stream_read_response r).data.head? = some '*' := by
  rw [format_stream_read_response_eq]
  split
  · rfl
  · simp [String.data_append]

end RedisProtocol

namespace RedisServer

open RedisProtocol

theorem xread_head (srv : RedisServer) (clk : Nat → Nat) (streams ids : List String)
    (count : Int) (r : String) (h : srv.xread clk streams ids count = some r) :
    r.data.head? = some '*' := by
  unfold xread at h
  cases hl : xread_loop srv count clk streams ids 0 with
  | none => rw [hl] at h; exact Option.noConfusion h
  | some res =>
    rw [hl] at h
    simp only [Option.map_some', Option.some.injEq] at h
    rw [← h]
    exact format_stream_read_response_head res

theorem xdel_head (srv : RedisServer) (clk : Nat → Nat) (key : String) (ids : List String) :
    (srv.xdel clk key ids).1.data.head? = some ':' := by
  unfold xdel
  split <;> exact format_integer_head _

theorem xack_head (srv : RedisServer) (clk_parse clk_ack : Nat → Nat) (key group : String)
    (ids : List String) : (srv.xack clk_parse clk_ack key group ids).1.data.head? = some ':' := by
  unfold xack
  split
  · exact format_integer_head _
  · split <;> exact format_integer_head _

/-- C26 (counterexample): on the server of scenario S1, where stream `s`
exists, the ID argument of `XREAD STREAMS s not-an-id` fails to parse, and
the reply is the null array, not an error reply. -/
theorem C26_counterexample :
    (∃ st, map_find "s" after_S1.streams_ = some st) ∧
    StreamID.from_string 0 "not-an-id" = .error (.invalid_argument "stoull") ∧
    process_command after_S1 (fun _ _ => 0) "XREAD STREAMS s not-an-id"
      = some ("*-1\r\n", after_S1) := by
  refine ⟨⟨_, rfl⟩, by decide, by decide⟩

/-- C26 (amended): an exception that leaves the body of `process_command`
gives the reply `-ERR <what>`, a frame that begins with `-`, and leaves the
server as it was. This is the case when `std::stoi` refuses a COUNT or BLOCK
value read by the option loop of XREAD or XREADGROUP, at whatever position
the loop reads it (after tokens it passes over), and the loop throws in no
other case; and when `std::stoi` refuses the COUNT value of XRANGE. When
`from_string` refuses the ID of an XADD the reply is an error reply:
`-ERR <what>`, or the arity error when the field list is empty or odd. When
`from_string` refuses the start or end ID of an XRANGE with both IDs on an
existing stream the reply is an error reply: the arity error for more than
six tokens, `-ERR <what>` of `std::stoi` when the COUNT value is refused, and
`-ERR <what>` of `from_string` otherwise. XREAD, XDEL and XACK skip the IDs
that fail to parse (XREADGROUP does not parse its ID arguments): the reply of
XREAD begins with `*`, the replies of XDEL and XACK with `:`. -/
theorem C26_parse_failures (srv : RedisServer) (clk : Nat → Nat → Nat) (input : String)
    (parts : List String) (e : Exception) (hparse : parse_command input = .ok (some parts)) :
    (process_parts srv clk parts = .error e →
      process_command srv clk input = some (format_error ("ERR " ++ e.what), srv)) ∧
    (format_error ("ERR " ++ e.what)).data.head? = some '-' ∧
    (∀ pre arg v rest i count block, options_passed pre = true →
      (to_upper arg = "COUNT" ∨ to_upper arg = "BLOCK") → stoi v = .error e →
      scan_options (pre ++ arg :: v :: rest) i count block = .error e) ∧
    (∀ args i count block, scan_options args i count block = .error e →
      ∃ pre arg v rest, args = pre ++ arg :: v :: rest ∧ options_passed pre = true ∧
        (to_upper arg = "COUNT" ∨ to_upper arg = "BLOCK") ∧ stoi v = .error e) ∧
    (∀ cmd0 args, parts = cmd0 :: args → to_upper cmd0 = "XREAD" →
      scan_options args 1 (-1) (-1) = .error e → process_parts srv clk parts = .error e) ∧
    (∀ cmd0 pre arg v rest, parts = cmd0 :: (pre ++ arg :: v :: rest) →
      to_upper cmd0 = "XREAD" → options_passed pre = true →
      (to_upper arg = "COUNT" ∨ to_upper arg = "BLOCK") → stoi v = .error e →
      process_command srv clk input = some (format_error ("ERR " ++ e.what), srv)) ∧
    (∀ cmd0 x g c rest, parts = cmd0 :: x :: g :: c :: rest → 2 ≤ rest.length →
      to_upper cmd0 = "XREADGROUP" →
      scan_options rest 4 (-1) (-1) = .error e → process_parts srv clk parts = .error e) ∧
    (∀ cmd0 x g c pre arg v rest, parts = cmd0 :: x :: g :: c :: (pre ++ arg :: v :: rest) →
      to_upper cmd0 = "XREADGROUP" → options_passed pre = true →
      (to_upper arg = "COUNT" ∨ to_upper arg = "BLOCK") → stoi v = .error e →
      process_command srv clk input = some (format_error ("ERR " ++ e.what), srv)) ∧
    (∀ cmd0 key a b v, parts = [cmd0, key, a, b, "COUNT", v] → to_upper cmd0 = "XRANGE" →
      stoi v = .error e →
      process_parts srv clk parts = .error e ∧
        process_command srv clk input = some (format_error ("ERR " ++ e.what), srv)) ∧
    (∀ cmd0 key id rest, parts = cmd0 :: key :: id :: rest → to_upper cmd0 = "XADD" →
      StreamID.from_string (clk 0 0) id = .error e →
      (process_command srv clk input).map (fun r => r.1)
        = some (format_error
            (if rest = [] ∨ rest.length % 2 ≠ 0
              then "ERR wrong number of arguments for 'xadd' command"
              else "ERR " ++ e.what))) ∧
    (∀ cmd0 key a b rest st, parts = cmd0 :: key :: a :: b :: rest →
      to_upper cmd0 = "XRANGE" → map_find key srv.streams_ = some st →
      ((a ≠ "-" ∧ StreamID.from_string (clk 0 0) a = .error e) ∨
        ((a = "-" ∨ ∃ x, StreamID.from_string (clk 0 0) a = .ok x) ∧
          b ≠ "+" ∧ StreamID.from_string (clk 0 1) b = .error e)) →
      process_command srv clk input = some (format_error
        (if rest.length > 2 then "ERR wrong number of arguments for 'xrange' command"
          else "ERR " ++
            (match (if rest.length ≥ 2 ∧ rest.getD 0 "" = "COUNT"
                then stoi (rest.getD 1 "") else Except.ok (-1)) with
              | .ok _ => e
              | .error e2 => e2).what), srv)) ∧
    (∀ streams ids count r, srv.xread (clk 0) streams ids count = some r →
      r.data.head? = some '*') ∧
    (∀ key ids, (srv.xdel (clk 0) key ids).1.data.head? = some ':') ∧
    (∀ key group ids, (srv.xack (clk 0) (clk 1) key group ids).1.data.head? = some ':') := by
  have hpc := process_command_of_parts srv clk input parts hparse
  refine ⟨?_, format_error_head _, ?_, ?_, ?_, ?_, ?_, ?_, ?_, ?_, ?_,
    fun streams ids count r h => xread_head srv (clk 0) streams ids count r h,
    fun key ids => xdel_head srv (clk 0) key ids,
    fun key group ids => xack_head srv (clk 0) (clk 1) key group ids⟩
  · intro h
    rw [hpc, h]
  · intro pre arg v rest i count block hpre harg hv
    exact scan_options_throws pre arg v rest i count block e hpre harg hv
  · intro args i count block h
    exact scan_options_error args i count block e h
  · intro cmd0 args hp hc hs
    rw [hp, process_parts_xread srv clk cmd0 args hc, hs]
  · intro cmd0 pre arg v rest hp hc hpre harg hv
    rw [hpc, hp, process_parts_xread srv clk cmd0 _ hc,
      scan_options_throws pre arg v rest 1 (-1) (-1) e hpre harg hv]
  · intro cmd0 x g c rest hp hl hc hs
    rw [hp, process_parts_xreadgroup srv clk cmd0 x g c rest hc hl, hs]
  · intro cmd0 x g c pre arg v rest hp hc hpre harg hv
    have hl : 2 ≤ (pre ++ arg :: v :: rest).length := by
      simp only [List.length_append, List.length_cons]
      omega
    rw [hpc, hp, process_parts_xreadgroup srv clk cmd0 x g c _ hc hl,
      scan_options_throws pre arg v rest 4 (-1) (-1) e hpre harg hv]
  · intro cmd0 key a b v hp hc hv
    have h1 : process_parts srv clk parts = .error e := by
      rw [hp, process_parts_xrange srv clk cmd0 _ hc]
      simp [process_command_xrange, hv]
    exact ⟨h1, by rw [hpc, h1]⟩
  · intro cmd0 key id rest hp hc hid
    rw [hpc, hp, process_parts_xadd_eq srv clk cmd0 _ hc]
    by_cases har : rest = [] ∨ rest.length % 2 ≠ 0
    · have h4 : (cmd0 :: key :: id :: rest).length < 4
          ∨ ((cmd0 :: key :: id :: rest).length - 3) % 2 ≠ 0 := by
        rcases har with h | h
        · left; rw [h]; simp
        · right
          simp only [List.length_cons]
          omega
      rw [if_pos h4, if_pos har]
      rfl
    · have hne : rest ≠ [] := fun h => har (Or.inl h)
      have hev : rest.length % 2 = 0 := by
        by_contra h
        exact har (Or.inr h)
      have hpos : 0 < rest.length := List.length_pos.mpr hne
      have h4 : ¬ ((cmd0 :: key :: id :: rest).length < 4
          ∨ ((cmd0 :: key :: id :: rest).length - 3) % 2 ≠ 0) := by
        simp only [List.length_cons]
        omega
      obtain ⟨fields, hf⟩ := field_pairs_some rest hev
      rw [if_neg h4, if_neg har]
      simp only [hf, Option.map_some', Option.some.injEq]
      have : xadd_try (clk 0 0) (clk 0 1) (srv.stream_or_new key) id fields = .error e := by
        simp [xadd_try, hid]
      rw [xadd_of_error srv (clk 0 0) (clk 0 1) key id fields e this]
  · intro cmd0 key a b rest st hp hc hst hbad
    rw [hpc, hp, process_parts_xrange srv clk cmd0 _ hc]
    unfold process_command_xrange
    by_cases hl : rest.length > 2
    · have h6 : (cmd0 :: key :: a :: b :: rest).length < 4
          ∨ (cmd0 :: key :: a :: b :: rest).length > 6 := by
        right
        simp only [List.length_cons]
        omega
      rw [if_pos h6, if_pos hl]
      rfl
    · have h6 : ¬ ((cmd0 :: key :: a :: b :: rest).length < 4
          ∨ (cmd0 :: key :: a :: b :: rest).length > 6) := by
        simp only [List.length_cons]
        omega
      have hcond : ((cmd0 :: key :: a :: b :: rest).length ≥ 6
          ∧ (cmd0 :: key :: a :: b :: rest).getD 4 "" = "COUNT")
          ↔ (rest.length ≥ 2 ∧ rest.getD 0 "" = "COUNT") := by
        simp only [List.length_cons, List.getD_cons_succ]
        constructor
        · rintro ⟨h1, h2⟩; exact ⟨by omega, h2⟩
        · rintro ⟨h1, h2⟩; exact ⟨by omega, h2⟩
      have h5 : (cmd0 :: key :: a :: b :: rest).getD 5 "" = rest.getD 1 "" := by
        simp only [List.getD_cons_succ]
      rw [if_neg h6, if_neg hl]
      simp only [hcond, h5]
      cases hcnt : (if rest.length ≥ 2 ∧ rest.getD 0 "" = "COUNT"
          then stoi (rest.getD 1 "") else Except.ok (-1)) with
      | error e2 => rfl
      | ok n =>
        simp only [List.getD_cons_succ, List.getD_cons_zero]
        rcases hbad with ⟨ha, hae⟩ | ⟨ha, hb, hbe⟩
        · simp [xrange, hst, ha, hae]
        · rcases ha with ha | ⟨x, hx⟩
          · simp [xrange, hst, ha, hb, hbe]
          · by_cases ha2 : a = "-"
            · simp [xrange, hst, ha2, hb, hbe]
            · simp [xrange, hst, ha2, hx, hb, hbe]

end RedisServer

/-- An instance of C26: `XREAD COUNT abc STREAMS s 0-0`, whose COUNT value
`std::stoi` refuses; `XREAD BLOCK 5 COUNT abc STREAMS s 0-0`, where the
refused value is read after the option `BLOCK 5`; and
`XRANGE s bad + COUNT 2` on the existing stream `s`. -/
theorem RedisServer.C26_parse_failures_witness :
    RedisProtocol.parse_command "XREAD COUNT abc STREAMS s 0-0"
      = .ok (some ["XREAD", "COUNT", "abc", "STREAMS", "s", "0-0"]) ∧
    RedisServer.process_command RedisServer.after_S1 (fun _ _ => 0) "XREAD COUNT abc STREAMS s 0-0"
      = some ("-ERR stoi\r\n", RedisServer.after_S1) ∧
    RedisServer.process_command RedisServer.after_S1 (fun _ _ => 0)
        "XREAD BLOCK 5 COUNT abc STREAMS s 0-0"
      = some ("-ERR stoi\r\n", RedisServer.after_S1) ∧
    RedisServer.process_command RedisServer.after_S1 (fun _ _ => 0) "XRANGE s bad + COUNT 2"
      = some ("-ERR Invalid stream ID format\r\n", RedisServer.after_S1) :=
  ⟨by decide,
    (RedisServer.C26_parse_failures RedisServer.after_S1 (fun _ _ => 0)
      "XREAD COUNT abc STREAMS s 0-0" ["XREAD", "COUNT", "abc", "STREAMS", "s", "0-0"]
      (.invalid_argument "stoi") (by decide)).1 (by decide),
    (RedisServer.C26_parse_failures RedisServer.after_S1 (fun _ _ => 0)
      "XREAD BLOCK 5 COUNT abc STREAMS s 0-0"
      ["XREAD", "BLOCK", "5", "COUNT", "abc", "STREAMS", "s", "0-0"]
      (.invalid_argument "stoi") (by decide)).2.2.2.2.2.1 "XREAD" ["BLOCK", "5"] "COUNT" "abc"
      ["STREAMS", "s", "0-0"] rfl (by decide) (by decide) (Or.inl (by decide)) (by decide),
    (RedisServer.C26_parse_failures RedisServer.after_S1 (fun _ _ => 0)
      "XRANGE s bad + COUNT 2" ["XRANGE", "s", "bad", "+", "COUNT", "2"]
      (.invalid_argument "Invalid stream ID format") (by decide)).2.2.2.2.2.2.2.2.2.2.1
      "XRANGE" "s" "bad" "+"
      ["COUNT", "2"] (RedisServer.after_S1.stream_or_new "s") rfl (by decide) (by decide)
      (Or.inl ⟨by decide, by decide⟩)⟩

/-! ## C28: `process_command` returns a reply -/

theorem stoi_chars_range (cs : List Char) (v : Int) (h : stoi_chars cs = .ok v) :
    -2147483648 ≤ v ∧ v ≤ 2147483647 := by
  unfold stoi_chars at h
  simp only at h
  repeat' (split at h)
  all_goals (try (exact Except.noConfusion h))
  all_goals
    rename_i hr
    simp only [Except.ok.injEq] at h
    subst h
    simp only [Int.ofNat_eq_coe] at hr ⊢
    omega

namespace RedisProtocol

theorem find_crlf_bound : ∀ (l : List Char) (k : Nat), find_crlf l = some k → k + 2 ≤ l.length
  | [], _, h => by simp [find_crlf] at h
  | [_], _, h => by simp [find_crlf] at h
  | c :: d :: rest, k, h => by
    rw [find_crlf_cons] at h
    split at h
    · simp only [Option.some.injEq] at h
      simp only [List.length_cons]
      omega
    · cases hr : find_crlf (d :: rest) with
      | none => rw [hr] at h; simp at h
      | some j =>
        rw [hr] at h
        simp only [Option.map_some', Option.some.injEq] at h
        have := find_crlf_bound (d :: rest) j hr
        simp only [List.length_cons] at this ⊢
        omega

theorem find_from_bound (input : String) (p q : Nat) (h : find_from input p = some q) :
    q + 2 ≤ input.length := by
  unfold find_from at h
  cases hr : find_crlf (input.data.drop p) with
  | none => rw [hr] at h; simp at h
  | some j =>
    rw [hr] at h
    simp only [Option.map_some', Option.some.injEq] at h
    have hb := find_crlf_bound _ j hr
    rw [List.length_drop] at hb
    have hl : input.length = input.data.length := rfl
    omega

theorem parse_bulk_string_defined (input : String) (pos : Nat)
    (hlen : input.length < 2147483646) : parse_bulk_string input pos ≠ .ok none := by
  unfold parse_bulk_string
  split
  · simp
  · cases hf : find_from input (pos + 1) with
    | none => simp
    | some length_end =>
      have hb := find_from_bound input _ _ hf
      simp only
      cases hs : stoi_chars (substr input (pos + 1) (length_end - (pos + 1))) with
      | error e => simp
      | ok length =>
        have hr := stoi_chars_range _ _ hs
        simp only
        split
        · simp
        · split
          · simp
          · rename_i h1 h2
            split
            · rename_i h3
              exfalso
              apply h2
              have : ((Int.ofNat (length_end + 2) + length) % 18446744073709551616).toNat
                  = length_end + 2 + length.toNat := by
                simp only [Int.ofNat_eq_coe]
                omega
              rw [this]
              omega
            · simp

theorem parse_elements_defined (input : String) (hlen : input.length < 2147483646) :
    ∀ (n pos : Nat), parse_elements input n pos ≠ .ok none := by
  intro n
  induction n with
  | zero => intro pos; simp [parse_elements]
  | succ n ih =>
    intro pos
    unfold parse_elements
    split
    · simp
    · split
      · cases hb : parse_bulk_string input pos with
        | error e => simp
        | ok r =>
          cases r with
          | none => exact absurd hb (parse_bulk_string_defined input pos hlen)
          | some p =>
            obtain ⟨s, pos1⟩ := p
            simp only
            cases hr : parse_elements input n pos1 with
            | error e => simp
            | ok r2 =>
              cases r2 with
              | none => exact absurd hr (ih pos1)
              | some rest => simp
      · split
        · cases hb : parse_integer input pos with
          | error e => simp
          | ok p =>
            obtain ⟨v, pos1⟩ := p
            simp only
            cases hr : parse_elements input n pos1 with
            | error e => simp
            | ok r2 =>
              cases r2 with
              | none => exact absurd hr (ih pos1)
              | some rest => simp
        · split
          · cases hf : find_from input (pos + 1) with
            | none => simp
            | some end_pos =>
              simp only
              cases hr : parse_elements input n (end_pos + 2) with
              | error e => simp
              | ok r2 =>
                cases r2 with
                | none => exact absurd hr (ih _)
                | some rest => simp
          · simp

theorem parse_command_defined (input : String) (hlen : input.length < 2147483646) :
    parse_command input ≠ .ok none := by
  unfold parse_command
  split
  · simp
  · split
    · unfold parse_array
      split
      · simp
      · cases hf : find_from input (0 + 1) with
        | none => simp
        | some length_end =>
          simp only
          cases hs : stoi_chars (substr input (0 + 1) (length_end - (0 + 1))) with
          | error e => simp
          | ok length =>
            simp only
            split
            · simp
            · split
              · simp
              · exact parse_elements_defined input hlen _ _
    · simp

end RedisProtocol

namespace RedisServer

open RedisProtocol

theorem process_parts_xlen (srv : RedisServer) (clk : Nat → Nat → Nat) (cmd0 : String)
    (args : List String) (h : to_upper cmd0 = "XLEN") :
    process_parts srv clk (cmd0 :: args) =
      if (cmd0 :: args).length ≠ 2 then
        .ok (some (format_error "ERR wrong number of arguments for 'xlen' command", srv))
      else
        match args with
        | stream_name :: _ => .ok (some (srv.xlen stream_name, srv))
        | _ => .ok none := by
  simp only [process_parts, h]
  rfl

theorem process_parts_xdel (srv : RedisServer) (clk : Nat → Nat → Nat) (cmd0 : String)
    (args : List String) (h : to_upper cmd0 = "XDEL") :
    process_parts srv clk (cmd0 :: args) =
      if (cmd0 :: args).length < 3 then
        .ok (some (format_error "ERR wrong number of arguments for 'xdel' command", srv))
      else
        match args with
        | stream_name :: ids => .ok (some (srv.xdel (clk 0) stream_name ids))
        | _ => .ok none := by
  simp only [process_parts, h]
  rfl

theorem process_parts_xgroup (srv : RedisServer) (clk : Nat → Nat → Nat) (cmd0 : String)
    (args : List String) (h : to_upper cmd0 = "XGROUP") :
    process_parts srv clk (cmd0 :: args) =
      if (cmd0 :: args).length < 2 then
        .ok (some (format_error "ERR wrong number of arguments for 'xgroup' command", srv))
      else
        match args with
        | subcommand :: rest =>
          if to_upper subcommand = "CREATE" ∧ (cmd0 :: args).length = 5 then
            match rest with
            | stream_name :: group_name :: start_id :: _ =>
              .ok (some (srv.xgroup_create (clk 0 0) stream_name group_name start_id))
            | _ => .ok none
          else
            .ok (some (format_error "ERR Unknown XGROUP subcommand or wrong number of arguments",
              srv))
        | _ => .ok none := by
  simp only [process_parts, h]
  rfl

theorem process_parts_xack (srv : RedisServer) (clk : Nat → Nat → Nat) (cmd0 : String)
    (args : List String) (h : to_upper cmd0 = "XACK") :
    process_parts srv clk (cmd0 :: args) =
      if (cmd0 :: args).length < 4 then
        .ok (some (format_error "ERR wrong number of arguments for 'xack' command", srv))
      else
        match args with
        | stream_name :: group_name :: ids =>
          .ok (some (srv.xack (clk 0) (clk 1) stream_name group_name ids))
        | _ => .ok none := by
  simp only [process_parts, h]
  rfl

theorem process_parts_short_xreadgroup (srv : RedisServer) (clk : Nat → Nat → Nat)
    (cmd0 : String) (args : List String) (h : to_upper cmd0 = "XREADGROUP")
    (hl : (cmd0 :: args).length < 6) :
    process_parts srv clk (cmd0 :: args) =
      .ok (some (format_error "ERR wrong number of arguments for 'xreadgroup' command", srv)) := by
  simp only [process_parts, h, hl]
  rfl

theorem process_parts_other (srv : RedisServer) (clk : Nat → Nat → Nat) (cmd0 : String)
    (args : List String) (h1 : to_upper cmd0 ≠ "XADD") (h2 : to_upper cmd0 ≠ "XREAD")
    (h3 : to_upper cmd0 ≠ "XRANGE") (h4 : to_upper cmd0 ≠ "XLEN") (h5 : to_upper cmd0 ≠ "XDEL")
    (h6 : to_upper cmd0 ≠ "XGROUP") (h7 : to_upper cmd0 ≠ "XREADGROUP")
    (h8 : to_upper cmd0 ≠ "XACK") :
    process_parts srv clk (cmd0 :: args) =
      if to_upper cmd0 = "PING" then .ok (some (format_simple_string "PONG", srv))
      else .ok (some (format_error ("ERR unknown command '" ++ cmd0 ++ "'"), srv)) := by
  simp only [process_parts, h1, h2, h3, h4, h5, h6, h7, h8, if_false]

theorem xread_loop_defined (srv : RedisServer) (count : Int) (clk : Nat → Nat) :
    ∀ (streams ids : List String) (i : Nat), streams.length ≤ ids.length →
      ∃ r, xread_loop srv count clk streams ids i = some r := by
  intro streams
  induction streams with
  | nil => intro ids i _; exact ⟨[], by simp [xread_loop]⟩
  | cons name rest ih =>
    intro ids i hl
    cases ids with
    | nil => simp at hl
    | cons id_str ids2 =>
      have hl2 : rest.length ≤ ids2.length := by
        simp only [List.length_cons] at hl; omega
      obtain ⟨r, hr⟩ := ih ids2 (i + 1) hl2
      simp only [xread_loop]
      split
      · exact ⟨r, hr⟩
      · split
        · exact ⟨r, hr⟩
        · rw [hr]
          exact ⟨_, rfl⟩

/-- Outside the XRANGE branch, no index that `process_command` uses falls
outside `parts`, or outside `ids` in `xread`. -/
theorem process_parts_defined (srv : RedisServer) (clk : Nat → Nat → Nat) (parts : List String)
    (h : ∀ cmd0 args, parts = cmd0 :: args → to_upper cmd0 ≠ "XRANGE") :
    process_parts srv clk parts ≠ .ok none := by
  cases parts with
  | nil => simp [process_parts]
  | cons cmd0 args =>
    have hx := h cmd0 args rfl
    by_cases h1 : to_upper cmd0 = "XADD"
    · rw [process_parts_xadd_eq srv clk cmd0 args h1]
      split
      · simp
      · rename_i hlen
        rcases args with _ | ⟨a1, _ | ⟨a2, rest⟩⟩
        · simp at hlen
        · simp at hlen
        · simp only [List.length_cons, not_or, not_lt, ne_eq, not_not] at hlen
          obtain ⟨fields, hf⟩ := field_pairs_some rest (by omega)
          simp [hf]
    · by_cases h2 : to_upper cmd0 = "XREAD"
      · rw [process_parts_xread srv clk cmd0 args h2]
        cases hs : scan_options args 1 (-1) (-1) with
        | error e => simp
        | ok r =>
          obtain ⟨streams_pos, count, block⟩ := r
          simp only
          split
          · simp
          · split
            · simp
            · rename_i hsp hbal
              simp only [not_or, not_not, ne_eq] at hsp hbal
              obtain ⟨res, hres⟩ := xread_loop_defined srv count (fun i => clk i 0)
                (((cmd0 :: args).drop streams_pos).take (((cmd0 :: args).length - streams_pos) / 2))
                ((cmd0 :: args).drop (streams_pos + ((cmd0 :: args).length - streams_pos) / 2)) 0
                (by
                  simp only [List.length_take, List.length_drop]
                  omega)
              simp only [xread, hres]
              simp
      · by_cases h3 : to_upper cmd0 = "XLEN"
        · rw [process_parts_xlen srv clk cmd0 args h3]
          rcases args with _ | ⟨a1, rest⟩
          · simp
          · split <;> simp
        · by_cases h4 : to_upper cmd0 = "XDEL"
          · rw [process_parts_xdel srv clk cmd0 args h4]
            rcases args with _ | ⟨a1, rest⟩
            · simp
            · split <;> simp
          · by_cases h5 : to_upper cmd0 = "XGROUP"
            · rw [process_parts_xgroup srv clk cmd0 args h5]
              rcases args with _ | ⟨a1, _ | ⟨a2, _ | ⟨a3, _ | ⟨a4, rest⟩⟩⟩⟩
              · simp
              · simp
              · simp
              · simp
              · simp only [List.length_cons]
                split
                · simp
                · split <;> simp
            · by_cases h6 : to_upper cmd0 = "XREADGROUP"
              · by_cases hl6 : (cmd0 :: args).length < 6
                · rw [process_parts_short_xreadgroup srv clk cmd0 args h6 hl6]
                  simp
                · rcases args with _ | ⟨a1, _ | ⟨a2, _ | ⟨a3, rest⟩⟩⟩
                  · simp at hl6
                  · simp at hl6
                  · simp at hl6
                  · have hl : 2 ≤ rest.length := by
                      simp only [List.length_cons] at hl6; omega
                    rw [process_parts_xreadgroup srv clk cmd0 a1 a2 a3 rest h6 hl]
                    cases hs : scan_options rest 4 (-1) (-1) with
                    | error e => simp
                    | ok r =>
                      obtain ⟨streams_pos, count, block⟩ := r
                      simp only
                      split
                      · simp
                      · split <;> simp
              · by_cases h7 : to_upper cmd0 = "XACK"
                · rw [process_parts_xack srv clk cmd0 args h7]
                  rcases args with _ | ⟨a1, _ | ⟨a2, rest⟩⟩
                  · simp
                  · simp
                  · split <;> simp
                · rw [process_parts_other srv clk cmd0 args h1 h2 hx h3 h4 h5 h6 h7]
                  split <;> simp

end RedisServer

/-- C28 (counterexample): on the server of scenario S1, the ID argument of
`XDEL s not-an-id` makes `from_string` throw `std::invalid_argument`, and the
reply is the integer `:0`, not `-ERR <message>`. -/
theorem RedisServer.C28_counterexample :
    StreamID.from_string 0 "not-an-id" = .error (.invalid_argument "stoull") ∧
    (RedisServer.process_command RedisServer.after_S1 (fun _ _ => 0) "XDEL s not-an-id").map
      (fun r => r.1) = some ":0\r\n" := by
  decide

namespace RedisServer

open RedisProtocol

/-- The XRANGE branch returns a reply when the stream is missing, when an
ID does not parse, and when the parsed bounds are in order on a well-formed
stream. -/
theorem process_parts_xrange_defined (srv : RedisServer) (clk : Nat → Nat → Nat) (cmd0 : String)
    (args : List String) (h : to_upper cmd0 = "XRANGE")
    (hord : ∀ st a b, map_find ((cmd0 :: args).getD 1 "") srv.streams_ = some st →
      (if (cmd0 :: args).getD 2 "" = "-" then Except.ok (⟨0, 0⟩ : StreamID)
        else StreamID.from_string (clk 0 0) ((cmd0 :: args).getD 2 "")) = .ok a →
      (if (cmd0 :: args).getD 3 "" = "+" then Except.ok (⟨UINT64_MAX, UINT64_MAX⟩ : StreamID)
        else StreamID.from_string (clk 0 1) ((cmd0 :: args).getD 3 "")) = .ok b →
      st.wf ∧ a.le b = true) :
    process_parts srv clk (cmd0 :: args) ≠ .ok none := by
  rw [process_parts_xrange srv clk cmd0 args h]
  unfold process_command_xrange
  by_cases hl : (cmd0 :: args).length < 4 ∨ (cmd0 :: args).length > 6
  · rw [if_pos hl]
    simp
  · rw [if_neg hl]
    simp only
    cases hcnt : (if (cmd0 :: args).length ≥ 6 ∧ (cmd0 :: args).getD 4 "" = "COUNT"
        then stoi ((cmd0 :: args).getD 5 "") else Except.ok (-1)) with
    | error e => simp
    | ok n =>
      simp only
      unfold xrange
      cases hf : map_find ((cmd0 :: args).getD 1 "") srv.streams_ with
      | none => simp
      | some st =>
        simp only
        cases ha : (if (cmd0 :: args).getD 2 "" = "-" then Except.ok (⟨0, 0⟩ : StreamID)
            else StreamID.from_string (clk 0 0) ((cmd0 :: args).getD 2 "")) with
        | error e => simp
        | ok a =>
          simp only
          cases hb : (if (cmd0 :: args).getD 3 "" = "+"
              then Except.ok (⟨UINT64_MAX, UINT64_MAX⟩ : StreamID)
              else StreamID.from_string (clk 0 1) ((cmd0 :: args).getD 3 "")) with
          | error e => simp
          | ok b =>
            obtain ⟨hwf, hab⟩ := hord st a b hf ha hb
            simp only
            rw [Stream.get_range_counted st hwf a b hab]
            simp

/-- C28 (amended): for every input shorter than 2^31-2 bytes, the parser has
no undefined behaviour, and an exception it throws gives the reply
`-ERR <what>` followed by CRLF, as does an exception thrown in the body of
`process_command` (by `std::stoi`); the server is then unchanged. For every
command other than XRANGE, `process_command` returns a reply: every index
into `parts`, and `ids[i]` in `xread`, is in bounds; XRANGE returns a reply
when the stream is missing, when an ID does not parse, and when the parsed
bounds are in order on a well-formed stream. An exception thrown by
`from_string` or `add_entry` inside `xadd`, or by `from_string` inside
`xgroup_create`, gives the reply `-ERR <what>`; an ID that `from_string`
refuses inside `xdel`, `xack` or `xread` is skipped. -/
theorem C28_process_command_replies (srv : RedisServer) (clk : Nat → Nat → Nat) (input : String)
    (hlen : input.length < 2147483646) :
    parse_command input ≠ .ok none ∧
    (∀ e, parse_command input = .error e →
      process_command srv clk input = some (format_error ("ERR " ++ e.what), srv)) ∧
    (∀ parts e, parse_command input = .ok (some parts) →
      process_parts srv clk parts = .error e →
      process_command srv clk input = some (format_error ("ERR " ++ e.what), srv)) ∧
    (∀ parts, parse_command input = .ok (some parts) →
      (∀ cmd0 args, parts = cmd0 :: args → to_upper cmd0 ≠ "XRANGE") →
      (process_command srv clk input).isSome = true) ∧
    (∀ cmd0 args, parse_command input = .ok (some (cmd0 :: args)) → to_upper cmd0 = "XRANGE" →
      (∀ st a b, map_find ((cmd0 :: args).getD 1 "") srv.streams_ = some st →
        (if (cmd0 :: args).getD 2 "" = "-" then Except.ok (⟨0, 0⟩ : StreamID)
          else StreamID.from_string (clk 0 0) ((cmd0 :: args).getD 2 "")) = .ok a →
        (if (cmd0 :: args).getD 3 "" = "+" then Except.ok (⟨UINT64_MAX, UINT64_MAX⟩ : StreamID)
          else StreamID.from_string (clk 0 1) ((cmd0 :: args).getD 3 "")) = .ok b →
        st.wf ∧ a.le b = true) →
      (process_command srv clk input).isSome = true) ∧
    (∀ m, format_error m = "-" ++ m ++ "\r\n") ∧
    (∀ now_parse now_add key id fields e,
      xadd_try now_parse now_add (srv.stream_or_new key) id fields = .error e →
      (srv.xadd now_parse now_add key id fields).1 = format_error ("ERR " ++ e.what)) ∧
    (∀ now key group start_id e, start_id ≠ "$" →
      StreamID.from_string now start_id = .error e →
      (srv.xgroup_create now key group start_id).1 = format_error ("ERR " ++ e.what)) ∧
    (∀ (c : Nat → Nat) id_str rest i e, StreamID.from_string (c i) id_str = .error e →
      parse_ids c (id_str :: rest) i = parse_ids c rest (i + 1)) ∧
    (∀ (c : Nat → Nat) count name id_str rest ids i e,
      StreamID.from_string (c i) id_str = .error e →
      xread_loop srv count c (name :: rest) (id_str :: ids) i
        = xread_loop srv count c rest ids (i + 1)) := by
  refine ⟨parse_command_defined input hlen, ?_, ?_, ?_, ?_, fun m => rfl, ?_, ?_, ?_, ?_⟩
  · intro e he
    unfold process_command
    rw [he]
  · intro parts e hp he
    rw [process_command_of_parts srv clk input parts hp, he]
  · intro parts hp hx
    rw [process_command_of_parts srv clk input parts hp]
    have hd := process_parts_defined srv clk parts hx
    cases hr : process_parts srv clk parts with
    | error e => rfl
    | ok r =>
      cases r with
      | none => exact absurd hr hd
      | some p => rfl
  · intro cmd0 args hp hc hord
    rw [process_command_of_parts srv clk input _ hp]
    have hd := process_parts_xrange_defined srv clk cmd0 args hc hord
    cases hr : process_parts srv clk (cmd0 :: args) with
    | error e => rfl
    | ok r =>
      cases r with
      | none => exact absurd hr hd
      | some p => rfl
  · intro now_parse now_add key id fields e he
    rw [xadd_of_error srv now_parse now_add key id fields e he]
  · intro now key group start_id e hne he
    simp [xgroup_create, hne, he]
  · intro c id_str rest i e he
    simp [parse_ids, he]
  · intro c count name id_str rest ids i e he
    simp only [xread_loop, he]
    split <;> rfl

end RedisServer

/-- An instance of C28: a frame whose bulk string is cut short, and `PING`. -/
theorem RedisServer.C28_process_command_replies_witness :
    RedisProtocol.parse_command "*1\r\n$5\r\nab"
      = .error (.invalid_argument "Bulk string length exceeds input") ∧
    RedisServer.process_command RedisServer.after_S1 (fun _ _ => 0) "*1\r\n$5\r\nab"
      = some ("-ERR Bulk string length exceeds input\r\n", RedisServer.after_S1) ∧
    (RedisServer.process_command RedisServer.after_S1 (fun _ _ => 0) "PING").isSome = true :=
  ⟨by decide,
    (RedisServer.C28_process_command_replies RedisServer.after_S1 (fun _ _ => 0) "*1\r\n$5\r\nab"
      (by decide)).2.1 (.invalid_argument "Bulk string length exceeds input") (by decide),
    (RedisServer.C28_process_command_replies RedisServer.after_S1 (fun _ _ => 0) "PING"
      (by decide)).2.2.2.1 ["PING"] (by decide)
      (fun cmd0 args h => by
        cases h
        decide)⟩

/-! ## C29: the replies of XREAD and XREADGROUP -/

namespace RedisServer

open RedisProtocol

end RedisServer

/-! ## C35: `add_entry` and `length` -/

theorem EntryMap.emplace_length_fresh (key : StreamID) (value : StreamEntry) (m : EntryMap)
    (h : ∀ p ∈ m, p.1 ≠ key) : (EntryMap.emplace key value m).length = m.length + 1 := by
  induction m with
  | nil => rfl
  | cons p rest ih =>
    obtain ⟨k, v⟩ := p
    have hk : k ≠ key := h (k, v) (List.mem_cons_self _ _)
    have ih2 := ih (fun q hq => h q (List.mem_cons_of_mem _ hq))
    simp only [EntryMap.emplace]
    by_cases h1 : key.lt k = true
    · simp [h1]
    · by_cases h2 : k.lt key = true
      · simp [h1, h2, ih2]
      · exfalso
        apply hk
        exact StreamID.eq_of_not_lt (by simpa using h2) (by simpa using h1)

theorem StreamID.between_self (key k : StreamID) (h : k ≠ key) :
    (key.le k && k.le key) = false := by
  cases hb : (key.le k && k.le key) with
  | false => rfl
  | true =>
    exfalso
    rw [Bool.and_eq_true, StreamID.le_iff, StreamID.le_iff] at hb
    apply h
    cases k; cases key
    simp only [StreamID.mk.injEq]
    simp only at hb
    omega

theorem EntryMap.filter_emplace_fresh (key : StreamID) (value : StreamEntry) (m : EntryMap)
    (h : ∀ p ∈ m, p.1 ≠ key) :
    (EntryMap.emplace key value m).filter (fun p => key.le p.1 && p.1.le key)
      = [(key, value)] := by
  have hnil : ∀ (l : EntryMap), (∀ p ∈ l, p.1 ≠ key) →
      l.filter (fun p => key.le p.1 && p.1.le key) = [] := by
    intro l hl
    rw [List.filter_eq_nil_iff]
    intro p hp
    rw [StreamID.between_self key p.1 (hl p hp)]
    exact Bool.false_ne_true
  induction m with
  | nil => simp [EntryMap.emplace, StreamID.le_refl]
  | cons p rest ih =>
    obtain ⟨k, v⟩ := p
    have hk : k ≠ key := h (k, v) (List.mem_cons_self _ _)
    have hrest : ∀ q ∈ rest, q.1 ≠ key := fun q hq => h q (List.mem_cons_of_mem _ hq)
    simp only [EntryMap.emplace]
    by_cases h1 : key.lt k = true
    · simp only [h1, if_true]
      rw [List.filter_cons, StreamID.le_refl, Bool.and_self, if_pos rfl, hnil _ h]
    · by_cases h2 : k.lt key = true
      · simp only [h1, h2, if_true, if_false, Bool.false_eq_true]
        rw [List.filter_cons, StreamID.between_self key k hk]
        simp only [Bool.false_eq_true, if_false]
        exact ih hrest
      · exfalso
        apply hk
        exact StreamID.eq_of_not_lt (by simpa using h2) (by simpa using h1)

theorem Stream.add_entry_entries (now : Nat) (s : Stream) (id : StreamID)
    (fields : List (String × String)) (a : StreamID) (s1 : Stream)
    (hok : s.add_entry now id fields = .ok (a, s1)) :
    s1.entries_ = s.entries_.emplace a (StreamEntry.mk_from a fields) := by
  unfold Stream.add_entry at hok
  simp only at hok
  split at hok
  · exact Except.noConfusion hok
  · simp only [Except.ok.injEq, Prod.mk.injEq] at hok
    rw [← hok.2, ← hok.1]

/-- C35: in a reachable stream whose keys do not exceed `last_id_` and whose
`last_id_.sequence` is below 2^64-1, a successful `add_entry` returns an ID
that was not a key, `length()` grows by one, and `get_range(id, id, -1)`
returns exactly the new entry, which carries the returned ID. At the wrap of
the sequence number this fails: the stream reached from the empty one by
`add_entry(5-0)` and `add_entry(5-18446744073709551615)` holds two entries;
the next `add_entry(5-0)` succeeds and returns `5-0`, an ID that is already a
key: `emplace` leaves the map as it is, `length()` stays 2, and
`get_range(5-0, 5-0, -1)` returns the entry added first, with its fields, not
the fields of this call. -/
theorem Stream.C35_add_entry_on_existing_key :
    (∀ (now : Nat) (s : Stream) (id : StreamID) (fields : List (String × String))
        (a : StreamID) (s1 : Stream),
      s.Reachable → id.valid → (∀ p ∈ s.entries_, p.1.le s.last_id_ = true) →
      s.last_id_.sequence < UINT64_MAX → s.add_entry now id fields = .ok (a, s1) →
      (∀ p ∈ s.entries_, p.1 ≠ a) ∧ s1.length = s.length + 1 ∧
        s1.get_range a a (-1) = some [StreamEntry.mk_from a fields] ∧
        (StreamEntry.mk_from a fields).get_id = a) ∧
      (Stream.mk [(⟨5, 0⟩, ⟨⟨5, 0⟩, [("a", "1")]⟩), (⟨5, UINT64_MAX⟩, ⟨⟨5, UINT64_MAX⟩, []⟩)] []
        ⟨5, UINT64_MAX⟩).Reachable ∧
      (Stream.mk [(⟨5, 0⟩, ⟨⟨5, 0⟩, [("a", "1")]⟩), (⟨5, UINT64_MAX⟩, ⟨⟨5, UINT64_MAX⟩, []⟩)] []
        ⟨5, UINT64_MAX⟩).length = 2 ∧
      (Stream.mk [(⟨5, 0⟩, ⟨⟨5, 0⟩, [("a", "1")]⟩), (⟨5, UINT64_MAX⟩, ⟨⟨5, UINT64_MAX⟩, []⟩)] []
          ⟨5, UINT64_MAX⟩).add_entry 0 ⟨5, 0⟩ [("c", "3")]
        = .ok (⟨5, 0⟩,
          Stream.mk [(⟨5, 0⟩, ⟨⟨5, 0⟩, [("a", "1")]⟩), (⟨5, UINT64_MAX⟩, ⟨⟨5, UINT64_MAX⟩, []⟩)]
            [] ⟨5, 0⟩) ∧
      (Stream.mk [(⟨5, 0⟩, ⟨⟨5, 0⟩, [("a", "1")]⟩), (⟨5, UINT64_MAX⟩, ⟨⟨5, UINT64_MAX⟩, []⟩)] []
        ⟨5, 0⟩).length = 2 ∧
      (Stream.mk [(⟨5, 0⟩, ⟨⟨5, 0⟩, [("a", "1")]⟩), (⟨5, UINT64_MAX⟩, ⟨⟨5, UINT64_MAX⟩, []⟩)] []
        ⟨5, 0⟩).get_range ⟨5, 0⟩ ⟨5, 0⟩ (-1) = some [⟨⟨5, 0⟩, [("a", "1")]⟩] := by
  have h1 : Stream.mk_new.add_entry 0 ⟨5, 0⟩ [("a", "1")]
      = .ok (⟨5, 0⟩, Stream.mk [(⟨5, 0⟩, ⟨⟨5, 0⟩, [("a", "1")]⟩)] [] ⟨5, 0⟩) := by decide
  have h2 : (Stream.mk [(⟨5, 0⟩, ⟨⟨5, 0⟩, [("a", "1")]⟩)] [] ⟨5, 0⟩).add_entry 0
      ⟨5, UINT64_MAX⟩ []
      = .ok (⟨5, UINT64_MAX⟩,
        Stream.mk [(⟨5, 0⟩, ⟨⟨5, 0⟩, [("a", "1")]⟩), (⟨5, UINT64_MAX⟩, ⟨⟨5, UINT64_MAX⟩, []⟩)]
          [] ⟨5, UINT64_MAX⟩) := by decide
  refine ⟨?_, .add (.add .empty 0 ⟨5, 0⟩ [("a", "1")] _ _ (by decide) h1) 0 ⟨5, UINT64_MAX⟩ [] _ _
    (by decide) h2, by decide, by decide, by decide, by decide⟩
  intro now s id fields a s1 hreach hid hkeys hseq hok
  obtain ⟨hwf, hlv⟩ := Stream.reachable_wf s hreach
  have hgt := (Stream.add_entry_gt_last now s id fields a s1 hseq hok).1
  have hfresh : ∀ p ∈ s.entries_, p.1 ≠ a := by
    intro p hp
    exact StreamID.ne_of_lt (StreamID.lt_of_le_of_lt (hkeys p hp) hgt)
  have hent := Stream.add_entry_entries now s id fields a s1 hok
  have hwf1 := (Stream.add_entry_wf now s id fields a s1 hwf hlv hid hok).1
  refine ⟨hfresh, ?_, ?_, rfl⟩
  · unfold Stream.length
    rw [hent, EntryMap.emplace_length_fresh a _ _ hfresh]
  · rw [Stream.get_range_of_le s1 hwf1 a a (StreamID.le_refl a) (-1) (by decide), hent,
      EntryMap.filter_emplace_fresh a _ _ hfresh]
    rfl

/-! ## C34: the text form of an ID as a key -/

/-- C34: for an ID `a` made of two unsigned 64-bit integers,
`from_string(a.to_string())` is `a`; two IDs with the same text form are
equal. So for IDs `a` and `b` that differ, writing or erasing the PEL record
of `b` leaves the lookup of `a` as it was, and adding `b` to, or removing it
from, a consumer's pending set leaves the membership of `a` as it was; the
record written under `a` is found under `a`, and `a` is in the pending set
after it was added. -/
theorem StreamID.C34_text_form_is_a_key (now : Nat) (a b : StreamID) (ha : a.valid)
    (pel : List (String × PendingEntry)) (pe : PendingEntry) (c : Consumer) :
    StreamID.from_string now a.to_string = .ok a ∧
    (a.to_string = b.to_string → a = b) ∧
    (a ≠ b → map_find a.to_string (map_assign b.to_string pe pel) = map_find a.to_string pel) ∧
    (a ≠ b → map_find a.to_string (map_erase b.to_string pel) = map_find a.to_string pel) ∧
    (a ≠ b → (c.add_pending_message b).has_pending_message a = c.has_pending_message a) ∧
    (a ≠ b → (c.remove_pending_message b).has_pending_message a = c.has_pending_message a) ∧
    map_find a.to_string (map_assign a.to_string pe pel) = some pe ∧
    (c.add_pending_message a).has_pending_message a = true := by
  have hk : a ≠ b → a.to_string ≠ b.to_string :=
    fun hab h => hab (StreamID.to_string_injective a b h)
  refine ⟨StreamID.from_string_to_string now a ha, StreamID.to_string_injective a b, ?_, ?_, ?_,
    ?_, ?_, ?_⟩
  · intro hab
    rw [map_find_assign, if_neg (hk hab)]
  · intro hab
    rw [map_find_erase, if_neg (hk hab)]
  · intro hab
    unfold Consumer.has_pending_message
    have := Consumer.mem_add_pending c b a.to_string
    simp only [hk hab, or_false] at this
    exact decide_eq_decide.mpr this
  · intro hab
    unfold Consumer.has_pending_message
    have := Consumer.mem_remove_pending c b a.to_string
    simp only [ne_eq, hk hab, not_false_eq_true, and_true] at this
    exact decide_eq_decide.mpr this
  · rw [map_find_assign, if_pos rfl]
  · unfold Consumer.has_pending_message
    rw [decide_eq_true_eq, Consumer.mem_add_pending]
    exact Or.inr rfl

/-- An instance of C34: the ID `5-7`, and the largest ID. -/
theorem StreamID.C34_text_form_is_a_key_witness :
    (StreamID.mk 5 7).valid ∧
    StreamID.from_string 0 (StreamID.mk 5 7).to_string = .ok ⟨5, 7⟩ ∧
    StreamID.from_string 0 (StreamID.mk UINT64_MAX UINT64_MAX).to_string
      = .ok ⟨UINT64_MAX, UINT64_MAX⟩ :=
  ⟨by decide,
    (StreamID.C34_text_form_is_a_key 0 ⟨5, 7⟩ ⟨5, 8⟩ (by decide) [] ⟨⟨5, 7⟩, "c", 0, 1⟩
      (Consumer.mk_new 0 "c")).1,
    (StreamID.C34_text_form_is_a_key 0 ⟨UINT64_MAX, UINT64_MAX⟩ ⟨5, 8⟩ (by decide) []
      ⟨⟨5, 7⟩, "c", 0, 1⟩ (Consumer.mk_new 0 "c")).1⟩

/-! ## C32, C33: what one delivery returns and records -/

namespace ConsumerGroup

/-- The entries returned by the delivery loop are a subsequence of the
candidates, with strictly increasing IDs. -/
theorem read_loop_sublist (cn : String) (count : Int) (clk : Nat → Nat)
    (entries : List StreamEntry) :
    ∀ (g : ConsumerGroup) (delivered : Int),
      (read_loop cn count clk entries g delivered).1.Sublist entries ∧
      (read_loop cn count clk entries g delivered).1.Pairwise
        (fun x y => x.id_.lt y.id_ = true) := by
  induction entries with
  | nil => intro g delivered; simp [read_loop]
  | cons entry rest ih =>
    intro g delivered
    simp only [read_loop]
    by_cases hstop : count > 0 ∧ delivered ≥ count
    · simp [hstop]
    · simp only [hstop, if_false]
      by_cases hgt : entry.get_id.gt g.last_delivered_id_ = true
      · simp only [hgt, if_true]
        obtain ⟨i1, i2⟩ := ih
          (ConsumerGroup.mk g.name_ entry.get_id
            (map_modify cn (fun c => c.add_pending_message entry.get_id) g.consumers_)
            (map_assign entry.get_id.to_string
              ⟨entry.get_id, cn, clk delivered.toNat % U64, 1⟩ g.pending_entries_))
          (delivered + 1)
        have hb := (read_loop_bounds cn count clk rest
          (ConsumerGroup.mk g.name_ entry.get_id
            (map_modify cn (fun c => c.add_pending_message entry.get_id) g.consumers_)
            (map_assign entry.get_id.to_string
              ⟨entry.get_id, cn, clk delivered.toNat % U64, 1⟩ g.pending_entries_))
          (delivered + 1)).2
        refine ⟨List.Sublist.cons₂ entry i1, List.pairwise_cons.mpr ⟨?_, i2⟩⟩
        intro e he
        exact (hb e he).1
      · simp only [hgt, if_false, Bool.false_eq_true]
        obtain ⟨i1, i2⟩ := ih g delivered
        exact ⟨List.Sublist.cons entry i1, i2⟩

/-- The PEL after the delivery loop: a record with the loop's consumer as
owner and delivery count 1 for every returned entry, and the lookup of every
other key as before. -/
theorem read_loop_records (cn : String) (count : Int) (clk : Nat → Nat)
    (entries : List StreamEntry) :
    ∀ (g : ConsumerGroup) (delivered : Int),
      (∀ e ∈ (read_loop cn count clk entries g delivered).1,
        ∃ pe, map_find e.id_.to_string
            (read_loop cn count clk entries g delivered).2.pending_entries_ = some pe ∧
          pe.id = e.id_ ∧ pe.consumer_name = cn ∧ pe.delivery_count = 1) ∧
      (∀ k, (∀ e ∈ (read_loop cn count clk entries g delivered).1, e.id_.to_string ≠ k) →
        map_find k (read_loop cn count clk entries g delivered).2.pending_entries_
          = map_find k g.pending_entries_) := by
  induction entries with
  | nil => intro g delivered; simp [read_loop]
  | cons entry rest ih =>
    intro g delivered
    simp only [read_loop]
    by_cases hstop : count > 0 ∧ delivered ≥ count
    · simp [hstop]
    · simp only [hstop, if_false]
      by_cases hgt : entry.get_id.gt g.last_delivered_id_ = true
      · simp only [hgt, if_true]
        obtain ⟨i1, i2⟩ := ih
          (ConsumerGroup.mk g.name_ entry.get_id
            (map_modify cn (fun c => c.add_pending_message entry.get_id) g.consumers_)
            (map_assign entry.get_id.to_string
              ⟨entry.get_id, cn, clk delivered.toNat % U64, 1⟩ g.pending_entries_))
          (delivered + 1)
        have hb := (read_loop_bounds cn count clk rest
          (ConsumerGroup.mk g.name_ entry.get_id
            (map_modify cn (fun c => c.add_pending_message entry.get_id) g.consumers_)
            (map_assign entry.get_id.to_string
              ⟨entry.get_id, cn, clk delivered.toNat % U64, 1⟩ g.pending_entries_))
          (delivered + 1)).2
        have hfresh : ∀ e ∈ (read_loop cn count clk rest
            (ConsumerGroup.mk g.name_ entry.get_id
              (map_modify cn (fun c => c.add_pending_message entry.get_id) g.consumers_)
              (map_assign entry.get_id.to_string
                ⟨entry.get_id, cn, clk delivered.toNat % U64, 1⟩ g.pending_entries_))
            (delivered + 1)).1, e.id_.to_string ≠ entry.get_id.to_string := by
          intro e he hk
          have hlt := (hb e he).1
          have heq := StreamID.to_string_injective _ _ hk
          simp only at hlt
          rw [heq, StreamID.lt_irrefl] at hlt
          exact Bool.false_ne_true hlt
        refine ⟨?_, ?_⟩
        · intro e he
          rcases List.mem_cons.mp he with he | he
          · rw [he]
            refine ⟨⟨entry.get_id, cn, clk delivered.toNat % U64, 1⟩, ?_, rfl, rfl, rfl⟩
            have := i2 entry.get_id.to_string hfresh
            simp only [map_find_assign, if_true] at this
            exact this
          · exact i1 e he
        · intro k hk
          have hk0 : k ≠ entry.get_id.to_string :=
            fun h => hk entry (List.mem_cons_self _ _) h.symm
          have := i2 k (fun e he => hk e (List.mem_cons_of_mem _ he))
          rw [this]
          simp only [map_find_assign, hk0, if_false]
      · simp only [hgt, if_false, Bool.false_eq_true]
        exact ih g delivered

/-- The consumer of the delivery loop stays registered, keeps the keys it
held, and holds the key of every returned entry. -/
theorem read_loop_pending (cn : String) (count : Int) (clk : Nat → Nat)
    (entries : List StreamEntry) :
    ∀ (g : ConsumerGroup) (delivered : Int) (c0 : Consumer),
      map_find cn g.consumers_ = some c0 →
      ∃ c1, map_find cn (read_loop cn count clk entries g delivered).2.consumers_ = some c1 ∧
        (∀ k ∈ c0.pending_messages_, k ∈ c1.pending_messages_) ∧
        ∀ e ∈ (read_loop cn count clk entries g delivered).1,
          e.id_.to_string ∈ c1.pending_messages_ := by
  induction entries with
  | nil =>
    intro g delivered c0 h0
    exact ⟨c0, by simpa [read_loop] using h0, fun k hk => hk, by simp [read_loop]⟩
  | cons entry rest ih =>
    intro g delivered c0 h0
    simp only [read_loop]
    by_cases hstop : count > 0 ∧ delivered ≥ count
    · simp only [hstop, and_self, if_true]
      exact ⟨c0, h0, fun k hk => hk, by simp⟩
    · simp only [hstop, if_false]
      by_cases hgt : entry.get_id.gt g.last_delivered_id_ = true
      · simp only [hgt, if_true]
        have h1 : map_find cn
            (map_modify cn (fun c => c.add_pending_message entry.get_id) g.consumers_)
            = some (c0.add_pending_message entry.get_id) := by
          rw [map_find_modify, if_pos rfl, h0]
          rfl
        obtain ⟨c1, j1, j2, j3⟩ := ih
          (ConsumerGroup.mk g.name_ entry.get_id
            (map_modify cn (fun c => c.add_pending_message entry.get_id) g.consumers_)
            (map_assign entry.get_id.to_string
              ⟨entry.get_id, cn, clk delivered.toNat % U64, 1⟩ g.pending_entries_))
          (delivered + 1) _ h1
        refine ⟨c1, j1, ?_, ?_⟩
        · intro k hk
          exact j2 k ((Consumer.mem_add_pending c0 entry.get_id k).mpr (Or.inl hk))
        · intro e he
          rcases List.mem_cons.mp he with he | he
          · rw [he]
            exact j2 _ ((Consumer.mem_add_pending c0 entry.get_id _).mpr (Or.inr rfl))
          · exact j3 e he
      · simp only [hgt, if_false, Bool.false_eq_true]
        exact ih g delivered c0 h0

/-- C32: for every group state, consumer name, count and candidate list
(sorted or not, with or without repeated IDs), the entries returned by
`read_pending_messages` are a subsequence of the candidates, their IDs are
strictly increasing, and each is strictly greater than the group's
`last_delivered_id_` before the call. -/
theorem C32_returned_entries_ascend (now_create now_seen : Nat) (clk : Nat → Nat)
    (g : ConsumerGroup) (c : String) (candidates : List StreamEntry) (count : Int) :
    (g.read_pending_messages now_create now_seen clk c candidates count).1.Sublist candidates ∧
    (g.read_pending_messages now_create now_seen clk c candidates count).1.Pairwise
      (fun x y => x.get_id.lt y.get_id = true) ∧
    ∀ e ∈ (g.read_pending_messages now_create now_seen clk c candidates count).1,
      e.get_id.gt g.get_last_delivered_id = true := by
  have hs := read_loop_sublist c count clk candidates
    (ConsumerGroup.mk (g.get_or_create_consumer now_create c).name_
      (g.get_or_create_consumer now_create c).last_delivered_id_
      (map_modify c (Consumer.update_seen_time now_seen)
        (g.get_or_create_consumer now_create c).consumers_)
      (g.get_or_create_consumer now_create c).pending_entries_) 0
  have hb := read_pending_bounds now_create now_seen clk g c candidates count
  unfold read_pending_messages at hb ⊢
  exact ⟨hs.1, hs.2, fun e he => (hb.2 e he).1⟩

/-- C33: after `read_pending_messages(c, candidates, count)`, for every
returned entry the PEL holds, under the text of its ID, a record with that
ID, owner `c` and delivery count 1; consumer `c` is registered (also when
nothing was returned) and its pending set holds the ID of every returned
entry; and the PEL lookup of every ID that was not returned is as before
the call. -/
theorem C33_delivery_records (now_create now_seen : Nat) (clk : Nat → Nat)
    (g : ConsumerGroup) (c : String) (candidates : List StreamEntry) (count : Int) :
    (∀ e ∈ (g.read_pending_messages now_create now_seen clk c candidates count).1,
      ∃ pe, map_find e.get_id.to_string
          (g.read_pending_messages now_create now_seen clk c candidates count).2.pending_entries_
          = some pe ∧
        pe.id = e.get_id ∧ pe.consumer_name = c ∧ pe.delivery_count = 1) ∧
    (∃ cons, map_find c
        (g.read_pending_messages now_create now_seen clk c candidates count).2.consumers_
        = some cons ∧
      ∀ e ∈ (g.read_pending_messages now_create now_seen clk c candidates count).1,
        cons.has_pending_message e.get_id = true) ∧
    (∀ id : StreamID,
      (∀ e ∈ (g.read_pending_messages now_create now_seen clk c candidates count).1,
        e.get_id ≠ id) →
      map_find id.to_string
          (g.read_pending_messages now_create now_seen clk c candidates count).2.pending_entries_
        = map_find id.to_string g.pending_entries_) := by
  have hr := read_loop_records c count clk candidates
    (ConsumerGroup.mk (g.get_or_create_consumer now_create c).name_
      (g.get_or_create_consumer now_create c).last_delivered_id_
      (map_modify c (Consumer.update_seen_time now_seen)
        (g.get_or_create_consumer now_create c).consumers_)
      (g.get_or_create_consumer now_create c).pending_entries_) 0
  have hreg : ∃ c0, map_find c (map_modify c (Consumer.update_seen_time now_seen)
      (g.get_or_create_consumer now_create c).consumers_) = some c0 := by
    rw [map_find_modify, if_pos rfl, get_or_create_find, if_pos rfl]
    cases map_find c g.consumers_ with
    | none => exact ⟨_, rfl⟩
    | some x => exact ⟨_, rfl⟩
  obtain ⟨c0, hc0⟩ := hreg
  have hp := read_loop_pending c count clk candidates
    (ConsumerGroup.mk (g.get_or_create_consumer now_create c).name_
      (g.get_or_create_consumer now_create c).last_delivered_id_
      (map_modify c (Consumer.update_seen_time now_seen)
        (g.get_or_create_consumer now_create c).consumers_)
      (g.get_or_create_consumer now_create c).pending_entries_) 0 c0 hc0
  unfold read_pending_messages
  obtain ⟨c1, k1, _, k3⟩ := hp
  refine ⟨hr.1, ⟨c1, k1, ?_⟩, ?_⟩
  · intro e he
    unfold Consumer.has_pending_message
    rw [decide_eq_true_eq]
    exact k3 e he
  · intro id hid
    exact (hr.2 id.to_string
      (fun e he hk => hid e he (StreamID.to_string_injective _ _ hk))).trans
      (congrArg (map_find id.to_string) (get_or_create_pel now_create g c))

end ConsumerGroup

end RedisStreams
